import Mathlib

/-!
Verification of the bit-parallel sequence-to-graph alignment core of
`src/GraphAligner.h`.

The C++ core manipulates 64-bit machine words (`uint64_t`).  Words are
embedded as natural numbers kept below `2^64`; every arithmetic operation
that can wrap reduces modulo `2^64` (`wadd`, `wsub`, `wmul`, `wshl`).
Scores (`ScoreType`) are embedded as integers, lengths and indices as
natural numbers.  Fallible or possibly non-terminating code (the backtrace
BFS) is embedded with explicit fuel and returns `Option`.
-/

set_option maxRecDepth 100000

namespace GraphAligner

/-- Embeds `WordConfiguration<uint64_t>::WordSize`. -/
def wordSize : Nat := 64

/-- The modulus of `uint64_t` arithmetic, `2^64`. -/
def wordMod : Nat := 18446744073709551616

/-- Embeds `WordConfiguration<uint64_t>::AllOnes`. -/
def allOnes : Nat := 0xFFFFFFFFFFFFFFFF

/-- Embeds `WordConfiguration<uint64_t>::AllZeros`. -/
def allZeros : Nat := 0

/-- Embeds `WordConfiguration<uint64_t>::SignMask`. -/
def signMask : Nat := 0x8080808080808080

/-- Embeds `WordConfiguration<uint64_t>::LSBMask`. -/
def lsbMask : Nat := 0x0101010101010101

/-- Embeds `WordConfiguration<uint64_t>::PrefixSumMultiplierConstant`. -/
def prefixSumMultiplierConstant : Nat := 0x0101010101010101

/-- Embeds `WordConfiguration<uint64_t>::ChunkBits`. -/
def chunkBits : Nat := 8

/-- The mask `((Word)1) << (WordSize - 1)` used throughout the source. -/
def lastBitMask : Nat := 0x8000000000000000

/-- `uint64_t` addition (wraps modulo `2^64`). -/
def wadd (x y : Nat) : Nat := (x + y) % wordMod

/-- `uint64_t` subtraction (wraps modulo `2^64`; `y` is assumed `< 2^64`). -/
def wsub (x y : Nat) : Nat := (x + wordMod - y) % wordMod

/-- `uint64_t` multiplication (wraps modulo `2^64`). -/
def wmul (x y : Nat) : Nat := (x * y) % wordMod

/-- `uint64_t` left shift (wraps modulo `2^64`). -/
def wshl (x k : Nat) : Nat := (x <<< k) % wordMod

/-- `uint64_t` bitwise complement `~x` (for `x < 2^64`). -/
def wnot (x : Nat) : Nat := allOnes ^^^ x

/-- Embeds `WordConfiguration<uint64_t>::popcount` (the SWAR popcount of the
source, applied to a word`< 2^64`). -/
def popcount (x : Nat) : Nat :=
  let x1 := wsub x ((x >>> 1) &&& 0x5555555555555555)
  let x2 := wadd (x1 &&& 0x3333333333333333) ((x1 >>> 2) &&& 0x3333333333333333)
  let x3 := (wadd x2 (x2 >>> 4)) &&& 0x0f0f0f0f0f0f0f0f
  (wmul x3 0x0101010101010101) >>> 56

/-- Embeds `WordConfiguration<uint64_t>::ChunkPopcounts`: per-byte population
counts of a word. -/
def chunkPopcounts (value : Nat) : Nat :=
  let x1 := wsub value ((value >>> 1) &&& 0x5555555555555555)
  let x2 := wadd (x1 &&& 0x3333333333333333) ((x1 >>> 2) &&& 0x3333333333333333)
  (wadd x2 (x2 >>> 4)) &&& 0x0f0f0f0f0f0f0f0f

/-- Embeds the `WordSlice` class: the compact value carried in each DP cell. -/
structure WordSlice where
  VP : Nat
  VN : Nat
  scoreEnd : Int
  scoreBeforeStart : Int
deriving Repr, DecidableEq

/-- Embeds `getSourceSliceWithoutBefore(row)`. -/
def getSourceSliceWithoutBefore (row : Nat) : WordSlice :=
  ⟨allOnes, allZeros, (row : Int) + 64, (row : Int)⟩

/-- Embeds `getSourceSliceFromScore(previousScore)`. -/
def getSourceSliceFromScore (previousScore : Int) : WordSlice :=
  ⟨allOnes, allZeros, previousScore + 64, previousScore⟩

/-- Embeds `bytePrefixSums(value, addition)`: shift the per-byte counts up one
byte, add `addition` (asserted non-negative in the source) and multiply by
the prefix-sum constant. -/
def bytePrefixSums (value : Nat) (addition : Int) : Nat :=
  let v1 := wshl value chunkBits
  let v2 := wadd v1 addition.toNat
  wmul v2 prefixSumMultiplierConstant

/-- Embeds `byteVPVNSum(prefixSumVP, prefixSumVN)`. -/
def byteVPVNSum (prefixSumVP prefixSumVN : Nat) : Nat :=
  let r1 := wadd signMask prefixSumVP
  let r2 := wsub r1 prefixSumVN
  r2 ^^^ signMask

/-- Loop state of the 8-pass bit loop of `differenceMasks`. -/
structure DMState where
  difference : Nat
  leftVP : Nat
  leftVN : Nat
  rightVP : Nat
  rightVN : Nat
  resultLeftSmallerThanRight : Nat
  resultRightSmallerThanLeft : Nat
deriving Repr, DecidableEq

/-- Embeds one iteration of the `for (int bit = 0; bit < chunksize; bit++)`
loop of `differenceMasks`. -/
def differenceMasksStep (bit : Nat) (s : DMState) : DMState :=
  let signsBefore := s.difference &&& signMask
  let d1 := s.difference &&& wnot signMask
  let d2 := wadd d1 (s.leftVP &&& lsbMask)
  let d3 := wadd d2 (s.rightVN &&& lsbMask)
  let d4 := d3 ^^^ signsBefore
  let signsBefore2 := d4 &&& signMask
  let d5 := d4 ||| signMask
  let d6 := wsub d5 (s.leftVN &&& lsbMask)
  let d7 := wsub d6 (s.rightVP &&& lsbMask)
  let signsBefore3 := signsBefore2 ^^^ (signMask &&& wnot d7)
  let d8 := (d7 &&& wnot signMask) ||| signsBefore3
  let leftVN1 := s.leftVN >>> 1
  let leftVP1 := s.leftVP >>> 1
  let rightVN1 := s.rightVN >>> 1
  let rightVP1 := s.rightVP >>> 1
  let negative := d8 &&& signMask
  let rlsr := s.resultLeftSmallerThanRight ||| (negative >>> (chunkBits - 1 - bit))
  let notEqualToZero := (wsub (d8 ||| signMask) lsbMask) &&& signMask
  let rrsl := s.resultRightSmallerThanLeft |||
    ((notEqualToZero &&& wnot negative) >>> (chunkBits - 1 - bit))
  ⟨d8, leftVP1, leftVN1, rightVP1, rightVN1, rlsr, rrsl⟩

/-- Embeds the block of `differenceMasks` that folds `byteVPVNSumRight` into
`difference` (splitting it into additions and deductions). -/
def differenceInitial (byteVPVNSumLeft byteVPVNSumRight : Nat) : Nat :=
  let difference := byteVPVNSumLeft
  let smearmask := wmul ((byteVPVNSumRight &&& signMask) >>> (chunkBits - 1))
    ((1 <<< (chunkBits - 1)) - 1)
  let deductions := (wnot smearmask) &&& byteVPVNSumRight &&& wnot signMask
  let additions := wadd (smearmask &&& wnot byteVPVNSumRight) (smearmask &&& lsbMask)
  let signsBefore := difference &&& signMask
  let d1 := difference &&& wnot signMask
  let d2 := wadd d1 additions
  let d3 := d2 ^^^ signsBefore
  let signsBefore2 := d3 &&& signMask
  let d4 := d3 ||| signMask
  let d5 := wsub d4 deductions
  let signsBefore3 := signsBefore2 ^^^ (signMask &&& wnot d5)
  (d5 &&& wnot signMask) ||| signsBefore3

/-- Embeds `differenceMasks(leftVP, leftVN, rightVP, rightVN, scoreDifference)`:
the pair `(leftSmaller, rightSmaller)` of comparison masks of the two
implied 64-row DP columns. -/
def differenceMasks (leftVPa leftVNa rightVPa rightVNa : Nat) (scoreDifference : Int) :
    Nat × Nat :=
  let VPcommon := wnot (leftVPa &&& rightVPa)
  let VNcommon := wnot (leftVNa &&& rightVNa)
  let leftVP := leftVPa &&& VPcommon
  let leftVN := leftVNa &&& VNcommon
  let rightVP := rightVPa &&& VPcommon
  let rightVN := rightVNa &&& VNcommon
  if scoreDifference > ((popcount rightVN + popcount leftVP : Nat) : Int) then
    (allOnes, allZeros)
  else if scoreDifference = 128 ∧ rightVN = allOnes ∧ leftVP = allOnes then
    (allOnes ^^^ (1 <<< 63), allZeros)
  else if scoreDifference = 0 ∧ rightVN = allOnes ∧ leftVP = allOnes then
    (0, allOnes)
  else
    let byteVPVNSumLeft := byteVPVNSum (bytePrefixSums (chunkPopcounts leftVP) 0)
      (bytePrefixSums (chunkPopcounts leftVN) 0)
    let byteVPVNSumRight := byteVPVNSum (bytePrefixSums (chunkPopcounts rightVP) scoreDifference)
      (bytePrefixSums (chunkPopcounts rightVN) 0)
    let difference := differenceInitial byteVPVNSumLeft byteVPVNSumRight
    let final := (List.range chunkBits).foldl (fun s bit => differenceMasksStep bit s)
      ⟨difference, leftVP, leftVN, rightVP, rightVN, 0, 0⟩
    (final.resultLeftSmallerThanRight, final.resultRightSmallerThanLeft)

/-- Embeds `differenceMasksCellByCell` (the `EXTRAASSERTIONS` reference
implementation): compare the two implied DP columns cell by cell. -/
def differenceMasksCellByCell (leftVP leftVN rightVP rightVN : Nat) (scoreDifference : Int) :
    Nat × Nat :=
  let final := (List.range 64).foldl
    (fun (s : Int × Int × Nat × Nat × Nat × Nat × Nat × Nat) i =>
      let (leftscore, rightscore, lVP, lVN, rVP, rVN, leftSmaller, rightSmaller) := s
      let leftscore := leftscore + ((lVP &&& 1 : Nat) : Int)
      let leftscore := leftscore - ((lVN &&& 1 : Nat) : Int)
      let rightscore := rightscore + ((rVP &&& 1 : Nat) : Int)
      let rightscore := rightscore - ((rVN &&& 1 : Nat) : Int)
      let lVP := lVP >>> 1
      let lVN := lVN >>> 1
      let rVP := rVP >>> 1
      let rVN := rVN >>> 1
      let leftSmaller := if leftscore < rightscore then leftSmaller ||| (1 <<< i) else leftSmaller
      let rightSmaller := if rightscore < leftscore then rightSmaller ||| (1 <<< i) else rightSmaller
      (leftscore, rightscore, lVP, lVN, rVP, rVN, leftSmaller, rightSmaller))
    (0, scoreDifference, leftVP, leftVN, rightVP, rightVN, 0, 0)
  (final.2.2.2.2.2.2.1, final.2.2.2.2.2.2.2)

/-- Embeds `mergeTwoSlices(left, right)`: the cell-wise minimum of two word
slices covering the same 64 rows. -/
def mergeTwoSlices (left0 right0 : WordSlice) : WordSlice :=
  let p := if left0.scoreBeforeStart > right0.scoreBeforeStart then (right0, left0)
    else (left0, right0)
  let left := p.1
  let right := p.2
  let masks := differenceMasks left.VP left.VN right.VP right.VN
    (right.scoreBeforeStart - left.scoreBeforeStart)
  let leftSmaller := masks.1
  let rightSmaller := masks.2
  let mask := (rightSmaller ||| (wsub (leftSmaller ||| rightSmaller) (wshl rightSmaller 1)))
    &&& wnot leftSmaller
  let leftReduction := leftSmaller &&& (wshl rightSmaller 1)
  let rightReduction0 := rightSmaller &&& (wshl leftSmaller 1)
  let rightReduction := if rightSmaller &&& 1 ≠ 0 ∧ left.scoreBeforeStart < right.scoreBeforeStart
    then rightReduction0 ||| 1 else rightReduction0
  let leftVN := left.VN &&& wnot leftReduction
  let rightVN := right.VN &&& wnot rightReduction
  { VN := (leftVN &&& wnot mask) ||| (rightVN &&& mask)
    VP := (left.VP &&& wnot mask) ||| (right.VP &&& mask)
    scoreBeforeStart := min left.scoreBeforeStart right.scoreBeforeStart
    scoreEnd := min left.scoreEnd right.scoreEnd }

/-- Embeds `getNextSlice(Eq, slice, previousInsideBand, previousEq, previous)`:
one step of the Myers bit-parallel column update.  `slice` is the cell to
the left, `previous` the cell above (previous 64-row column, same graph
character). -/
def getNextSlice (Eq : Nat) (slice : WordSlice) (previousInsideBand : Bool)
    (previousEq : Bool) (previous : WordSlice) : WordSlice :=
  let oldValue := slice.scoreBeforeStart
  let sbs : Int :=
    if previousInsideBand then
      min (slice.scoreBeforeStart + 1)
        (previous.scoreEnd - (if previous.VP &&& lastBitMask ≠ 0 then 1 else 0)
          + (if previous.VN &&& lastBitMask ≠ 0 then 1 else 0)
          + (if previousEq then 0 else 1))
    else
      slice.scoreBeforeStart + 1
  let hin : Int := sbs - oldValue
  let Xv := Eq ||| slice.VN
  let Eq1 := if hin < 0 then Eq ||| 1 else Eq
  let Xh := ((wadd (Eq1 &&& slice.VP) slice.VP) ^^^ slice.VP) ||| Eq1
  let Ph := slice.VN ||| wnot (Xh ||| slice.VP)
  let Mh := slice.VP &&& Xh
  let scoreEnd : Int := slice.scoreEnd +
    (if Ph &&& lastBitMask ≠ 0 then 1 else if Mh &&& lastBitMask ≠ 0 then -1 else 0)
  let Ph1 := wshl Ph 1
  let Mh1 := wshl Mh 1
  let Mh2 := if hin < 0 then Mh1 ||| 1 else Mh1
  let Ph2 := if ¬(hin < 0) ∧ hin > 0 then Ph1 ||| 1 else Ph1
  { VP := Mh2 ||| wnot (Xv ||| Ph2)
    VN := Ph2 &&& Xv
    scoreEnd := scoreEnd
    scoreBeforeStart := sbs }

/-- Embeds `firstZeroForced(previousBand, currentBand, neighborNodeIndex,
neighborSlice, currentEq)`; the two band vectors are represented by their
values at `neighborNodeIndex`. -/
def firstZeroForced (previousBandNeighbor currentBandNeighbor : Bool)
    (neighborSlice : WordSlice) (currentEq : Nat) : Bool :=
  if previousBandNeighbor && currentBandNeighbor then
    if neighborSlice.VN &&& 1 ≠ 0 then true
    else if neighborSlice.VP &&& 1 = 0 ∧ neighborSlice.VN &&& 1 = 0 ∧ currentEq &&& 1 = 0 then
      true
    else false
  else if previousBandNeighbor && !currentBandNeighbor then false
  else true


/-! ### Basic word-level lemmas -/

theorem allOnes_eq : allOnes = 2 ^ 64 - 1 := by norm_num [allOnes]

theorem wordMod_eq : wordMod = 2 ^ 64 := by norm_num [wordMod]

theorem testBit_allOnes (i : Nat) : allOnes.testBit i = decide (i < 64) := by
  rw [allOnes_eq]; exact Nat.testBit_two_pow_sub_one 64 i

theorem testBit_of_ge {x : Nat} (hx : x < wordMod) {i : Nat} (hi : 64 ≤ i) :
    x.testBit i = false :=
  Nat.testBit_lt_two_pow (lt_of_lt_of_le (wordMod_eq ▸ hx)
    (Nat.pow_le_pow_right (by norm_num) hi))

theorem testBit_wnot (x : Nat) (i : Nat) :
    (wnot x).testBit i = (decide (i < 64) ^^ x.testBit i) := by
  simp [wnot, Nat.testBit_xor, testBit_allOnes]

theorem land_wnot_self {x : Nat} (hx : x < wordMod) : x &&& wnot x = 0 := by
  apply Nat.eq_of_testBit_eq; intro i
  by_cases hi : i < 64
  · simp [Nat.testBit_land, testBit_wnot, hi]
  · simp [Nat.testBit_land, testBit_of_ge hx (le_of_not_lt hi)]

theorem land_allOnes {x : Nat} (hx : x < wordMod) : x &&& allOnes = x := by
  apply Nat.eq_of_testBit_eq; intro i
  by_cases hi : i < 64
  · simp [Nat.testBit_land, testBit_allOnes, hi]
  · simp [Nat.testBit_land, testBit_allOnes, hi, testBit_of_ge hx (le_of_not_lt hi)]

theorem land_one_ne_zero_iff (x : Nat) : x &&& 1 ≠ 0 ↔ x.testBit 0 = true := by
  rw [Nat.and_one_is_mod]
  simp only [Nat.testBit_zero, decide_eq_true_eq]
  omega

theorem land_one_eq_zero_iff (x : Nat) : x &&& 1 = 0 ↔ x.testBit 0 = false := by
  rw [Nat.and_one_is_mod]
  simp only [Nat.testBit_zero, decide_eq_false_iff_not]
  omega

theorem testBit_one (i : Nat) : (1 : Nat).testBit i = decide (i = 0) := by
  cases i with
  | zero => decide
  | succ n =>
    have h1 : (1 : Nat) < 2 ^ (n + 1) := Nat.one_lt_two_pow (by omega)
    simp [Nat.testBit_lt_two_pow h1]

theorem testBit_land_wnot_one {x : Nat} (hx : x < wordMod) (i : Nat) :
    (x &&& wnot 1).testBit i = (x.testBit i && decide (i ≠ 0)) := by
  by_cases hi : i < 64
  · simp [Nat.testBit_land, testBit_wnot, testBit_one, hi]
  · simp [Nat.testBit_land, testBit_of_ge hx (le_of_not_lt hi), hi]

theorem land_wnot_one_of_bit0 {x : Nat} (hx : x < wordMod) (h0 : x.testBit 0 = false) :
    x &&& wnot 1 = x := by
  apply Nat.eq_of_testBit_eq; intro i
  rw [testBit_land_wnot_one hx]
  by_cases h : i = 0
  · simp [h, h0]
  · simp [h]

/-! ### Claim C4: merge idempotence -/

theorem differenceMasks_self {x y : Nat} (hx : x < wordMod) (hy : y < wordMod) :
    differenceMasks x y x y 0 = (0, 0) := by
  have h1 : x &&& wnot (x &&& x) = 0 := by rw [Nat.and_self]; exact land_wnot_self hx
  have h2 : y &&& wnot (y &&& y) = 0 := by rw [Nat.and_self]; exact land_wnot_self hy
  simp only [differenceMasks]
  rw [h1, h2]
  decide

/-- C4: for every `WordSlice` `a` satisfying the `WordSlice` invariants
(`VP & VN == 0` and `scoreEnd` consistent with the boundary scores),
`mergeTwoSlices(a, a)` is bit-for-bit equal to `a`: same `VP`, same `VN`,
same `scoreEnd`, same `scoreBeforeStart`. -/
theorem C4_merge_idempotent (a : WordSlice) (hVP : a.VP < wordMod)
    (hVN : a.VN < wordMod) (hdisj : a.VP &&& a.VN = 0)
    (hscore : a.scoreEnd = a.scoreBeforeStart + (popcount a.VP : Int) - (popcount a.VN : Int)) :
    mergeTwoSlices a a = a := by
  simp only [mergeTwoSlices]
  rw [if_neg (lt_irrefl a.scoreBeforeStart)]
  simp only
  rw [sub_self, differenceMasks_self hVP hVN]
  simp only
  have hz : wsub (0 ||| 0) (wshl 0 1) = 0 := by decide
  have hw0 : wnot 0 = allOnes := by decide
  rw [hz, hw0]
  simp only [Nat.zero_or, Nat.and_zero, Nat.zero_and, Nat.or_zero,
    land_allOnes hVP, land_allOnes hVN, min_self]
  rw [hw0, land_allOnes hVP, land_allOnes hVN, land_allOnes hVN]

/-- Witness for C4 at the concrete slice `VP = 1`, `VN = 2`,
`scoreEnd = 0`, `scoreBeforeStart = 0`. -/
theorem C4_merge_idempotent_witness :
    ((1 : Nat) < wordMod ∧ (2 : Nat) < wordMod ∧ ((1 : Nat) &&& 2) = 0 ∧
      (0 : Int) = 0 + (popcount 1 : Int) - (popcount 2 : Int)) ∧
    mergeTwoSlices ⟨1, 2, 0, 0⟩ ⟨1, 2, 0, 0⟩ = ⟨1, 2, 0, 0⟩ :=
  ⟨by decide, C4_merge_idempotent ⟨1, 2, 0, 0⟩ (by decide) (by decide) (by decide) (by decide)⟩

/-! ### Claim C5: the scoreBeforeStart recurrence of getNextSlice -/

/-- C5: in `getNextSlice`, when the upper neighbour exists
(`previousInsideBand` is true) the new `scoreBeforeStart` is the minimum of
the left cell score plus one and the upper cell `scoreEnd` stepped back one
row by the top bits of the upper `VP`/`VN`, plus 0 on a diagonal match and
1 otherwise; when the upper neighbour is absent it is the left cell score
plus one. -/
theorem C5_getNextSlice_scoreBeforeStart (Eq : Nat) (slice previous : WordSlice)
    (previousEq : Bool) :
    ((getNextSlice Eq slice true previousEq previous).scoreBeforeStart =
      min (slice.scoreBeforeStart + 1)
        (previous.scoreEnd - (if previous.VP &&& lastBitMask ≠ 0 then 1 else 0)
          + (if previous.VN &&& lastBitMask ≠ 0 then 1 else 0)
          + (if previousEq then 0 else 1))) ∧
    ((getNextSlice Eq slice false previousEq previous).scoreBeforeStart =
      slice.scoreBeforeStart + 1) := by
  constructor <;> rfl

/-! ### Claim C9: suppression of the negative first-row path -/

/-- C9 counterexample: in `calculateNode` the value of `firstZeroForced` is
computed but never used, and when the node is absent from the previous band
(`previousInsideBand = false`) the computed slice differs from the slice
obtained with the least-significant bit of `Eq` cleared, although
`firstZeroForced` holds there. -/
theorem C9_eq_lsb_counterexample :
    firstZeroForced false true ⟨allOnes, 0, 64, 0⟩ 1 = true ∧
    getNextSlice 1 ⟨allOnes, 0, 64, 0⟩ false true ⟨0, 0, 0, 0⟩ ≠
      getNextSlice (1 &&& wnot 1) ⟨allOnes, 0, 64, 0⟩ false true ⟨0, 0, 0, 0⟩ := by
  decide

/-- C9 (amended): in the per-character update of `calculateNode`, when the
node is present in both the previous and the current band, the condition
computed by `firstZeroForced` implies that the computed slice equals the
slice obtained with the least-significant bit of the equality mask `Eq`
cleared; in that case the negative first-row path is already suppressed by
the recurrence itself. -/
theorem C9_eq_lsb_suppression_in_band (Eq : Nat) (left previous : WordSlice)
    (pEq : Bool) (hEq : Eq < wordMod) (hdisj : left.VP &&& left.VN = 0)
    (hforced : firstZeroForced true true left Eq = true) :
    getNextSlice Eq left true pEq previous =
      getNextSlice (Eq &&& wnot 1) left true pEq previous := by
  have hcases : left.VN.testBit 0 = true ∨ Eq.testBit 0 = false := by
    by_cases h1 : left.VN &&& 1 ≠ 0
    · exact Or.inl ((land_one_ne_zero_iff _).mp h1)
    · right
      rw [firstZeroForced] at hforced
      simp only [Bool.and_self, if_true] at hforced
      rw [if_neg h1] at hforced
      by_cases h2 : left.VP &&& 1 = 0 ∧ left.VN &&& 1 = 0 ∧ Eq &&& 1 = 0
      · exact (land_one_eq_zero_iff Eq).mp h2.2.2
      · rw [if_neg h2] at hforced
        exact absurd hforced (by simp)
  rcases hcases with hVN0 | hEq0
  swap
  · rw [land_wnot_one_of_bit0 hEq hEq0]
  have hVP0 : left.VP.testBit 0 = false := by
    have := congrArg (fun n => n.testBit 0) hdisj
    simp only [Nat.testBit_land, Nat.zero_testBit] at this
    rcases Bool.and_eq_false_iff.mp this with h | h
    · exact h
    · rw [hVN0] at h; exact absurd h (by simp)
  set E : Nat := Eq &&& wnot 1 with hE
  have hEbit : ∀ i, i ≠ 0 → E.testBit i = Eq.testBit i := by
    intro i hi
    rw [hE, testBit_land_wnot_one hEq]
    simp [hi]
  have hA : E &&& left.VP = Eq &&& left.VP := by
    apply Nat.eq_of_testBit_eq; intro i
    by_cases h : i = 0
    · subst h
      simp only [Nat.testBit_land, hVP0, Bool.and_false]
    · simp only [Nat.testBit_land, hEbit i h]
  have hOr1 : E ||| 1 = Eq ||| 1 := by
    apply Nat.eq_of_testBit_eq; intro i
    by_cases h : i = 0
    · simp [h, Nat.testBit_lor, testBit_one]
    · simp [Nat.testBit_lor, hEbit i h, testBit_one, h]
  have hXv : E ||| left.VN = Eq ||| left.VN := by
    apply Nat.eq_of_testBit_eq; intro i
    by_cases h : i = 0
    · subst h
      simp only [Nat.testBit_lor, hVN0, Bool.or_true]
    · simp only [Nat.testBit_lor, hEbit i h]
  set S : Nat := wadd (Eq &&& left.VP) left.VP with hS
  have hPh : left.VN ||| wnot (((S ^^^ left.VP) ||| E) ||| left.VP) =
      left.VN ||| wnot (((S ^^^ left.VP) ||| Eq) ||| left.VP) := by
    apply Nat.eq_of_testBit_eq; intro i
    by_cases h : i = 0
    · subst h
      simp only [Nat.testBit_lor, hVN0, Bool.true_or]
    · simp only [Nat.testBit_lor, testBit_wnot, Nat.testBit_xor, hEbit i h]
  have hMh : left.VP &&& ((S ^^^ left.VP) ||| E) = left.VP &&& ((S ^^^ left.VP) ||| Eq) := by
    apply Nat.eq_of_testBit_eq; intro i
    by_cases h : i = 0
    · subst h
      simp only [Nat.testBit_land, hVP0, Bool.false_and]
    · simp only [Nat.testBit_land, Nat.testBit_lor, hEbit i h]
  simp only [getNextSlice, if_true]
  by_cases hh : (min (left.scoreBeforeStart + 1)
      (previous.scoreEnd - (if previous.VP &&& lastBitMask ≠ 0 then 1 else 0)
        + (if previous.VN &&& lastBitMask ≠ 0 then 1 else 0)
        + (if pEq then 0 else 1))) - left.scoreBeforeStart < 0
  · simp only [if_pos hh]
    rw [hOr1, hXv]
  · simp only [if_neg hh]
    rw [hA, ← hS, hPh, hMh, hXv]

/-- Witness for C9 (amended) at `Eq = 1` and a left slice with `VN` bit 0 set. -/
theorem C9_eq_lsb_suppression_in_band_witness :
    ((1 : Nat) < wordMod ∧ ((2 : Nat) &&& 1) = 0 ∧
      firstZeroForced true true ⟨2, 1, 0, 0⟩ 1 = true) ∧
    getNextSlice 1 ⟨2, 1, 0, 0⟩ true true ⟨0, 0, 0, 0⟩ =
      getNextSlice (1 &&& wnot 1) ⟨2, 1, 0, 0⟩ true true ⟨0, 0, 0, 0⟩ :=
  ⟨by decide,
    C9_eq_lsb_suppression_in_band 1 ⟨2, 1, 0, 0⟩ ⟨0, 0, 0, 0⟩ true
      (by decide) (by decide) (by decide)⟩

/-! ### Claim C8: the out-neighbour fast path -/

/-- Embeds `NodeCalculationResult`. -/
structure NodeCalculationResult where
  minScore : Int
  minScoreIndex : Nat
  cellsProcessed : Nat
deriving Repr, DecidableEq

/-- Embeds the per-node minimum update of the column sweep (the block shared
by the in-order and the out-of-order loop of
`getBitvectorSliceScoresAndFinalPosition`, source lines 1600-1622 and
1630-1652): the plain minimum update followed by the out-neighbour fast
path.  The fast path of the source contains the statement
`currentMinimumIndex == graph.nodeStart[neighbor];`, a comparison whose
value is discarded, so only the score changes there. -/
def sliceMinimumUpdate (nodeCalc : NodeCalculationResult)
    (currentMinimumScore : Int) (currentMinimumIndex : Nat)
    (nodeEndIdx : Nat) (lastVP : Nat) (outNeighbors : List Nat)
    (nodeStart : Nat → Nat) (nodeSequences : Nat → Char) (seqChar : Char) :
    Int × Nat :=
  let p := if nodeCalc.minScore < currentMinimumScore
    then (nodeCalc.minScore, nodeCalc.minScoreIndex)
    else (currentMinimumScore, currentMinimumIndex)
  if nodeCalc.minScore ≤ p.1 then
    if nodeCalc.minScoreIndex = nodeEndIdx - 1 then
      if lastVP &&& lastBitMask ≠ 0 then
        outNeighbors.foldl (fun (q : Int × Nat) neighbor =>
          if seqChar = nodeSequences (nodeStart neighbor) then
            (nodeCalc.minScore - 1, q.2)
          else q) p
      else p
    else p
  else p

theorem foldl_fastpath_snd {α : Type} (g : α → Prop) [DecidablePred g] (c : Int) :
    ∀ (l : List α) (q : Int × Nat),
      (l.foldl (fun q nb => if g nb then (c, q.2) else q) q).2 = q.2 := by
  intro l
  induction l with
  | nil => intro q; rfl
  | cons nb rest ih =>
    intro q
    simp only [List.foldl_cons]
    by_cases h : g nb
    · rw [if_pos h, ih]
    · rw [if_neg h, ih]

theorem foldl_fastpath_fst_stable {α : Type} (g : α → Prop) [DecidablePred g] (c : Int) :
    ∀ (l : List α) (q : Int × Nat), q.1 = c →
      (l.foldl (fun q nb => if g nb then (c, q.2) else q) q).1 = c := by
  intro l
  induction l with
  | nil => intro q hq; exact hq
  | cons nb rest ih =>
    intro q hq
    simp only [List.foldl_cons]
    by_cases h : g nb
    · rw [if_pos h]; exact ih _ rfl
    · rw [if_neg h]; exact ih _ hq

theorem foldl_fastpath_fst {α : Type} (g : α → Prop) [DecidablePred g] (c : Int) :
    ∀ (l : List α) (q : Int × Nat), (∃ nb ∈ l, g nb) →
      (l.foldl (fun q nb => if g nb then (c, q.2) else q) q).1 = c := by
  intro l
  induction l with
  | nil => rintro q ⟨nb, hmem, _⟩; exact absurd hmem (List.not_mem_nil nb)
  | cons nb rest ih =>
    rintro q ⟨nb2, hmem, hg⟩
    simp only [List.foldl_cons]
    by_cases h : g nb
    · rw [if_pos h]
      exact foldl_fastpath_fst_stable g c rest _ rfl
    · rw [if_neg h]
      rcases List.mem_cons.mp hmem with rfl | hmem2
      · exact absurd hg h
      · exact ih _ ⟨nb2, hmem2, hg⟩

/-- C8: in the out-neighbour fast path of the column sweep (node minimum on
its final character, top `VP` bit of the node's last slice set, read
character of the column's last row matching an out-neighbour's first
character), `currentMinimumScore` is lowered to `minScore - 1` while
`currentMinimumIndex` keeps the value it had after the plain minimum
update; it is not set to the neighbour's first position. -/
theorem C8_fastpath_updates_score_not_index (nodeCalc : NodeCalculationResult)
    (currentMinimumScore : Int) (currentMinimumIndex : Nat)
    (nodeEndIdx : Nat) (lastVP : Nat) (outNeighbors : List Nat)
    (nodeStart : Nat → Nat) (nodeSequences : Nat → Char) (seqChar : Char)
    (hle : nodeCalc.minScore ≤ currentMinimumScore)
    (hidx : nodeCalc.minScoreIndex = nodeEndIdx - 1)
    (htop : lastVP &&& lastBitMask ≠ 0)
    (hmatch : ∃ nb ∈ outNeighbors, seqChar = nodeSequences (nodeStart nb)) :
    (sliceMinimumUpdate nodeCalc currentMinimumScore currentMinimumIndex nodeEndIdx lastVP
        outNeighbors nodeStart nodeSequences seqChar).1 = nodeCalc.minScore - 1 ∧
    (sliceMinimumUpdate nodeCalc currentMinimumScore currentMinimumIndex nodeEndIdx lastVP
        outNeighbors nodeStart nodeSequences seqChar).2 =
      (if nodeCalc.minScore < currentMinimumScore then nodeCalc.minScoreIndex
       else currentMinimumIndex) := by
  simp only [sliceMinimumUpdate]
  by_cases hlt : nodeCalc.minScore < currentMinimumScore
  · rw [if_pos hlt]
    simp only
    rw [if_pos (le_refl _), if_pos hidx, if_pos htop]
    constructor
    · exact foldl_fastpath_fst _ _ _ _ hmatch
    · rw [foldl_fastpath_snd, if_pos hlt]
  · rw [if_neg hlt]
    simp only
    rw [if_pos hle, if_pos hidx, if_pos htop]
    constructor
    · exact foldl_fastpath_fst _ _ _ _ hmatch
    · rw [foldl_fastpath_snd, if_neg hlt]

/-- Witness for C8 at a concrete fast-path configuration. -/
theorem C8_fastpath_witness :
    ((⟨5, 3, 0⟩ : NodeCalculationResult).minScore ≤ 10 ∧
      (⟨5, 3, 0⟩ : NodeCalculationResult).minScoreIndex = 4 - 1 ∧
      lastBitMask &&& lastBitMask ≠ 0 ∧
      (∃ nb ∈ [2], ('A' : Char) = (fun _ : Nat => 'A') ((fun _ : Nat => 0) nb))) ∧
    (sliceMinimumUpdate ⟨5, 3, 0⟩ 10 7 4 lastBitMask [2] (fun _ => 0) (fun _ => 'A') 'A').1 =
      5 - 1 ∧
    (sliceMinimumUpdate ⟨5, 3, 0⟩ 10 7 4 lastBitMask [2] (fun _ => 0) (fun _ => 'A') 'A').2 =
      (if (5 : Int) < 10 then 3 else 7) :=
  ⟨⟨by decide, by decide, by decide, ⟨2, by decide, by decide⟩⟩,
    C8_fastpath_updates_score_not_index ⟨5, 3, 0⟩ 10 7 4 lastBitMask [2]
      (fun _ => 0) (fun _ => 'A') 'A' (by decide) (by decide) (by decide)
      ⟨2, by decide, by decide⟩⟩

end GraphAligner

namespace GraphAligner

/-- The per-column loop of `getBitvectorSliceScoresAndFinalPosition`,
parameterised by the per-column computation `colMin` (the final
`(currentMinimumScore, currentMinimumIndex)` of column `s`, an abstraction
of the node calculations of that column).  `remaining` counts the columns
still to process; when a column minimum exceeds `maxScore` the remaining
columns are filled with the sentinel `(sequence.size(), 0)` and the loop
stops, exactly as in the source. -/
def sliceScoresAux (colMin : Nat → Int × Nat) (seqLen : Nat) (maxScore : Int) :
    Nat → Nat → List (Int × Nat)
  | _, 0 => []
  | s, remaining + 1 =>
    let m := colMin s
    if m.1 > maxScore then
      m :: List.replicate remaining ((seqLen : Int), 0)
    else
      m :: sliceScoresAux colMin seqLen maxScore (s + 1) remaining

/-- The number of 64-row columns the sweep runs over a read of (padded)
length `seqLen`. -/
def numWordSlices (seqLen : Nat) : Nat := (seqLen + 63) / 64

/-- The `(minScorePerWordSlice, minScoreIndexPerWordSlice)` entries produced
by the column sweep: the starting `(0, 0)` entry followed by one entry per
column. -/
def sliceScoresRecords (colMin : Nat → Int × Nat) (seqLen : Nat) (maxScore : Int) :
    List (Int × Nat) :=
  ((0 : Int), (0 : Nat)) :: sliceScoresAux colMin seqLen maxScore 0 (numWordSlices seqLen)

theorem chain_le_replicate (c : Int) : ∀ (n : Nat) (a : Int), a ≤ c →
    List.Chain (· ≤ ·) a (List.replicate n c) := by
  intro n
  induction n with
  | zero => intro a _; exact List.Chain.nil
  | succ k ih => intro a ha; exact List.Chain.cons ha (ih c (le_refl c))

theorem sliceScoresAux_chain (colMin : Nat → Int × Nat) (seqLen : Nat) (maxScore : Int)
    (hmono : ∀ s, (colMin s).1 ≤ (colMin (s + 1)).1)
    (hbound : ∀ s, (colMin s).1 ≤ (seqLen : Int)) :
    ∀ (remaining s : Nat) (prev : Int), prev ≤ (colMin s).1 →
      List.Chain (· ≤ ·) prev ((sliceScoresAux colMin seqLen maxScore s remaining).map Prod.fst) := by
  intro remaining
  induction remaining with
  | zero => intro s prev _; exact List.Chain.nil
  | succ k ih =>
    intro s prev hprev
    rw [sliceScoresAux]
    by_cases hbreak : (colMin s).1 > maxScore
    · rw [if_pos hbreak]
      simp only [List.map_cons, List.map_replicate]
      exact List.Chain.cons hprev (chain_le_replicate _ _ _ (hbound s))
    · rw [if_neg hbreak]
      simp only [List.map_cons]
      exact List.Chain.cons hprev (ih (s + 1) _ (hmono s))

/-- C7: for every run of the column sweep, `minScorePerWordSlice` has first
element `0` and is non-decreasing from each element to the next, including
across the sentinel entries appended after an early threshold cutoff.  The
hypotheses mirror the invariants the source asserts of each column
computation: the column minimum never falls below the previous recorded
minimum, and never rises above the trivial all-insertions bound
`sequence.size()`. -/
theorem C7_minScorePerWordSlice_monotone (colMin : Nat → Int × Nat) (seqLen : Nat)
    (maxScore : Int)
    (h0 : 0 ≤ (colMin 0).1)
    (hmono : ∀ s, (colMin s).1 ≤ (colMin (s + 1)).1)
    (hbound : ∀ s, (colMin s).1 ≤ (seqLen : Int)) :
    ((sliceScoresRecords colMin seqLen maxScore).map Prod.fst).head? = some 0 ∧
    List.Chain' (· ≤ ·) ((sliceScoresRecords colMin seqLen maxScore).map Prod.fst) := by
  constructor
  · rfl
  · show List.Chain (· ≤ ·) 0 ((sliceScoresAux colMin seqLen maxScore 0 (numWordSlices seqLen)).map Prod.fst)
    exact sliceScoresAux_chain colMin seqLen maxScore hmono hbound _ 0 0 h0

/-- Witness for C7 at a concrete run with an immediate cutoff. -/
theorem C7_minScorePerWordSlice_monotone_witness :
    ((0 : Int) ≤ ((fun _ : Nat => ((20 : Int), (0 : Nat))) 0).1 ∧
      (∀ s : Nat, ((fun _ : Nat => ((20 : Int), (0 : Nat))) s).1 ≤
        ((fun _ : Nat => ((20 : Int), (0 : Nat))) (s + 1)).1) ∧
      (∀ s : Nat, ((fun _ : Nat => ((20 : Int), (0 : Nat))) s).1 ≤ ((192 : Nat) : Int))) ∧
    ((sliceScoresRecords (fun _ => ((20 : Int), 0)) 192 15).map Prod.fst).head? = some 0 ∧
    List.Chain' (· ≤ ·) ((sliceScoresRecords (fun _ => ((20 : Int), 0)) 192 15).map Prod.fst) :=
  ⟨⟨by norm_num, fun s => le_refl _, fun s => by norm_num⟩,
    C7_minScorePerWordSlice_monotone _ 192 15 (by norm_num) (fun s => le_refl _)
      (fun s => by norm_num)⟩

end GraphAligner

namespace GraphAligner

/-- The read-only interface of the finalised `AlignmentGraph` consumed by the
backtrace and the trace-to-alignment conversion.  Vectors are embedded as
functions from indices; the neighbour sets (`boost flat_set`s) as lists in
iteration order. -/
structure AlignmentGraphModel where
  nodeStart : Nat → Nat
  nodeEnd : Nat → Nat
  nodeSequences : Nat → Char
  indexToNode : Nat → Nat
  inNeighbors : Nat → List Nat
  outNeighbors : Nat → List Nat
  nodeIDs : Nat → Nat
  reverse : Nat → Bool
  dummyNodeStart : Nat
  dummyNodeEnd : Nat

/-- Embeds `ExpandoCell`. -/
structure ExpandoCell where
  position : Nat × Nat
  backtraceIndex : Nat
deriving Repr, DecidableEq

instance : Inhabited ExpandoCell := ⟨⟨(0, 0), 0⟩⟩

/-- Embeds the `while (true)` loop of `backtraceInner`.  The two
`std::vector` queues are used as stacks (`emplace_back` / `back` /
`pop_back`), embedded as cons-lists; `visitedExpandos` grows at the end;
`visitedCells` is the set of visited matrix positions.  The loop runs on
explicit fuel: `none` models non-termination and the assertion failure on
two empty queues. -/
def backtraceLoop (g : AlignmentGraphModel) (sequence : List Char)
    (minScorePerWordSlice : List Int) (scoreAtEnd : Int) :
    Nat → Int → List ExpandoCell → List ExpandoCell → List ExpandoCell →
    List (Nat × Nat) → Option (Int × List ExpandoCell)
  | 0, _, _, _, _, _ => none
  | fuel + 1, currentDistance, visited, [], cq, visCells =>
    match cq with
    | [] => none
    | _ :: _ => backtraceLoop g sequence minScorePerWordSlice scoreAtEnd fuel
        (currentDistance + 1) visited cq [] visCells
  | fuel + 1, currentDistance, visited, current :: qrest, cq, visCells =>
    let w := current.position.1
    let j := current.position.2
    if j = 0 then
      some (currentDistance, visited ++ [current])
    else
      let sliceIndex := (j - 1) / 64
      let maxDistanceHere := scoreAtEnd - minScorePerWordSlice.getD sliceIndex 0
      if currentDistance > maxDistanceHere then
        backtraceLoop g sequence minScorePerWordSlice scoreAtEnd fuel
          currentDistance visited qrest cq visCells
      else if (w, j) ∈ visCells then
        backtraceLoop g sequence minScorePerWordSlice scoreAtEnd fuel
          currentDistance visited qrest cq visCells
      else
        let visCells2 := (w, j) :: visCells
        let visited2 := visited ++ [current]
        let bt := visited2.length - 1
        let cq1 : List ExpandoCell := ⟨(w, j - 1), bt⟩ :: cq
        let nodeIndex := g.indexToNode w
        if w = g.nodeStart nodeIndex then
          let qs := (g.inNeighbors nodeIndex).foldl
            (fun (p : List ExpandoCell × List ExpandoCell) neighbor =>
              let u := g.nodeEnd neighbor - 1
              let cqx : List ExpandoCell := ⟨(u, j), bt⟩ :: p.2
              if sequence.getD (j - 1) 'N' = 'N' ∨ g.nodeSequences w = sequence.getD (j - 1) 'N'
              then (⟨(u, j - 1), bt⟩ :: p.1, cqx)
              else (p.1, ⟨(u, j - 1), bt⟩ :: cqx)) (qrest, cq1)
          backtraceLoop g sequence minScorePerWordSlice scoreAtEnd fuel
            currentDistance visited2 qs.1 qs.2 visCells2
        else
          let u := w - 1
          let cq2 : List ExpandoCell := ⟨(u, j), bt⟩ :: cq1
          if sequence.getD (j - 1) 'N' = 'N' ∨ g.nodeSequences w = sequence.getD (j - 1) 'N'
          then backtraceLoop g sequence minScorePerWordSlice scoreAtEnd fuel
            currentDistance visited2 (⟨(u, j - 1), bt⟩ :: qrest) cq2 visCells2
          else backtraceLoop g sequence minScorePerWordSlice scoreAtEnd fuel
            currentDistance visited2 qrest (⟨(u, j - 1), bt⟩ :: cq2) visCells2

/-- Embeds the backpointer walk at the end of `backtraceInner`
(`while (index > 0) { result.push_back(...); index = backtraceIndex; }`),
with fuel bounding the number of steps. -/
def backtraceWalkAux (visited : List ExpandoCell) : Nat → Nat → List (Nat × Nat)
  | 0, _ => []
  | fuel + 1, index =>
    if index = 0 then []
    else (visited.getD index default).position ::
      backtraceWalkAux visited fuel (visited.getD index default).backtraceIndex

/-- Embeds `backtraceInner(endPosition, sequence, minScorePerWordSlice)`. -/
def backtraceInner (g : AlignmentGraphModel) (sequence : List Char)
    (minScorePerWordSlice : List Int) (endPosition : Nat × Nat) (fuel : Nat) :
    Option (Int × List (Nat × Nat)) :=
  match backtraceLoop g sequence minScorePerWordSlice (minScorePerWordSlice.getLastD 0) fuel
    0 [] [⟨endPosition, 0⟩] [] [] with
  | none => none
  | some (d, visited) =>
    some (d, backtraceWalkAux visited visited.length (visited.length - 1))

end GraphAligner

namespace GraphAligner

/-- The admissible step between consecutive trace entries `(p1, r1) → (p2, r2)`:
the read row advances by 0 or 1 and the graph position either stays, moves
from the previous character of the same node, or crosses from the last
character of an in-neighbour to the first character of a node. -/
def traceStepOK (g : AlignmentGraphModel) (a b : Nat × Nat) : Prop :=
  (b.2 = a.2 ∨ b.2 = a.2 + 1) ∧
  (b.1 = a.1 ∨
    (b.1 ≠ g.nodeStart (g.indexToNode b.1) ∧ a.1 = b.1 - 1) ∨
    (b.1 = g.nodeStart (g.indexToNode b.1) ∧
      ∃ nb ∈ g.inNeighbors (g.indexToNode b.1), a.1 = g.nodeEnd nb - 1))

/-- A queued `ExpandoCell` points into the visited list and steps to its
parent cell. -/
def entryOK (g : AlignmentGraphModel) (visited : List ExpandoCell) (e : ExpandoCell) : Prop :=
  e.backtraceIndex < visited.length ∧
  traceStepOK g e.position (visited.getD e.backtraceIndex default).position

/-- Every visited cell after the root points backwards to an earlier visited
cell reachable by one admissible step. -/
def visitedOK (g : AlignmentGraphModel) (visited : List ExpandoCell) : Prop :=
  ∀ i, 0 < i → i < visited.length →
    (visited.getD i default).backtraceIndex < i ∧
    traceStepOK g (visited.getD i default).position
      ((visited.getD (visited.getD i default).backtraceIndex default).position)

def queueEntryOK (g : AlignmentGraphModel) (visited : List ExpandoCell)
    (e : ExpandoCell) : Prop :=
  entryOK g visited e ∨ (visited = [] ∧ e.backtraceIndex = 0)

theorem getD_append_lt (l : List ExpandoCell) (c : ExpandoCell) {i : Nat} (h : i < l.length) :
    (l ++ [c]).getD i default = l.getD i default :=
  List.getD_append l [c] default i h

theorem getD_append_len (l : List ExpandoCell) (c : ExpandoCell) :
    (l ++ [c]).getD l.length default = c := by
  rw [List.getD_eq_getElem?_getD, List.getElem?_concat_length]
  rfl

theorem entryOK_append (g : AlignmentGraphModel) (visited : List ExpandoCell)
    (c e : ExpandoCell) (h : entryOK g visited e) : entryOK g (visited ++ [c]) e := by
  obtain ⟨h1, h2⟩ := h
  refine ⟨by simpa using Nat.lt_succ_of_lt h1, ?_⟩
  rwa [getD_append_lt _ _ h1]

theorem visitedOK_append (g : AlignmentGraphModel) (visited : List ExpandoCell)
    (c : ExpandoCell) (hv : visitedOK g visited) (hc : entryOK g visited c) :
    visitedOK g (visited ++ [c]) := by
  intro i hi hilen
  rw [List.length_append, List.length_singleton] at hilen
  by_cases hlt : i < visited.length
  · obtain ⟨h1, h2⟩ := hv i hi hlt
    rw [getD_append_lt _ _ hlt]
    refine ⟨h1, ?_⟩
    rwa [getD_append_lt _ _ (lt_trans h1 hlt)]
  · have hlen : i = visited.length := by omega
    subst hlen
    rw [getD_append_len]
    refine ⟨lt_of_lt_of_le hc.1 (le_refl _), ?_⟩
    rw [getD_append_lt _ _ hc.1]
    exact hc.2

end GraphAligner

namespace GraphAligner

theorem fold_push_invariant (g : AlignmentGraphModel) (P : ExpandoCell → Prop)
    (sequence : List Char) (w j bt : Nat) :
    ∀ (l : List Nat) (p : List ExpandoCell × List ExpandoCell),
      (∀ e ∈ p.1, P e) → (∀ e ∈ p.2, P e) →
      (∀ nb ∈ l, P ⟨(g.nodeEnd nb - 1, j), bt⟩ ∧ P ⟨(g.nodeEnd nb - 1, j - 1), bt⟩) →
      (∀ e ∈ (l.foldl (fun (p : List ExpandoCell × List ExpandoCell) neighbor =>
          let u := g.nodeEnd neighbor - 1
          let cqx : List ExpandoCell := ⟨(u, j), bt⟩ :: p.2
          if sequence.getD (j - 1) 'N' = 'N' ∨ g.nodeSequences w = sequence.getD (j - 1) 'N'
          then (⟨(u, j - 1), bt⟩ :: p.1, cqx)
          else (p.1, ⟨(u, j - 1), bt⟩ :: cqx)) p).1, P e) ∧
      (∀ e ∈ (l.foldl (fun (p : List ExpandoCell × List ExpandoCell) neighbor =>
          let u := g.nodeEnd neighbor - 1
          let cqx : List ExpandoCell := ⟨(u, j), bt⟩ :: p.2
          if sequence.getD (j - 1) 'N' = 'N' ∨ g.nodeSequences w = sequence.getD (j - 1) 'N'
          then (⟨(u, j - 1), bt⟩ :: p.1, cqx)
          else (p.1, ⟨(u, j - 1), bt⟩ :: cqx)) p).2, P e) := by
  intro l
  induction l with
  | nil => intro p h1 h2 _; exact ⟨h1, h2⟩
  | cons nb rest ih =>
    intro p h1 h2 h3
    simp only [List.foldl_cons]
    by_cases hc : sequence.getD (j - 1) 'N' = 'N' ∨ g.nodeSequences w = sequence.getD (j - 1) 'N'
    · rw [if_pos hc]
      refine ih _ ?_ ?_ (fun nb2 hm => h3 nb2 (List.mem_cons_of_mem _ hm))
      · intro e he
        rcases List.mem_cons.mp he with rfl | he2
        · exact (h3 nb (List.mem_cons_self _ _)).2
        · exact h1 e he2
      · intro e he
        rcases List.mem_cons.mp he with rfl | he2
        · exact (h3 nb (List.mem_cons_self _ _)).1
        · exact h2 e he2
    · rw [if_neg hc]
      refine ih _ h1 ?_ (fun nb2 hm => h3 nb2 (List.mem_cons_of_mem _ hm))
      intro e he
      rcases List.mem_cons.mp he with rfl | he2
      · exact (h3 nb (List.mem_cons_self _ _)).2
      · rcases List.mem_cons.mp he2 with rfl | he3
        · exact (h3 nb (List.mem_cons_self _ _)).1
        · exact h2 e he3

end GraphAligner

namespace GraphAligner

theorem backtraceLoop_sound (g : AlignmentGraphModel) (sequence : List Char)
    (minScores : List Int) (scoreAtEnd : Int) :
    ∀ (fuel : Nat) (d : Int) (visited q cq : List ExpandoCell) (visCells : List (Nat × Nat))
      (dist : Int) (vis : List ExpandoCell),
      (∀ e ∈ q, queueEntryOK g visited e) →
      (∀ e ∈ cq, queueEntryOK g visited e) →
      (visited = [] → q.length + cq.length ≤ 1 ∧ (∀ e ∈ q, e.position.2 ≠ 0) ∧
        (∀ e ∈ cq, e.position.2 ≠ 0)) →
      visitedOK g visited →
      backtraceLoop g sequence minScores scoreAtEnd fuel d visited q cq visCells =
        some (dist, vis) →
      visitedOK g vis ∧ 2 ≤ vis.length ∧ (vis.getD (vis.length - 1) default).position.2 = 0 := by
  intro fuel
  induction fuel with
  | zero =>
    intro d visited q cq visCells dist vis _ _ _ _ hrun
    exact absurd hrun (by simp [backtraceLoop])
  | succ n ih =>
    intro d visited q cq visCells dist vis hq hcq hdeg hv hrun
    match q with
    | [] =>
      match cq with
      | [] => exact absurd hrun (by simp [backtraceLoop])
      | c :: cqrest =>
        rw [backtraceLoop] at hrun
        refine ih _ visited _ _ _ _ _ hcq (by simp) ?_ hv hrun
        intro hemp
        obtain ⟨h1, _, h3⟩ := hdeg hemp
        refine ⟨by simpa using (by omega : (c :: cqrest).length ≤ 1), h3, by simp⟩
    | current :: qrest =>
      rw [backtraceLoop] at hrun
      by_cases hj : current.position.2 = 0
      · rw [if_pos hj] at hrun
        obtain ⟨rfl, rfl⟩ : d = dist ∧ visited ++ [current] = vis := by
          have := Option.some.inj hrun
          exact ⟨congrArg Prod.fst this, congrArg Prod.snd this⟩
        have hcur : entryOK g visited current := by
          rcases hq current (List.mem_cons_self _ _) with h | ⟨hemp, _⟩
          · exact h
          · exact absurd hj ((hdeg hemp).2.1 current (List.mem_cons_self _ _))
        have hne : visited.length ≥ 1 := by
          rcases Nat.eq_zero_or_pos visited.length with h0 | h1
          · exact absurd hcur.1 (by omega)
          · exact h1
        refine ⟨visitedOK_append g visited current hv hcur, by simp; omega, ?_⟩
        have : (visited ++ [current]).length - 1 = visited.length := by simp
        rw [this, getD_append_len]
        exact hj
      · rw [if_neg hj] at hrun
        simp only at hrun
        by_cases hprune : d > scoreAtEnd - minScores.getD ((current.position.2 - 1) / 64) 0
        · rw [if_pos hprune] at hrun
          refine ih _ visited _ _ _ _ _ (fun e he => hq e (List.mem_cons_of_mem _ he))
            hcq ?_ hv hrun
          intro hemp
          obtain ⟨h1, h2, h3⟩ := hdeg hemp
          exact ⟨by simp at h1 ⊢; omega, fun e he => h2 e (List.mem_cons_of_mem _ he), h3⟩
        · rw [if_neg hprune] at hrun
          by_cases hvisited : (current.position.1, current.position.2) ∈ visCells
          · rw [if_pos hvisited] at hrun
            refine ih _ visited _ _ _ _ _ (fun e he => hq e (List.mem_cons_of_mem _ he))
              hcq ?_ hv hrun
            intro hemp
            obtain ⟨h1, h2, h3⟩ := hdeg hemp
            exact ⟨by simp at h1 ⊢; omega, fun e he => h2 e (List.mem_cons_of_mem _ he), h3⟩
          · rw [if_neg hvisited] at hrun
            have hvis2 : visitedOK g (visited ++ [current]) := by
              rcases hq current (List.mem_cons_self _ _) with h | ⟨hemp, _⟩
              · exact visitedOK_append g visited current hv h
              · subst hemp
                intro i hi hilen
                simp at hilen
                omega
            have hlen1 : (visited ++ [current]).length - 1 = visited.length := by simp
            have hchildOK : ∀ (pos : Nat × Nat), traceStepOK g pos current.position →
                entryOK g (visited ++ [current])
                  ⟨pos, (visited ++ [current]).length - 1⟩ := by
              intro pos hstep
              refine ⟨by simp, ?_⟩
              show traceStepOK g pos _
              rw [hlen1, getD_append_len]
              exact hstep
            have holdq : ∀ e ∈ qrest, entryOK g (visited ++ [current]) e := by
              intro e he
              rcases hq e (List.mem_cons_of_mem _ he) with h | ⟨hemp, _⟩
              · exact entryOK_append _ _ _ _ h
              · exfalso
                have h1 := (hdeg hemp).1
                have h2 : qrest.length ≥ 1 := List.length_pos.mpr (List.ne_nil_of_mem he)
                simp at h1
                omega
            have holdcq : ∀ e ∈ cq, entryOK g (visited ++ [current]) e := by
              intro e he
              rcases hcq e he with h | ⟨hemp, _⟩
              · exact entryOK_append _ _ _ _ h
              · exfalso
                have h1 := (hdeg hemp).1
                have h2 : cq.length ≥ 1 := List.length_pos.mpr (List.ne_nil_of_mem he)
                simp at h1
                omega
            have hdeg2 : visited ++ [current] = [] →
                ∀ {a b c : Prop}, a ∧ b ∧ c := by
              intro h
              simp at h
            have hvert : traceStepOK g (current.position.1, current.position.2 - 1)
                current.position := by
              refine ⟨Or.inr (by omega), Or.inl rfl⟩
            by_cases hstart : current.position.1 =
                g.nodeStart (g.indexToNode current.position.1)
            · rw [if_pos hstart] at hrun
              have hfold := fold_push_invariant g
                (fun e => entryOK g (visited ++ [current]) e) sequence
                current.position.1 current.position.2 ((visited ++ [current]).length - 1)
                (g.inNeighbors (g.indexToNode current.position.1))
                (qrest, (⟨(current.position.1, current.position.2 - 1),
                  (visited ++ [current]).length - 1⟩ : ExpandoCell) :: cq)
                holdq
                (by
                  intro e he
                  rcases List.mem_cons.mp he with rfl | he2
                  · exact hchildOK _ hvert
                  · exact holdcq e he2)
                (by
                  intro nb hnb
                  constructor
                  · refine hchildOK _ ⟨Or.inl rfl, Or.inr (Or.inr ⟨hstart, nb, hnb, rfl⟩)⟩
                  · refine hchildOK _ ⟨Or.inr (by omega), Or.inr (Or.inr ⟨hstart, nb, hnb, rfl⟩)⟩)
              exact ih _ _ _ _ _ _ _ (fun e he => Or.inl (hfold.1 e he))
                (fun e he => Or.inl (hfold.2 e he)) (fun h => hdeg2 h) hvis2 hrun
            · rw [if_neg hstart] at hrun
              have hinnode : ∀ jj, (jj = current.position.2 ∨ jj = current.position.2 - 1) →
                  traceStepOK g (current.position.1 - 1, jj) current.position := by
                intro jj hjj
                refine ⟨?_, Or.inr (Or.inl ⟨hstart, rfl⟩)⟩
                rcases hjj with rfl | rfl
                · exact Or.inl rfl
                · exact Or.inr (by omega)
              by_cases hmatch : sequence.getD (current.position.2 - 1) 'N' = 'N' ∨
                  g.nodeSequences current.position.1 =
                    sequence.getD (current.position.2 - 1) 'N'
              · rw [if_pos hmatch] at hrun
                refine ih _ _ _ _ _ _ _ ?_ ?_ (fun h => hdeg2 h) hvis2 hrun
                · intro e he
                  rcases List.mem_cons.mp he with rfl | he2
                  · exact Or.inl (hchildOK _ (hinnode _ (Or.inr rfl)))
                  · exact Or.inl (holdq e he2)
                · intro e he
                  rcases List.mem_cons.mp he with rfl | he2
                  · exact Or.inl (hchildOK _ (hinnode _ (Or.inl rfl)))
                  · rcases List.mem_cons.mp he2 with rfl | he3
                    · exact Or.inl (hchildOK _ hvert)
                    · exact Or.inl (holdcq e he3)
              · rw [if_neg hmatch] at hrun
                refine ih _ _ _ _ _ _ _ ?_ ?_ (fun h => hdeg2 h) hvis2 hrun
                · intro e he
                  exact Or.inl (holdq e he)
                · intro e he
                  rcases List.mem_cons.mp he with rfl | he2
                  · exact Or.inl (hchildOK _ (hinnode _ (Or.inr rfl)))
                  · rcases List.mem_cons.mp he2 with rfl | he3
                    · exact Or.inl (hchildOK _ (hinnode _ (Or.inl rfl)))
                    · rcases List.mem_cons.mp he3 with rfl | he4
                      · exact Or.inl (hchildOK _ hvert)
                      · exact Or.inl (holdcq e he4)

end GraphAligner

namespace GraphAligner

theorem backtraceWalkAux_zero (vis : List ExpandoCell) :
    ∀ n, backtraceWalkAux vis n 0 = [] := by
  intro n
  cases n <;> simp [backtraceWalkAux]

theorem backtraceWalkAux_sound (g : AlignmentGraphModel) (vis : List ExpandoCell)
    (hOK : visitedOK g vis) :
    ∀ (fuel index : Nat), index < vis.length → index < fuel →
      (index ≠ 0 → (backtraceWalkAux vis fuel index).head? =
        some ((vis.getD index default).position)) ∧
      List.Chain' (traceStepOK g) (backtraceWalkAux vis fuel index) := by
  intro fuel
  induction fuel with
  | zero => intro index h1 h2; omega
  | succ n ih =>
    intro index hlen hfuel
    rw [backtraceWalkAux]
    by_cases h0 : index = 0
    · rw [if_pos h0]
      exact ⟨fun h => absurd h0 h, List.chain'_nil⟩
    · rw [if_neg h0]
      obtain ⟨hbt, hstep⟩ := hOK index (Nat.pos_of_ne_zero h0) hlen
      have hrec := ih (vis.getD index default).backtraceIndex (lt_trans hbt hlen) (by omega)
      refine ⟨fun _ => rfl, ?_⟩
      rw [List.chain'_cons']
      refine ⟨?_, hrec.2⟩
      intro y hy
      by_cases hbt0 : (vis.getD index default).backtraceIndex = 0
      · rw [hbt0, backtraceWalkAux_zero] at hy
        exact absurd hy (by simp)
      · rw [hrec.1 hbt0] at hy
        have h2 := Option.some.inj (Option.mem_def.mp hy)
        rw [← h2]
        exact hstep

/-- C6: for every endpoint and per-slice minima on which `backtraceInner`
terminates with a result, the returned trace is non-empty, its first entry
has read row 0, consecutive entries advance the read row by 0 or 1 with an
admissible graph step (stay, previous character of the same node, or
in-neighbour crossing at a node start), and the read rows are monotone
non-decreasing along the trace. -/
theorem C6_backtrace_trace_shape (g : AlignmentGraphModel) (sequence : List Char)
    (minScores : List Int) (endPosition : Nat × Nat) (fuel : Nat)
    (dist : Int) (trace : List (Nat × Nat))
    (hj : endPosition.2 ≠ 0)
    (hrun : backtraceInner g sequence minScores endPosition fuel = some (dist, trace)) :
    trace ≠ [] ∧
    (∀ p, trace.head? = some p → p.2 = 0) ∧
    List.Chain' (traceStepOK g) trace ∧
    List.Chain' (fun a b : Nat × Nat => a.2 ≤ b.2) trace := by
  unfold backtraceInner at hrun
  cases hloop : backtraceLoop g sequence minScores (minScores.getLastD 0) fuel 0 []
    [⟨endPosition, 0⟩] [] [] with
  | none => rw [hloop] at hrun; exact absurd hrun (by simp)
  | some pr =>
    obtain ⟨d, vis⟩ := pr
    rw [hloop] at hrun
    obtain ⟨rfl, rfl⟩ : d = dist ∧ backtraceWalkAux vis vis.length (vis.length - 1) = trace := by
      have := Option.some.inj hrun
      exact ⟨congrArg Prod.fst this, congrArg Prod.snd this⟩
    obtain ⟨hOK, hlen2, hlast⟩ := backtraceLoop_sound g sequence minScores
      (minScores.getLastD 0) fuel 0 [] [⟨endPosition, 0⟩] [] [] d vis
      (by intro e he; right; rcases List.mem_singleton.mp he with rfl; exact ⟨rfl, rfl⟩)
      (by intro e he; exact absurd he (List.not_mem_nil e))
      (by
        intro _
        refine ⟨by simp, ?_, by simp⟩
        intro e he
        rcases List.mem_singleton.mp he with rfl
        exact hj)
      (by intro i hi hilen; simp at hilen)
      hloop
    have hidx : vis.length - 1 < vis.length := by omega
    have hidx0 : vis.length - 1 ≠ 0 := by omega
    obtain ⟨hhead, hchain⟩ := backtraceWalkAux_sound g vis hOK vis.length (vis.length - 1)
      hidx (by omega)
    have hh := hhead hidx0
    refine ⟨?_, ?_, hchain, ?_⟩
    · intro hnil
      rw [hnil] at hh
      exact absurd hh (by simp)
    · intro p hp
      rw [hh] at hp
      have h2 := Option.some.inj hp
      rw [← h2]
      exact hlast
    · refine List.Chain'.imp ?_ hchain
      intro a b hab
      rcases hab.1 with h | h <;> omega

/-- A one-node, one-character graph used for concrete runs. -/
def oneNodeGraph : AlignmentGraphModel :=
  ⟨fun _ => 0, fun _ => 1, fun _ => 'A', fun _ => 0, fun _ => [], fun _ => [],
   fun _ => 0, fun _ => false, 99, 98⟩

/-- Witness for C6 at a concrete one-node graph and one-character read. -/
theorem C6_backtrace_trace_shape_witness :
    ((((0, 1) : Nat × Nat).2 ≠ 0) ∧
      backtraceInner oneNodeGraph ['A'] [0, 0] (0, 1) 10 = some (1, [(0, 0)])) ∧
    (([((0 : Nat), (0 : Nat))] : List (Nat × Nat)) ≠ [] ∧
      (∀ p : Nat × Nat, ([((0 : Nat), (0 : Nat))] : List (Nat × Nat)).head? = some p → p.2 = 0) ∧
      List.Chain' (traceStepOK oneNodeGraph) [((0 : Nat), (0 : Nat))] ∧
      List.Chain' (fun a b : Nat × Nat => a.2 ≤ b.2) [((0 : Nat), (0 : Nat))]) :=
  ⟨⟨by decide, by decide⟩,
    C6_backtrace_trace_shape oneNodeGraph ['A'] [0, 0] (0, 1) 10 1 [(0, 0)]
      (by decide) (by decide)⟩

end GraphAligner

namespace GraphAligner

/-- Embeds `getLargestContiguousBlock(vec)`.  The loop state is
`(thisBlock, maxBlockSize, maxBlockEnd)`; subtractions are truncated
natural subtraction, which agrees with `size_t` on the states the source
asserts reachable. -/
def getLargestContiguousBlock (vec : List Bool) : Nat × Nat :=
  let st := vec.enum.foldl (fun (st : Nat × Nat × Nat) (p : Nat × Bool) =>
    let thisBlock := st.1
    let maxBlockSize := st.2.1
    let maxBlockEnd := st.2.2
    if p.2 then (thisBlock + 1, maxBlockSize, maxBlockEnd)
    else if thisBlock > maxBlockSize then (0, thisBlock - 1, p.1 - 1)
    else (0, maxBlockSize, maxBlockEnd)) (0, 0, 0)
  let final := if st.1 > st.2.1 then (st.1 - 1, vec.length - 1) else (st.2.1, st.2.2)
  (final.2 - final.1, final.2)

/-- Embeds `factorial<T>(n)`: `for (int i = 2; i <= n; i += 1) result *= i`. -/
def factorialC (n : Int) : Int :=
  (List.range' 2 (n - 1).toNat).foldl (fun acc i => acc * (i : Int)) 1

/-- Embeds `choose<T>(n, k)` (integer divisions of factorials, exact on the
binomial arguments the source uses). -/
def chooseC (n k : Int) : Int := factorialC n / factorialC k / factorialC (n - k)

/-- Embeds `powr(base, exponent)`; the source asserts the exponent
non-negative, so it is a natural number here. -/
def powr (base : ℚ) (exponent : Nat) : ℚ :=
  if h0 : exponent = 0 then 1
  else if h1 : exponent = 1 then base
  else if exponent % 2 = 0 then
    powr base (exponent / 2) * powr base (exponent / 2)
  else
    powr base (exponent / 2) * powr base (exponent / 2) * base
termination_by exponent
decreasing_by
  all_goals omega

/-- Embeds `estimateCorrectAlignmentViterbi(scores)`: the forward pass over
exact rationals followed by the backpointer pass.  The backtrace vectors
are accumulated in reverse and reversed at the end. -/
def estimateCorrectAlignmentViterbi (scores : List Int) : List Bool :=
  let correctMismatchProbability : ℚ := 15 / 100
  let falseMismatchProbability : ℚ := 50 / 100
  let falseToCorrectTransitionProbability : ℚ := 1 / 100
  let correctToFalseTransitionProbability : ℚ := 1 / 100
  let st := (scores.zip scores.tail).foldl
    (fun (st : ℚ × ℚ × List Bool × List Bool) (p : Int × Int) =>
      let correctProbability := st.1
      let falseProbability := st.2.1
      let scorediff := p.2 - p.1
      let ccb := decide (correctProbability * (1 - correctToFalseTransitionProbability) ≥
        falseProbability * falseToCorrectTransitionProbability)
      let fcb := decide (correctProbability * correctToFalseTransitionProbability ≥
        falseProbability * (1 - falseToCorrectTransitionProbability))
      let newCorrectProbability :=
        max (correctProbability * (1 - correctToFalseTransitionProbability))
          (falseProbability * falseToCorrectTransitionProbability)
      let newFalseProbability :=
        max (correctProbability * correctToFalseTransitionProbability)
          (falseProbability * (1 - falseToCorrectTransitionProbability))
      let chooseresult := chooseC 64 scorediff
      let correctMultiplier := (chooseresult : ℚ) *
        powr correctMismatchProbability scorediff.toNat *
        powr (1 - correctMismatchProbability) (64 - scorediff).toNat
      let falseMultiplier := (chooseresult : ℚ) *
        powr falseMismatchProbability scorediff.toNat *
        powr (1 - falseMismatchProbability) (64 - scorediff).toNat
      let correctProbability2 := newCorrectProbability * correctMultiplier
      let falseProbability2 := newFalseProbability * falseMultiplier
      let normalizer := correctProbability2 + falseProbability2
      (correctProbability2 / normalizer, falseProbability2 / normalizer,
        ccb :: st.2.2.1, fcb :: st.2.2.2))
    (30 / 100, 70 / 100, [], [])
  let correctFromCorrectBacktrace := st.2.2.1.reverse
  let falseFromCorrectBacktrace := st.2.2.2.reverse
  let currentCorrect := decide (st.1 > st.2.1)
  let bk := (correctFromCorrectBacktrace.zip falseFromCorrectBacktrace).reverse
  (viterbiBacktrack bk currentCorrect).reverse
where
  viterbiBacktrack : List (Bool × Bool) → Bool → List Bool
    | [], _ => []
    | (c, f) :: rest, cur => cur :: viterbiBacktrack rest (if cur then c else f)

end GraphAligner

namespace GraphAligner

/-- Embeds `estimateCorrectnessAndBacktraceBiggestPart`: run the Viterbi
estimator, take the largest contiguous correct block, return
`(sequence.size(), {})` when it is degenerate, and otherwise backtrace the
corresponding sub-matrix (on fuel). -/
def estimateCorrectnessAndBacktraceBiggestPart (g : AlignmentGraphModel)
    (sequence : List Char) (minScorePerWordSlice : List Int)
    (minScoreIndexPerWordSlice : List Nat) (fuel : Nat) :
    Option (Int × List (Nat × Nat)) :=
  let correctParts := estimateCorrectAlignmentViterbi minScorePerWordSlice
  let ends := getLargestContiguousBlock correctParts
  let start := ends.1
  let e := ends.2
  if e = start then some ((sequence.length : Int), [])
  else
    let endPos : Nat × Nat :=
      (minScoreIndexPerWordSlice.getD (e + 1) 0, (e - start + 1) * 64)
    let newseq := (sequence.drop (start * 64)).take ((e - start + 1) * 64)
    let partials := (List.range (e + 2 - start)).map
      (fun i => minScorePerWordSlice.getD (start + i) 0)
    backtraceInner g newseq partials endPos fuel

/-- Embeds `vg::Position` (the fields the source sets). -/
structure VGPositionModel where
  nodeId : Nat
  isReverse : Bool
  offset : Nat
deriving Repr, DecidableEq

/-- Embeds `vg::Edit` (the fields the source sets). -/
structure VGEditModel where
  fromLen : Nat
  toLen : Nat
  sequence : List Char
deriving Repr, DecidableEq

/-- Embeds `vg::Mapping` (the fields the source sets). -/
structure VGMappingModel where
  position : VGPositionModel
  rank : Nat
  edits : List VGEditModel
deriving Repr, DecidableEq

/-- Embeds the `vg::Alignment` fields the core sets. -/
structure VGAlignmentModel where
  score : Int
  path : List VGMappingModel
deriving Repr, DecidableEq

/-- Embeds `AlignmentResult` (elapsed time dropped). -/
structure AlignmentResultModel where
  alignment : VGAlignmentModel
  alignmentFailed : Bool
  cellsProcessed : Nat
deriving Repr, DecidableEq

/-- Maximum of the protobuf score field type (`int32_t`), the score set by
`emptyAlignment`. -/
def vgScoreMax : Int := 2147483647

/-- Embeds `emptyAlignment`. -/
def emptyAlignmentModel (cellsProcessed : Nat) : AlignmentResultModel :=
  { alignment := { score := vgScoreMax, path := [] }
    alignmentFailed := true
    cellsProcessed := cellsProcessed }

/-- Embeds `traceToAlignment(seq_id, sequence, score, trace, cellsProcessed)`.
An empty trace and a trace living entirely on the dummy nodes are reported
failed; otherwise the trace is cut into one mapping per node with one edit
per node transition, as in the source loop. -/
def traceToAlignment (g : AlignmentGraphModel) (sequence : List Char) (score : Int)
    (trace : List (Nat × Nat)) (cellsProcessed : Nat) : AlignmentResultModel :=
  if trace = [] then
    { alignment := { score := score, path := [] }
      alignmentFailed := true
      cellsProcessed := cellsProcessed }
  else
    match trace.dropWhile (fun p => g.indexToNode p.1 = g.dummyNodeStart) with
    | [] => emptyAlignmentModel cellsProcessed
    | p0 :: rest =>
      let oldNode := g.indexToNode p0.1
      if oldNode = g.dummyNodeEnd then emptyAlignmentModel cellsProcessed
      else
        let firstMapping : VGMappingModel :=
          ⟨⟨g.nodeIDs oldNode, g.reverse oldNode, p0.1 - g.nodeStart oldNode⟩, 0, []⟩
        let body := rest.takeWhile (fun p => g.indexToNode p.1 ≠ g.dummyNodeEnd)
        let st := body.foldl
          (fun (st : List VGMappingModel × VGMappingModel × Nat × (Nat × Nat) × (Nat × Nat) × Nat)
              (p : Nat × Nat) =>
            let mappings := st.1
            let vgmapping := st.2.1
            let oldNode := st.2.2.1
            let btNodeStart := st.2.2.2.1
            let btNodeEnd := st.2.2.2.2.1
            let rank := st.2.2.2.2.2
            if g.indexToNode p.1 = oldNode then
              (mappings, vgmapping, oldNode, btNodeStart, p, rank)
            else
              let edit : VGEditModel :=
                { fromLen := btNodeEnd.1 - btNodeStart.1 + 1
                  toLen := btNodeEnd.2 - btNodeStart.2 + 1
                  sequence := (sequence.drop btNodeStart.2).take
                    (btNodeEnd.2 - btNodeStart.2 + 1) }
              let newNode := g.indexToNode p.1
              let newMapping : VGMappingModel :=
                ⟨⟨g.nodeIDs newNode, g.reverse newNode, 0⟩, rank + 1, []⟩
              (mappings ++ [{ vgmapping with edits := vgmapping.edits ++ [edit] }],
                newMapping, newNode, p, p, rank + 1))
          ([], firstMapping, oldNode, p0, p0, 0)
        let btNodeStart := st.2.2.2.1
        let btNodeEnd := st.2.2.2.2.1
        let lastEdit : VGEditModel :=
          { fromLen := btNodeEnd.1 - btNodeStart.1
            toLen := btNodeEnd.2 - btNodeStart.2
            sequence := (sequence.drop btNodeStart.2).take (btNodeEnd.2 - btNodeStart.2) }
        { alignment := ⟨score, st.1 ++ [{ st.2.1 with edits := st.2.1.edits ++ [lastEdit] }]⟩
          alignmentFailed := false
          cellsProcessed := cellsProcessed }

/-- C10: if the longest contiguous run of slices labelled correct by the
Viterbi estimator is degenerate (`getLargestContiguousBlock` returns equal
start and end), `estimateCorrectnessAndBacktraceBiggestPart` returns score
equal to the full sequence length and an empty trace without invoking the
backtrace, and `traceToAlignment` on that empty trace reports the
(half-)alignment failed. -/
theorem C10_degenerate_block_fails (g : AlignmentGraphModel) (sequence : List Char)
    (minScores : List Int) (minIdx : List Nat) (fuel : Nat) (cells : Nat) (score : Int)
    (hdeg : (getLargestContiguousBlock (estimateCorrectAlignmentViterbi minScores)).2 =
      (getLargestContiguousBlock (estimateCorrectAlignmentViterbi minScores)).1) :
    estimateCorrectnessAndBacktraceBiggestPart g sequence minScores minIdx fuel =
      some ((sequence.length : Int), []) ∧
    (traceToAlignment g sequence score [] cells).alignmentFailed = true := by
  constructor
  · simp only [estimateCorrectnessAndBacktraceBiggestPart]
    rw [if_pos hdeg]
  · rfl

/-- Witness for C10 at the length-one minima list `[0]`. -/
theorem C10_degenerate_block_fails_witness :
    ((getLargestContiguousBlock (estimateCorrectAlignmentViterbi [0])).2 =
      (getLargestContiguousBlock (estimateCorrectAlignmentViterbi [0])).1) ∧
    (estimateCorrectnessAndBacktraceBiggestPart oneNodeGraph ['A', 'A'] [0] [] 5 =
      some ((['A', 'A'].length : Int), []) ∧
    (traceToAlignment oneNodeGraph ['A', 'A'] 7 [] 3).alignmentFailed = true) :=
  ⟨by decide, C10_degenerate_block_fails oneNodeGraph ['A', 'A'] [0] [] 5 3 7 (by decide)⟩

end GraphAligner

namespace GraphAligner

/-- Embeds the `MatrixSlice` record over the sweep skeleton. -/
structure MatrixSliceModel where
  minScorePerWordSlice : List Int
  minScoreIndexPerWordSlice : List Nat
  cellsProcessed : Nat
deriving Repr, DecidableEq

/-- The column sweep `getBitvectorSliceScoresAndFinalPosition` over the
per-column oracle, as a `MatrixSlice`. -/
def getBitvectorSliceModel (colMin : Nat → Int × Nat) (seqLen : Nat) (maxScore : Int)
    (cells : Nat) : MatrixSliceModel :=
  ⟨(sliceScoresRecords colMin seqLen maxScore).map Prod.fst,
   (sliceScoresRecords colMin seqLen maxScore).map Prod.snd, cells⟩

/-- The largest `ScoreType` value (`std::numeric_limits<ScoreType>::max()`
for 64-bit scores): the failure sentinel returned by `getBacktrace`. -/
def scoreTypeMax : Int := 9223372036854775807

/-- Embeds `getBacktrace(sequence, dynamicWidth, dynamicRowStart, startBand)`
over the sweep oracle: pad the read with `N`, run the sweep, fail with the
`ScoreType` maximum when the final column minimum exceeds the threshold,
otherwise estimate correctness, backtrace, and peel the padded tail off the
trace. -/
def getBacktraceModel (g : AlignmentGraphModel) (sequence : List Char)
    (colMin : Nat → Int × Nat) (maxScore : Int) (fuel : Nat) :
    Option (Int × List (Nat × Nat) × Nat) :=
  let padding := (64 - sequence.length % 64) % 64
  let padded := sequence ++ List.replicate padding 'N'
  let slice := getBitvectorSliceModel colMin padded.length maxScore 0
  if slice.minScorePerWordSlice.getLastD 0 > maxScore then
    some (scoreTypeMax, [], slice.cellsProcessed)
  else
    match estimateCorrectnessAndBacktraceBiggestPart g padded slice.minScorePerWordSlice
      slice.minScoreIndexPerWordSlice fuel with
    | none => none
    | some pr =>
      let trimmed := (pr.2.reverse.dropWhile
        (fun p => p.2 ≥ padded.length - padding)).reverse
      some (slice.minScorePerWordSlice.getLastD 0, trimmed, slice.cellsProcessed)

/-- Embeds the full-band `AlignOneWay` driver over the sweep oracle: a
`getBacktrace` result carrying the `ScoreType` maximum becomes a failed
empty alignment, otherwise the trace is converted to an alignment
record. -/
def alignOneWayModel (g : AlignmentGraphModel) (sequence : List Char)
    (colMin : Nat → Int × Nat) (maxScore : Int) (fuel : Nat) :
    Option AlignmentResultModel :=
  match getBacktraceModel g sequence colMin maxScore fuel with
  | none => none
  | some pr =>
    if pr.1 = scoreTypeMax then some (emptyAlignmentModel pr.2.2)
    else some (traceToAlignment g sequence pr.1 pr.2.1 pr.2.2)

theorem sliceScoresAux_cutoff (colMin : Nat → Int × Nat) (L : Nat) (maxScore : Int) :
    ∀ (t remaining s : Nat), t < remaining →
      (∀ k, k < t → ¬((colMin (s + k)).1 > maxScore)) →
      (colMin (s + t)).1 > maxScore →
      sliceScoresAux colMin L maxScore s remaining =
        ((List.range (t + 1)).map (fun k => colMin (s + k))) ++
          List.replicate (remaining - t - 1) ((L : Int), 0) := by
  intro t
  induction t with
  | zero =>
    intro remaining s hlt hb hex
    obtain ⟨r2, rfl⟩ : ∃ r2, remaining = r2 + 1 := ⟨remaining - 1, by omega⟩
    rw [sliceScoresAux]
    rw [if_pos (by simpa using hex)]
    have h2 : r2 + 1 - 0 - 1 = r2 := by omega
    have h3 : List.range (0 + 1) = [0] := by decide
    simp only [h2, h3, List.map_singleton, List.singleton_append, Nat.add_zero]
  | succ t ih =>
    intro remaining s hlt hb hex
    obtain ⟨r2, rfl⟩ : ∃ r2, remaining = r2 + 1 := ⟨remaining - 1, by omega⟩
    rw [sliceScoresAux]
    rw [if_neg (by simpa using hb 0 (by omega))]
    rw [ih r2 (s + 1) (by omega)
      (fun k hk => by
        have h2 := hb (k + 1) (by omega)
        have harith : s + (k + 1) = s + 1 + k := by omega
        rwa [harith] at h2)
      (by
        have harith : s + (t + 1) = s + 1 + t := by omega
        rwa [harith] at hex)]
    have hr : r2 + 1 - (t + 1) - 1 = r2 - t - 1 := by omega
    rw [hr]
    conv_rhs => rw [List.range_succ_eq_map]
    simp only [List.map_cons, List.map_map, List.cons_append, Nat.add_zero]
    congr 1
    congr 1
    apply List.map_congr_left
    intro k _
    simp only [Function.comp_apply]
    congr 1
    omega

end GraphAligner

namespace GraphAligner

/-- The length of the read after `N`-padding to a multiple of the word
size. -/
def paddedLen (n : Nat) : Nat := n + (64 - n % 64) % 64

theorem getLastD_concat_int (l : List Int) (c d : Int) : (l ++ [c]).getLastD d = c := by
  simp

theorem map_fst_records (colMin : Nat → Int × Nat) (L : Nat) (maxScore : Int)
    (t m : Nat)
    (heq : sliceScoresRecords colMin L maxScore =
      ((0, 0) :: (List.range (t + 1)).map colMin) ++
        List.replicate m (((L : Nat) : Int), 0)) :
    (sliceScoresRecords colMin L maxScore).map Prod.fst =
      (0 :: (List.range (t + 1)).map (fun k => (colMin k).1)) ++
        List.replicate m ((L : Nat) : Int) := by
  rw [heq]
  simp [List.map_append, List.map_replicate, List.map_map, Function.comp]

theorem getLastD_cutoff (colMin : Nat → Int × Nat) (L : Nat) (maxScore : Int)
    (t m : Nat)
    (heq : (sliceScoresRecords colMin L maxScore).map Prod.fst =
      (0 :: (List.range (t + 1)).map (fun k => (colMin k).1)) ++
        List.replicate m ((L : Nat) : Int)) :
    ((sliceScoresRecords colMin L maxScore).map Prod.fst).getLastD 0 = (colMin t).1 ∨
    (0 < m ∧ ((sliceScoresRecords colMin L maxScore).map Prod.fst).getLastD 0 = (L : Int)) := by
  rw [heq]
  rcases Nat.eq_zero_or_pos m with hm | hm
  · subst hm
    left
    rw [List.replicate_zero, List.append_nil, List.range_succ, List.map_append,
      List.map_singleton]
    rw [show (0 : Int) :: ((List.range t).map (fun k => (colMin k).1) ++ [(colMin t).1]) =
      ((0 : Int) :: (List.range t).map (fun k => (colMin k).1)) ++ [(colMin t).1] from rfl]
    exact getLastD_concat_int _ _ _
  · right
    refine ⟨hm, ?_⟩
    obtain ⟨m2, rfl⟩ : ∃ m2, m = m2 + 1 := ⟨m - 1, by omega⟩
    rw [show List.replicate (m2 + 1) ((L : Nat) : Int) =
      List.replicate m2 ((L : Nat) : Int) ++ [((L : Nat) : Int)] from by
        rw [← List.replicate_succ']]
    rw [← List.append_assoc]
    exact getLastD_concat_int _ _ _

set_option maxHeartbeats 2000000 in
/-- C3: if in some 64-row column the column minimum exceeds the score
ceiling, the column sweep appends sentinel entries (score the padded read
length, index 0) for all remaining columns and stops, and the full-band
driver returns a failed alignment whose score is the maximum representable
score.  `t` is the first exceeding column; the sweep is abstracted by the
per-column oracle `colMin`, and `maxScore` stands for the ceiling
`sequence.size() * 0.4` computed by `getBacktrace` (it is below the padded
length for every non-empty read). -/
theorem C3_threshold_cutoff_fails (g : AlignmentGraphModel) (sequence : List Char)
    (colMin : Nat → Int × Nat) (maxScore : Int) (fuel : Nat) (t : Nat)
    (hb : ∀ k, k < t → ¬((colMin k).1 > maxScore))
    (hex : (colMin t).1 > maxScore)
    (ht : t < numWordSlices (paddedLen sequence.length))
    (hms : maxScore < ((paddedLen sequence.length : Nat) : Int)) :
    (sliceScoresRecords colMin (paddedLen sequence.length) maxScore =
      ((0, 0) :: (List.range (t + 1)).map colMin) ++
        List.replicate (numWordSlices (paddedLen sequence.length) - t - 1)
          (((paddedLen sequence.length : Nat) : Int), 0)) ∧
    (∃ r, alignOneWayModel g sequence colMin maxScore fuel = some r ∧
      r.alignmentFailed = true ∧ r.alignment.score = vgScoreMax) := by
  have hrec : sliceScoresRecords colMin (paddedLen sequence.length) maxScore =
      ((0, 0) :: (List.range (t + 1)).map colMin) ++
        List.replicate (numWordSlices (paddedLen sequence.length) - t - 1)
          (((paddedLen sequence.length : Nat) : Int), 0) := by
    rw [sliceScoresRecords]
    rw [sliceScoresAux_cutoff colMin (paddedLen sequence.length) maxScore t
      (numWordSlices (paddedLen sequence.length)) 0 ht
      (fun k hk => by simpa using hb k hk) (by simpa using hex)]
    simp
  refine ⟨hrec, ?_⟩
  have hmap := map_fst_records colMin (paddedLen sequence.length) maxScore t
    (numWordSlices (paddedLen sequence.length) - t - 1) hrec
  have hpadlen : (sequence ++ List.replicate ((64 - sequence.length % 64) % 64) 'N').length =
      paddedLen sequence.length := by
    simp [paddedLen]
  have hlast : ((sliceScoresRecords colMin (paddedLen sequence.length) maxScore).map
      Prod.fst).getLastD 0 > maxScore := by
    rcases getLastD_cutoff colMin (paddedLen sequence.length) maxScore t
      (numWordSlices (paddedLen sequence.length) - t - 1) hmap with h | ⟨_, h⟩
    · rw [h]; exact hex
    · rw [h]; exact hms
  have hgb : getBacktraceModel g sequence colMin maxScore fuel =
      some (scoreTypeMax, [], 0) := by
    rw [getBacktraceModel]
    simp only [getBitvectorSliceModel, hpadlen]
    rw [if_pos hlast]
  refine ⟨emptyAlignmentModel 0, ?_, rfl, rfl⟩
  rw [alignOneWayModel, hgb]
  simp

/-- Witness for C3 at a 128-character read and a constant column oracle that
exceeds the threshold at the first column. -/
theorem C3_threshold_cutoff_fails_witness :
    ((∀ k : Nat, k < 0 → ¬(((fun _ : Nat => ((99 : Int), (0 : Nat))) k).1 > (51 : Int))) ∧
      (((fun _ : Nat => ((99 : Int), (0 : Nat))) 0).1 > (51 : Int)) ∧
      0 < numWordSlices (paddedLen (List.replicate 128 'A').length) ∧
      (51 : Int) < ((paddedLen (List.replicate 128 'A').length : Nat) : Int)) ∧
    ((sliceScoresRecords (fun _ => ((99 : Int), 0))
        (paddedLen (List.replicate 128 'A').length) 51 =
      ((0, 0) :: (List.range (0 + 1)).map (fun _ => ((99 : Int), 0))) ++
        List.replicate (numWordSlices (paddedLen (List.replicate 128 'A').length) - 0 - 1)
          (((paddedLen (List.replicate 128 'A').length : Nat) : Int), 0)) ∧
    (∃ r, alignOneWayModel oneNodeGraph (List.replicate 128 'A')
        (fun _ => ((99 : Int), 0)) 51 1 = some r ∧
      r.alignmentFailed = true ∧ r.alignment.score = vgScoreMax)) :=
  ⟨⟨fun k hk => absurd hk (Nat.not_lt_zero k), by decide, by decide, by decide⟩,
    C3_threshold_cutoff_fails oneNodeGraph (List.replicate 128 'A')
      (fun _ => ((99 : Int), 0)) 51 1 0 (fun k hk => absurd hk (Nat.not_lt_zero k))
      (by decide) (by decide) (by decide)⟩

end GraphAligner



namespace GraphAligner

def lane (c x : Nat) : Nat := x / 256 ^ c % 256

def fromLanes (f : Nat → Nat) : Nat :=
  f 0 + f 1 * 256 + f 2 * 65536 + f 3 * 16777216 + f 4 * 4294967296 +
    f 5 * 1099511627776 + f 6 * 281474976710656 + f 7 * 72057594037927936

theorem fromLanes_lanes {x : Nat} (hx : x < 18446744073709551616) :
    fromLanes (fun c => lane c x) = x := by
  unfold fromLanes lane
  norm_num
  omega

theorem fromLanes_add (f g : Nat → Nat) :
    fromLanes f + fromLanes g = fromLanes (fun c => f c + g c) := by
  unfold fromLanes
  ring

theorem fromLanes_congr (f g : Nat → Nat) (h : ∀ c, c < 8 → f c = g c) :
    fromLanes f = fromLanes g := by
  unfold fromLanes
  rw [h 0 (by norm_num), h 1 (by norm_num), h 2 (by norm_num), h 3 (by norm_num),
    h 4 (by norm_num), h 5 (by norm_num), h 6 (by norm_num), h 7 (by norm_num)]

theorem add_lanes {x y : Nat} (hx : x < 18446744073709551616)
    (hy : y < 18446744073709551616) :
    x + y = fromLanes (fun c => lane c x + lane c y) := by
  conv_lhs => rw [← fromLanes_lanes hx, ← fromLanes_lanes hy]
  rw [fromLanes_add]

theorem sub_lanes {x y : Nat} (hx : x < 18446744073709551616)
    (hy : y < 18446744073709551616)
    (h : ∀ c, c < 8 → lane c y ≤ lane c x) :
    x - y = fromLanes (fun c => lane c x - lane c y) ∧ y ≤ x := by
  have key : x = fromLanes (fun c => lane c x - lane c y) + y := by
    calc x = fromLanes (fun c => lane c x) := (fromLanes_lanes hx).symm
    _ = fromLanes (fun c => (lane c x - lane c y) + lane c y) :=
      fromLanes_congr _ _ (fun c hc => by have := h c hc; omega)
    _ = fromLanes (fun c => lane c x - lane c y) + fromLanes (fun c => lane c y) :=
      (fromLanes_add _ _).symm
    _ = fromLanes (fun c => lane c x - lane c y) + y := by rw [fromLanes_lanes hy]
  omega

theorem fromLanes_lt (f : Nat → Nat) (hf : ∀ c, c < 8 → f c < 256) :
    fromLanes f < 18446744073709551616 := by
  have h0 := hf 0 (by norm_num)
  have h1 := hf 1 (by norm_num)
  have h2 := hf 2 (by norm_num)
  have h3 := hf 3 (by norm_num)
  have h4 := hf 4 (by norm_num)
  have h5 := hf 5 (by norm_num)
  have h6 := hf 6 (by norm_num)
  have h7 := hf 7 (by norm_num)
  unfold fromLanes
  omega

theorem lane_fromLanes (f : Nat → Nat) (hf : ∀ c, c < 8 → f c < 256) (c : Nat)
    (hc : c < 8) : lane c (fromLanes f) = f c := by
  have h0 := hf 0 (by norm_num)
  have h1 := hf 1 (by norm_num)
  have h2 := hf 2 (by norm_num)
  have h3 := hf 3 (by norm_num)
  have h4 := hf 4 (by norm_num)
  have h5 := hf 5 (by norm_num)
  have h6 := hf 6 (by norm_num)
  have h7 := hf 7 (by norm_num)
  unfold fromLanes lane
  interval_cases c <;> norm_num <;> omega

end GraphAligner

namespace GraphAligner

def twoC (v : Int) : Nat := (v % 256).toNat

theorem twoC_expr (v : Int) (h1 : -128 ≤ v) (h2 : v < 128) :
    (twoC v : Int) = if 0 ≤ v then v else v + 256 := by
  unfold twoC
  rcases le_or_lt 0 v with h | h
  · rw [if_pos h]; omega
  · rw [if_neg (by omega)]; omega

theorem byte_and_127 : ∀ a, a < 256 → a &&& 127 = a % 128 := by decide

theorem byte_and_128 : ∀ a, a < 256 → a &&& 128 = 128 * (a / 128) := by decide

theorem byte_128_and : ∀ a, a < 256 → 128 &&& a = 128 * (a / 128) := by decide

theorem byte_or_128 : ∀ a, a < 256 → a ||| 128 = a % 128 + 128 := by decide

theorem byte_xor_SS : ∀ S, S < 2 → ∀ E, E < 2 →
    (128 * S) ^^^ (128 * E) = 128 * ((S + E) % 2) := by decide

theorem byte_xor_S : ∀ a, a < 256 → ∀ S, S < 2 →
    a ^^^ (128 * S) = if S = 0 then a else (a + 128) % 256 := by decide

theorem byte_or_S : ∀ a, a < 128 → ∀ S, S < 2 → a ||| (128 * S) = a + 128 * S := by decide

theorem gadgetByte_correct (d : Int) (p q a : Nat)
    (ha : (a : Int) = if 0 ≤ d then d else d + 256)
    (hd : -128 ≤ d) (hd1 : d < 128) (hp : p ≤ 128) (hq : q ≤ 127)
    (h2a : -128 ≤ d + p - q) (h2b : d + p - q < 128) :
    ((((((a &&& 127) + p) ^^^ (a &&& 128)) ||| 128) - q) &&& 127) |||
      (((((a &&& 127) + p) ^^^ (a &&& 128)) &&& 128) ^^^
        (128 &&& (255 - (((((a &&& 127) + p) ^^^ (a &&& 128)) ||| 128) - q)))) =
      twoC (d + p - q) := by
  have ha256 : a < 256 := by
    rcases le_or_lt 0 d with h | h
    · rw [if_pos h] at ha; omega
    · rw [if_neg (by omega)] at ha; omega
  rw [byte_and_127 a ha256, byte_and_128 a ha256]
  have hsum : a % 128 + p < 256 := by omega
  set X : Nat := (a % 128 + p) ^^^ (128 * (a / 128)) with hX
  have hXv : X = if (a / 128) = 0 then a % 128 + p else (a % 128 + p + 128) % 256 := by
    rw [hX, byte_xor_S _ hsum _ (by omega)]
  have hXlt : X < 256 := by rw [hXv]; split <;> omega
  rw [byte_or_128 X hXlt]
  set D5 : Nat := X % 128 + 128 - q with hD5
  rw [byte_and_127 D5 (by omega), byte_and_128 X hXlt, byte_128_and (255 - D5) (by omega)]
  have h255 : (255 - D5) / 128 < 2 := by omega
  rw [byte_xor_SS _ (by omega) _ h255]
  rw [byte_or_S _ (by omega) _ (Nat.mod_lt _ (by norm_num))]
  have ht := twoC_expr (d + p - q) h2a h2b
  rcases le_or_lt 0 d with hdpos | hdneg
  · rw [if_pos hdpos] at ha
    rcases le_or_lt 0 (d + p - q) with h2pos | h2neg
    · rw [if_pos h2pos] at ht
      rw [hXv] at hD5 ⊢
      split at hD5 <;> split <;> omega
    · rw [if_neg (by omega)] at ht
      rw [hXv] at hD5 ⊢
      split at hD5 <;> split <;> omega
  · rw [if_neg (by omega)] at ha
    rcases le_or_lt 0 (d + p - q) with h2pos | h2neg
    · rw [if_pos h2pos] at ht
      rw [hXv] at hD5 ⊢
      split at hD5 <;> split <;> omega
    · rw [if_neg (by omega)] at ht
      rw [hXv] at hD5 ⊢
      split at hD5 <;> split <;> omega

end GraphAligner

namespace GraphAligner

theorem allOnes_eq2 : allOnes = 2 ^ 64 - 1 := by norm_num [allOnes]

theorem wordMod_eq2 : wordMod = 2 ^ 64 := by norm_num [wordMod]

theorem lane_testBit (c x i : Nat) (hc : c < 8) :
    (lane c x).testBit i = (decide (i < 8) && x.testBit (8 * c + i)) := by
  unfold lane
  have hp : (256 : Nat) ^ c = 2 ^ (8 * c) := by
    rw [show (256 : Nat) = 2 ^ 8 from rfl, ← pow_mul]
  rw [hp, show (256 : Nat) = 2 ^ 8 from rfl]
  rw [Nat.testBit_mod_two_pow]
  congr 1
  rw [← Nat.shiftRight_eq_div_pow, Nat.testBit_shiftRight]

theorem lane_land (c x y : Nat) (hc : c < 8) :
    lane c (x &&& y) = lane c x &&& lane c y := by
  apply Nat.eq_of_testBit_eq
  intro i
  rw [Nat.testBit_land, lane_testBit c _ i hc, lane_testBit c _ i hc, lane_testBit c _ i hc,
    Nat.testBit_land]
  by_cases h : i < 8 <;> simp [h]

theorem lane_lor (c x y : Nat) (hc : c < 8) :
    lane c (x ||| y) = lane c x ||| lane c y := by
  apply Nat.eq_of_testBit_eq
  intro i
  rw [Nat.testBit_lor, lane_testBit c _ i hc, lane_testBit c _ i hc, lane_testBit c _ i hc,
    Nat.testBit_lor]
  by_cases h : i < 8 <;> simp [h]

theorem lane_xor (c x y : Nat) (hc : c < 8) :
    lane c (x ^^^ y) = lane c x ^^^ lane c y := by
  apply Nat.eq_of_testBit_eq
  intro i
  rw [Nat.testBit_xor, lane_testBit c _ i hc, lane_testBit c _ i hc, lane_testBit c _ i hc,
    Nat.testBit_xor]
  by_cases h : i < 8 <;> simp [h]

theorem lane_signMask (c : Nat) (hc : c < 8) : lane c signMask = 128 := by
  interval_cases c <;> decide

theorem lane_lsbMask (c : Nat) (hc : c < 8) : lane c lsbMask = 1 := by
  interval_cases c <;> decide

theorem lane_allOnes (c : Nat) (hc : c < 8) : lane c allOnes = 255 := by
  interval_cases c <;> decide

theorem lane_lt2 (c x : Nat) : lane c x < 256 := Nat.mod_lt _ (by norm_num)

theorem byte_xor_255 : ∀ a, a < 256 → a ^^^ 255 = 255 - a := by decide

theorem byte_255_xor : ∀ a, a < 256 → 255 ^^^ a = 255 - a := by decide

theorem lane_wnot (c z : Nat) (hc : c < 8) (hz : z < 18446744073709551616) :
    lane c (wnot z) = 255 - lane c z := by
  unfold wnot
  rw [lane_xor c _ _ hc, lane_allOnes c hc]
  exact byte_255_xor _ (lane_lt2 c z)

theorem wadd_eq_add {x y : Nat} (h : x + y < wordMod) : wadd x y = x + y := by
  unfold wadd
  exact Nat.mod_eq_of_lt h

theorem wsub_eq_sub {x y : Nat} (hy : y ≤ x) (hx : x < wordMod) : wsub x y = x - y := by
  unfold wsub
  rw [show x + wordMod - y = (x - y) + wordMod from by omega]
  rw [Nat.add_mod_right]
  exact Nat.mod_eq_of_lt (by omega)

theorem wnot_lt {z : Nat} (hz : z < wordMod) : wnot z < wordMod := by
  have h : wnot z < 2 ^ 64 :=
    Nat.xor_lt_two_pow (by norm_num [allOnes]) (by rw [wordMod_eq2] at hz; exact hz)
  rw [wordMod_eq2]
  exact h

end GraphAligner

namespace GraphAligner

theorem signMask_lt : signMask < wordMod := by norm_num [signMask, wordMod]

theorem land_lt_left {x y : Nat} (hx : x < wordMod) : x &&& y < wordMod :=
  lt_of_le_of_lt Nat.and_le_left hx

theorem lor_lt {x y : Nat} (hx : x < wordMod) (hy : y < wordMod) : x ||| y < wordMod := by
  rw [wordMod_eq2] at *
  exact Nat.or_lt_two_pow hx hy

theorem xor_lt {x y : Nat} (hx : x < wordMod) (hy : y < wordMod) : x ^^^ y < wordMod := by
  rw [wordMod_eq2] at *
  exact Nat.xor_lt_two_pow hx hy

theorem lane_wnot_signMask (c : Nat) (hc : c < 8) : lane c (wnot signMask) = 127 := by
  rw [lane_wnot c _ hc signMask_lt, lane_signMask c hc]

/-- The word-level signed add/subtract gadget of `differenceMasks`: with all
eight lanes of `x` holding two's-complement encodings of in-range values
and the addend/subtrahend lanes small, the composite updates every lane
independently. -/
theorem gadget_word (x u v : Nat) (d : Nat → Int)
    (hx : x < wordMod) (hu : u < wordMod) (hv : v < wordMod)
    (hl : ∀ c, c < 8 → lane c x = twoC (d c))
    (hd : ∀ c, c < 8 → -128 ≤ d c ∧ d c < 128)
    (hu8 : ∀ c, c < 8 → lane c u ≤ 128)
    (hv8 : ∀ c, c < 8 → lane c v ≤ 127)
    (h2 : ∀ c, c < 8 → -128 ≤ d c + lane c u - lane c v ∧
      d c + lane c u - lane c v < 128) :
    ((wsub (((wadd (x &&& wnot signMask) u) ^^^ (x &&& signMask)) ||| signMask) v)
        &&& wnot signMask) |||
      ((((wadd (x &&& wnot signMask) u) ^^^ (x &&& signMask)) &&& signMask) ^^^
        (signMask &&& wnot (wsub (((wadd (x &&& wnot signMask) u) ^^^ (x &&& signMask))
          ||| signMask) v))) =
      fromLanes (fun c => twoC (d c + lane c u - lane c v)) := by
  have hwm : (18446744073709551616 : Nat) = wordMod := rfl
  set A : Nat := x &&& wnot signMask with hA
  have hAlt : A < wordMod := land_lt_left hx
  have hAlane : ∀ c, c < 8 → lane c A = lane c x &&& 127 := by
    intro c hc
    rw [hA, lane_land c _ _ hc, lane_wnot_signMask c hc]
  set S1 : Nat := x &&& signMask with hS1
  have hS1lt : S1 < wordMod := land_lt_left hx
  have hS1lane : ∀ c, c < 8 → lane c S1 = lane c x &&& 128 := by
    intro c hc
    rw [hS1, lane_land c _ _ hc, lane_signMask c hc]
  have hsum : ∀ c, c < 8 → lane c A + lane c u < 256 := by
    intro c hc
    have h1 : lane c A ≤ 127 := by
      rw [hAlane c hc]
      exact le_trans Nat.and_le_right (by norm_num)
    have := hu8 c hc
    omega
  have hABsum : A + u < wordMod := by
    rw [add_lanes (hwm ▸ hAlt) (hwm ▸ hu), ← hwm]
    exact fromLanes_lt _ (fun c hc => hsum c hc)
  set B : Nat := wadd A u with hB
  have hBv : B = A + u := wadd_eq_add hABsum
  have hBlt : B < wordMod := by rw [hBv]; exact hABsum
  have hBlane : ∀ c, c < 8 → lane c B = lane c A + lane c u := by
    intro c hc
    rw [hBv, add_lanes (hwm ▸ hAlt) (hwm ▸ hu)]
    exact lane_fromLanes _ (fun c2 hc2 => hsum c2 hc2) c hc
  set C : Nat := B ^^^ S1 with hC
  have hClt : C < wordMod := xor_lt hBlt hS1lt
  have hClane : ∀ c, c < 8 → lane c C = lane c B ^^^ lane c S1 := by
    intro c hc
    rw [hC, lane_xor c _ _ hc]
  set D : Nat := C ||| signMask with hD
  have hDlt : D < wordMod := lor_lt hClt signMask_lt
  have hDlane : ∀ c, c < 8 → lane c D = lane c C ||| 128 := by
    intro c hc
    rw [hD, lane_lor c _ _ hc, lane_signMask c hc]
  have hDge : ∀ c, c < 8 → lane c v ≤ lane c D := by
    intro c hc
    rw [hDlane c hc, byte_or_128 _ (lane_lt2 c C)]
    have := hv8 c hc
    omega
  have hsub := sub_lanes (hwm ▸ hDlt) (hwm ▸ hv) hDge
  set E : Nat := wsub D v with hE
  have hEv : E = D - v := by
    rw [hE, wsub_eq_sub hsub.2 hDlt]
  have hElt : E < wordMod := by
    rw [hEv]
    exact lt_of_le_of_lt (Nat.sub_le _ _) hDlt
  have hElane : ∀ c, c < 8 → lane c E = lane c D - lane c v := by
    intro c hc
    rw [hEv, hsub.1]
    exact lane_fromLanes _ (fun c2 hc2 => by
      have := Nat.sub_le (lane c2 D) (lane c2 v)
      have := lane_lt2 c2 D
      omega) c hc
  have hfinal_lane : ∀ c, c < 8 →
      lane c ((E &&& wnot signMask) ||| ((C &&& signMask) ^^^ (signMask &&& wnot E))) =
        twoC (d c + lane c u - lane c v) := by
    intro c hc
    rw [lane_lor c _ _ hc, lane_land c _ _ hc, lane_wnot_signMask c hc,
      lane_xor c _ _ hc, lane_land c _ _ hc, lane_signMask c hc,
      lane_land c _ _ hc, lane_signMask c hc, lane_wnot c _ hc hElt]
    have hCexpr : lane c C = ((lane c x &&& 127) + lane c u) ^^^ (lane c x &&& 128) := by
      rw [hClane c hc, hBlane c hc, hAlane c hc, hS1lane c hc]
    have hEexpr : lane c E = (lane c C ||| 128) - lane c v := by
      rw [hElane c hc, hDlane c hc]
    rw [hEexpr, hCexpr]
    have hha : ((lane c x : Nat) : Int) = if 0 ≤ d c then d c else d c + 256 := by
      rw [hl c hc]
      exact twoC_expr (d c) (hd c hc).1 (hd c hc).2
    exact gadgetByte_correct (d c) (lane c u) (lane c v) (lane c x) hha
      (hd c hc).1 (hd c hc).2 (hu8 c hc) (hv8 c hc) (h2 c hc).1 (h2 c hc).2
  have hfinal_lt : (E &&& wnot signMask) ||| ((C &&& signMask) ^^^ (signMask &&& wnot E)) <
      wordMod :=
    lor_lt (land_lt_left hElt) (xor_lt (land_lt_left hClt) (land_lt_left signMask_lt))
  calc (E &&& wnot signMask) ||| ((C &&& signMask) ^^^ (signMask &&& wnot E)) =
      fromLanes (fun c => lane c ((E &&& wnot signMask) |||
        ((C &&& signMask) ^^^ (signMask &&& wnot E)))) := (fromLanes_lanes (hwm ▸ hfinal_lt)).symm
  _ = fromLanes (fun c => twoC (d c + lane c u - lane c v)) :=
    fromLanes_congr _ _ (fun c hc => hfinal_lane c hc)

end GraphAligner

namespace GraphAligner

/-- Number of set bits of `x` among positions `< n`. -/
def cnt (x n : Nat) : Nat := ∑ j ∈ Finset.range n, x / 2 ^ j % 2

/-- Reference population count of a byte. -/
def bytePop (a : Nat) : Nat :=
  a % 2 + a / 2 % 2 + a / 4 % 2 + a / 8 % 2 + a / 16 % 2 + a / 32 % 2 +
    a / 64 % 2 + a / 128 % 2

theorem cnt_zero (x : Nat) : cnt x 0 = 0 := rfl

theorem cnt_succ (x n : Nat) : cnt x (n + 1) = cnt x n + x / 2 ^ n % 2 :=
  Finset.sum_range_succ _ _

theorem cnt_le (x n : Nat) : cnt x n ≤ n := by
  induction n with
  | zero => simp [cnt]
  | succ n ih =>
    rw [cnt_succ]
    have h : x / 2 ^ n % 2 ≤ 1 := by omega
    omega

theorem lane_bit (c x k : Nat) (hk : k < 8) :
    lane c x / 2 ^ k % 2 = x / 2 ^ (8 * c + k) % 2 := by
  unfold lane
  have h256 : (256 : Nat) ^ c = 2 ^ (8 * c) := by
    rw [show (256 : Nat) = 2 ^ 8 by norm_num, ← pow_mul]
  rw [h256, pow_add, ← Nat.div_div_eq_div_mul]
  set y := x / 2 ^ (8 * c)
  interval_cases k <;> norm_num <;> omega

theorem cnt_byte (x c : Nat) : cnt x (8 * c + 8) = cnt x (8 * c) + bytePop (lane c x) := by
  have e0 := lane_bit c x 0 (by norm_num)
  have e1 := lane_bit c x 1 (by norm_num)
  have e2 := lane_bit c x 2 (by norm_num)
  have e3 := lane_bit c x 3 (by norm_num)
  have e4 := lane_bit c x 4 (by norm_num)
  have e5 := lane_bit c x 5 (by norm_num)
  have e6 := lane_bit c x 6 (by norm_num)
  have e7 := lane_bit c x 7 (by norm_num)
  unfold cnt bytePop
  rw [Finset.sum_range_add]
  norm_num [Finset.sum_range_succ] at e0 e1 e2 e3 e4 e5 e6 e7 ⊢
  omega

theorem cnt_word (x : Nat) :
    cnt x 64 = bytePop (lane 0 x) + bytePop (lane 1 x) + bytePop (lane 2 x) +
      bytePop (lane 3 x) + bytePop (lane 4 x) + bytePop (lane 5 x) +
      bytePop (lane 6 x) + bytePop (lane 7 x) := by
  have h0 := cnt_byte x 0
  have h1 := cnt_byte x 1
  have h2 := cnt_byte x 2
  have h3 := cnt_byte x 3
  have h4 := cnt_byte x 4
  have h5 := cnt_byte x 5
  have h6 := cnt_byte x 6
  have h7 := cnt_byte x 7
  norm_num at h0 h1 h2 h3 h4 h5 h6 h7
  have hz : cnt x 0 = 0 := cnt_zero x
  omega

theorem bytePop_le (a : Nat) : bytePop a ≤ 8 := by
  unfold bytePop
  have h1 : a % 2 ≤ 1 := by omega
  have h2 : a / 2 % 2 ≤ 1 := by omega
  have h3 : a / 4 % 2 ≤ 1 := by omega
  have h4 : a / 8 % 2 ≤ 1 := by omega
  have h5 : a / 16 % 2 ≤ 1 := by omega
  have h6 : a / 32 % 2 ≤ 1 := by omega
  have h7 : a / 64 % 2 ≤ 1 := by omega
  have h8 : a / 128 % 2 ≤ 1 := by omega
  omega

theorem testBit_byte (x c i : Nat) (hc : c < 8) (hi : i < 8) :
    x.testBit (8 * c + i) = (lane c x).testBit i := by
  rw [lane_testBit c x i hc]
  simp [hi]

end GraphAligner

namespace GraphAligner

theorem lane_c55 (c : Nat) (hc : c < 8) : lane c 0x5555555555555555 = 85 := by
  unfold lane
  interval_cases c <;> decide

theorem lane_c33 (c : Nat) (hc : c < 8) : lane c 0x3333333333333333 = 51 := by
  unfold lane
  interval_cases c <;> decide

theorem lane_c0f (c : Nat) (hc : c < 8) : lane c 0x0f0f0f0f0f0f0f0f = 15 := by
  unfold lane
  interval_cases c <;> decide

theorem word_ext_bytes {X : Nat} (f : Nat → Nat) (hX : X < wordMod)
    (hf : ∀ c, c < 8 → f c < 256)
    (h : ∀ c, c < 8 → ∀ i, i < 8 → X.testBit (8 * c + i) = (f c).testBit i) :
    X = fromLanes f := by
  have hXl : ∀ c, c < 8 → lane c X = f c := by
    intro c hc
    apply Nat.eq_of_testBit_eq
    intro i
    rcases lt_or_ge i 8 with hi | hi
    · rw [lane_testBit c X i hc, decide_eq_true hi, Bool.true_and, h c hc i hi]
    · have h1 : lane c X < 2 ^ i :=
        lt_of_lt_of_le (lane_lt2 c X) (le_trans (by norm_num)
          (Nat.pow_le_pow_right (by norm_num) hi))
      have h2 : f c < 2 ^ i :=
        lt_of_lt_of_le (hf c hc) (le_trans (by norm_num)
          (Nat.pow_le_pow_right (by norm_num) hi))
      rw [Nat.testBit_lt_two_pow h1, Nat.testBit_lt_two_pow h2]
  calc X = fromLanes (fun c => lane c X) := (fromLanes_lanes (by
        have : wordMod = 18446744073709551616 := rfl
        omega)).symm
  _ = fromLanes f := fromLanes_congr _ _ hXl

theorem shr_mask_lanes (k m b x : Nat) (hb : b < 256) (hmlt : m < wordMod)
    (hm : ∀ c, c < 8 → lane c m = b)
    (hbk : ∀ i, i < 8 → 8 ≤ k + i → b.testBit i = false) :
    (x >>> k) &&& m = fromLanes (fun c => lane c x / 2 ^ k &&& b) := by
  apply word_ext_bytes
  · exact lt_of_le_of_lt Nat.and_le_right hmlt
  · intro c hc
    exact lt_of_le_of_lt Nat.and_le_right hb
  · intro c hc i hi
    rw [Nat.testBit_and, Nat.testBit_shiftRight, testBit_byte m c i hc hi, hm c hc,
      Nat.testBit_and]
    have hdiv : lane c x / 2 ^ k = lane c x >>> k := (Nat.shiftRight_eq_div_pow _ _).symm
    rw [hdiv, Nat.testBit_shiftRight]
    rcases lt_or_ge (k + i) 8 with h8 | h8
    · rw [lane_testBit c x (k + i) hc, decide_eq_true h8, Bool.true_and,
        show k + (8 * c + i) = 8 * c + (k + i) by omega]
    · rw [hbk i hi h8, Bool.and_false, Bool.and_false]

theorem byte_s1_le : ∀ a, a < 256 → a / 2 ^ 1 &&& 85 ≤ a := by decide

theorem byte_s2_eq : ∀ a, a < 256 →
    ((a - (a / 2 ^ 1 &&& 85)) &&& 51) + ((a - (a / 2 ^ 1 &&& 85)) / 2 ^ 2 &&& 51) =
      bytePop (a % 16) + 16 * bytePop (a / 16) := by decide

theorem byte_lo16 : ∀ a, a < 16 → bytePop a ≤ 4 := by decide

theorem byte_and15 : ∀ a, a < 256 → a &&& 15 = a % 16 := by decide

theorem byte_split16 : ∀ a, a < 256 → bytePop a = bytePop (a % 16) + bytePop (a / 16) := by
  decide

end GraphAligner

namespace GraphAligner

theorem chunkPopcounts_lanes (x : Nat) (hx : x < wordMod) :
    chunkPopcounts x = fromLanes (fun c => bytePop (lane c x)) := by
  have hwm : (18446744073709551616 : Nat) = wordMod := rfl
  have hxN : x < 18446744073709551616 := by rw [hwm]; exact hx
  have hcp : chunkPopcounts x =
      wadd
        (wadd (wsub x (x >>> 1 &&& 0x5555555555555555) &&& 0x3333333333333333)
          (wsub x (x >>> 1 &&& 0x5555555555555555) >>> 2 &&& 0x3333333333333333))
        (wadd (wsub x (x >>> 1 &&& 0x5555555555555555) &&& 0x3333333333333333)
          (wsub x (x >>> 1 &&& 0x5555555555555555) >>> 2 &&& 0x3333333333333333) >>> 4)
        &&& 0x0f0f0f0f0f0f0f0f := rfl
  rw [hcp]
  have hA : (x >>> 1) &&& 0x5555555555555555 =
      fromLanes (fun c => lane c x / 2 ^ 1 &&& 85) :=
    shr_mask_lanes 1 _ 85 x (by norm_num) (by norm_num [wordMod]) lane_c55 (by decide)
  set A := (x >>> 1) &&& 0x5555555555555555 with hAdef
  have hAlt : A < 18446744073709551616 := by
    rw [hA]
    exact fromLanes_lt _ (fun c hc => lt_of_le_of_lt Nat.and_le_right (by norm_num))
  have hAlane : ∀ c, c < 8 → lane c A = lane c x / 2 ^ 1 &&& 85 := by
    intro c hc
    rw [hA]
    exact lane_fromLanes _ (fun c2 hc2 => lt_of_le_of_lt Nat.and_le_right (by norm_num)) c hc
  have hAle : ∀ c, c < 8 → lane c A ≤ lane c x := by
    intro c hc
    rw [hAlane c hc]
    exact byte_s1_le _ (lane_lt2 c x)
  have hsub := sub_lanes hxN hAlt hAle
  set x1 := wsub x A with hx1def
  have hx1v : x1 = x - A := wsub_eq_sub hsub.2 hx
  have hx1lt : x1 < 18446744073709551616 := by
    rw [hx1v]
    omega
  have hx1lane : ∀ c, c < 8 → lane c x1 = lane c x - (lane c x / 2 ^ 1 &&& 85) := by
    intro c hc
    rw [hx1v, hsub.1, lane_fromLanes _ (fun c2 hc2 => by
      have := lane_lt2 c2 x
      omega) c hc, hAlane c hc]
  have hB2e : (x1 >>> 2) &&& 0x3333333333333333 =
      fromLanes (fun c => lane c x1 / 2 ^ 2 &&& 51) :=
    shr_mask_lanes 2 _ 51 x1 (by norm_num) (by norm_num [wordMod]) lane_c33 (by decide)
  set B1 := x1 &&& 0x3333333333333333 with hB1def
  set B2 := (x1 >>> 2) &&& 0x3333333333333333 with hB2def
  have hB1lt : B1 < 18446744073709551616 := lt_of_le_of_lt Nat.and_le_right (by norm_num)
  have hB2lt : B2 < 18446744073709551616 := lt_of_le_of_lt Nat.and_le_right (by norm_num)
  have hB1lane : ∀ c, c < 8 → lane c B1 = lane c x1 &&& 51 := by
    intro c hc
    rw [hB1def, lane_land c _ _ hc, lane_c33 c hc]
  have hB2lane : ∀ c, c < 8 → lane c B2 = lane c x1 / 2 ^ 2 &&& 51 := by
    intro c hc
    rw [hB2e]
    exact lane_fromLanes _ (fun c2 hc2 => lt_of_le_of_lt Nat.and_le_right (by norm_num)) c hc
  have hsums : ∀ c, c < 8 → lane c B1 + lane c B2 < 256 := by
    intro c hc
    have h1 : lane c B1 ≤ 51 := by rw [hB1lane c hc]; exact Nat.and_le_right
    have h2 : lane c B2 ≤ 51 := by rw [hB2lane c hc]; exact Nat.and_le_right
    omega
  have haddv : B1 + B2 = fromLanes (fun c => lane c B1 + lane c B2) := add_lanes hB1lt hB2lt
  have hx2sum : B1 + B2 < 18446744073709551616 := by
    rw [haddv]
    exact fromLanes_lt _ hsums
  set x2 := wadd B1 B2 with hx2def
  have hx2v : x2 = B1 + B2 := wadd_eq_add (hwm ▸ hx2sum)
  have hx2lt : x2 < 18446744073709551616 := by rw [hx2v]; exact hx2sum
  have hx2lane : ∀ c, c < 8 →
      lane c x2 = bytePop (lane c x % 16) + 16 * bytePop (lane c x / 16) := by
    intro c hc
    rw [hx2v, haddv, lane_fromLanes _ hsums c hc, hB1lane c hc, hB2lane c hc,
      hx1lane c hc]
    exact byte_s2_eq (lane c x) (lane_lt2 c x)
  have hlane8 : lane 8 x = 0 := by
    unfold lane
    rw [show (256 : Nat) ^ 8 = 18446744073709551616 by norm_num,
      Nat.div_eq_of_lt hxN]
  have hbp8 : bytePop (lane 8 x % 16) = 0 := by
    rw [hlane8]
    decide
  have hlo_le : ∀ c, bytePop (lane c x % 16) ≤ 4 := fun c =>
    byte_lo16 _ (Nat.mod_lt _ (by norm_num))
  have hhi_le : ∀ c, c < 8 → bytePop (lane c x / 16) ≤ 4 := fun c hc => byte_lo16 _ (by
    have := lane_lt2 c x
    omega)
  have hx2F : x2 = fromLanes (fun c => bytePop (lane c x % 16) + 16 * bytePop (lane c x / 16)) := by
    calc x2 = fromLanes (fun c => lane c x2) := (fromLanes_lanes hx2lt).symm
    _ = _ := fromLanes_congr _ _ hx2lane
  have hkey : x2 = fromLanes (fun c => bytePop (lane c x / 16) +
      16 * bytePop (lane (c + 1) x % 16)) * 16 + bytePop (lane 0 x % 16) := by
    rw [hx2F]
    unfold fromLanes
    norm_num
    omega
  have hdiv16 : x2 / 16 = fromLanes (fun c => bytePop (lane c x / 16) +
      16 * bytePop (lane (c + 1) x % 16)) := by
    have h0 := hlo_le 0
    omega
  have hqlane_lt : ∀ c, c < 8 → bytePop (lane c x / 16) +
      16 * bytePop (lane (c + 1) x % 16) < 256 := by
    intro c hc
    have h1 := hhi_le c hc
    have h2 := hlo_le (c + 1)
    omega
  have hq_lane : ∀ c, c < 8 → lane c (x2 / 16) =
      bytePop (lane c x / 16) + 16 * bytePop (lane (c + 1) x % 16) := by
    intro c hc
    rw [hdiv16]
    exact lane_fromLanes _ hqlane_lt c hc
  have hq_lt : x2 / 16 < 18446744073709551616 :=
    lt_of_le_of_lt (Nat.div_le_self _ _) hx2lt
  have haddv2 : x2 + x2 / 16 = fromLanes (fun c => lane c x2 + lane c (x2 / 16)) :=
    add_lanes hx2lt hq_lt
  have hsum_lane_lt : ∀ c, c < 8 → lane c x2 + lane c (x2 / 16) < 256 := by
    intro c hc
    rw [hx2lane c hc, hq_lane c hc]
    have h1 := hlo_le c
    have h2 := hhi_le c hc
    have h3 := hlo_le (c + 1)
    omega
  have hsum_lt : x2 + x2 / 16 < 18446744073709551616 := by
    rw [haddv2]
    exact fromLanes_lt _ hsum_lane_lt
  have hshr : x2 >>> 4 = x2 / 16 := by
    rw [Nat.shiftRight_eq_div_pow]
  set x3 := wadd x2 (x2 >>> 4) with hx3def
  have hx3v : x3 = x2 + x2 / 16 := by
    rw [hx3def, hshr]
    exact wadd_eq_add (hwm ▸ hsum_lt)
  have hx3lt : x3 < 18446744073709551616 := by rw [hx3v]; exact hsum_lt
  have hfin_lt : x3 &&& 0x0f0f0f0f0f0f0f0f < 18446744073709551616 :=
    lt_of_le_of_lt Nat.and_le_right (by norm_num)
  have hfinal : ∀ c, c < 8 → lane c (x3 &&& 0x0f0f0f0f0f0f0f0f) = bytePop (lane c x) := by
    intro c hc
    rw [lane_land c _ _ hc, lane_c0f c hc, byte_and15 _ (lane_lt2 c x3),
      hx3v, haddv2, lane_fromLanes _ hsum_lane_lt c hc, hx2lane c hc, hq_lane c hc,
      byte_split16 (lane c x) (lane_lt2 c x)]
    have h1 := hlo_le c
    have h2 := hhi_le c hc
    omega
  calc x3 &&& 0x0f0f0f0f0f0f0f0f = fromLanes (fun c => lane c (x3 &&& 0x0f0f0f0f0f0f0f0f)) :=
    (fromLanes_lanes hfin_lt).symm
  _ = fromLanes (fun c => bytePop (lane c x)) := fromLanes_congr _ _ hfinal

end GraphAligner

namespace GraphAligner

theorem mul_psmc (g : Nat → Nat)
    (hb : g 0 + g 1 + g 2 + g 3 + g 4 + g 5 + g 6 + g 7 < 256) :
    wmul (fromLanes g) 0x0101010101010101 =
      fromLanes (fun c => ∑ j ∈ Finset.range (c + 1), g j) := by
  have key : fromLanes g * 0x0101010101010101 =
      fromLanes (fun c => ∑ j ∈ Finset.range (c + 1), g j) +
        18446744073709551616 * (g 1 + g 2 * 257 + g 3 * 65793 + g 4 * 16843009 +
          g 5 * 4311810305 + g 6 * 1103823438081 + g 7 * 282578800148737) := by
    unfold fromLanes
    norm_num [Finset.sum_range_succ]
    ring
  have hps : ∀ c, c < 8 → (∑ j ∈ Finset.range (c + 1), g j) < 256 := by
    intro c hc
    interval_cases c <;> norm_num [Finset.sum_range_succ] <;> omega
  unfold wmul
  rw [key, show wordMod = 18446744073709551616 from rfl, Nat.add_mul_mod_self_left,
    Nat.mod_eq_of_lt (fromLanes_lt _ hps)]

theorem popcount_eq_cnt (x : Nat) (hx : x < wordMod) : popcount x = cnt x 64 := by
  have hpc : popcount x = (wmul (chunkPopcounts x) 0x0101010101010101) >>> 56 := rfl
  have hble : ∀ c : Nat, bytePop (lane c x) ≤ 8 := fun c => bytePop_le _
  rw [hpc, chunkPopcounts_lanes x hx, mul_psmc _ (by
    have h0 := hble 0
    have h1 := hble 1
    have h2 := hble 2
    have h3 := hble 3
    have h4 := hble 4
    have h5 := hble 5
    have h6 := hble 6
    have h7 := hble 7
    omega), cnt_word x]
  unfold fromLanes
  norm_num [Finset.sum_range_succ]
  rw [Nat.shiftRight_eq_div_pow]
  have h0 := hble 0
  have h1 := hble 1
  have h2 := hble 2
  have h3 := hble 3
  have h4 := hble 4
  have h5 := hble 5
  have h6 := hble 6
  have h7 := hble 7
  norm_num
  omega

end GraphAligner

namespace GraphAligner

theorem bytePrefixSums_lanes (g : Nat → Nat) (a : Nat)
    (hb : a + g 0 + g 1 + g 2 + g 3 + g 4 + g 5 + g 6 < 256) :
    bytePrefixSums (fromLanes g) (a : Int) =
      fromLanes (fun c => a + ∑ j ∈ Finset.range c, g j) := by
  have hg : ∀ c, c < 8 → (if c = 0 then a else g (c - 1)) < 256 := by
    intro c hc
    interval_cases c <;> simp <;> omega
  have hg0 : ∀ c, c < 8 → (if c = 0 then 0 else g (c - 1)) < 256 := by
    intro c hc
    interval_cases c <;> simp <;> omega
  have hkey : fromLanes g * 256 =
      fromLanes (fun c => if c = 0 then 0 else g (c - 1)) + 18446744073709551616 * g 7 := by
    unfold fromLanes
    norm_num
    ring
  have hFlt := fromLanes_lt _ hg0
  have hFlt2 := fromLanes_lt _ hg
  have hadd : fromLanes (fun c => if c = 0 then 0 else g (c - 1)) + a =
      fromLanes (fun c => if c = 0 then a else g (c - 1)) := by
    unfold fromLanes
    norm_num
    omega
  have hstep : wadd (wshl (fromLanes g) chunkBits) (Int.toNat (a : Int)) =
      fromLanes (fun c => if c = 0 then a else g (c - 1)) := by
    unfold wshl wadd chunkBits wordMod
    rw [Nat.shiftLeft_eq]
    norm_num
    rw [hkey, show fromLanes (fun c => if c = 0 then 0 else g (c - 1)) +
        18446744073709551616 * g 7 + a =
      fromLanes (fun c => if c = 0 then 0 else g (c - 1)) + a +
        18446744073709551616 * g 7 by ring, hadd, Nat.add_mul_mod_self_left,
      Nat.mod_eq_of_lt hFlt2]
  have hmul := mul_psmc (fun c => if c = 0 then a else g (c - 1)) (by norm_num; omega)
  have hfin : ∀ c, c < 8 →
      (∑ j ∈ Finset.range (c + 1), (if j = 0 then a else g (j - 1))) =
        a + ∑ j ∈ Finset.range c, g j := by
    intro c hc
    interval_cases c <;> norm_num [Finset.sum_range_succ] <;> omega
  calc bytePrefixSums (fromLanes g) (a : Int)
      = wmul (wadd (wshl (fromLanes g) chunkBits) (Int.toNat (a : Int)))
          0x0101010101010101 := rfl
  _ = wmul (fromLanes (fun c => if c = 0 then a else g (c - 1))) 0x0101010101010101 := by
      rw [hstep]
  _ = fromLanes (fun c => a + ∑ j ∈ Finset.range c, g j) := by
      rw [hmul]
      exact fromLanes_congr _ _ (fun c hc => by simpa using hfin c hc)

theorem byte_twoC_sub (p n : Nat) (hp : p ≤ 127) (hn : n ≤ 127) :
    twoC ((p : Int) - n) = (256 + p - n) % 256 := by
  unfold twoC
  omega

theorem byteVPVNSum_lanes (pP pN : Nat) (hP : pP < wordMod) (hN : pN < wordMod)
    (hP8 : ∀ c, c < 8 → lane c pP ≤ 127)
    (hN8 : ∀ c, c < 8 → lane c pN ≤ 127) :
    byteVPVNSum pP pN = fromLanes (fun c => twoC ((lane c pP : Int) - lane c pN)) := by
  have hwm : (18446744073709551616 : Nat) = wordMod := rfl
  have hr1sum : ∀ c, c < 8 → lane c signMask + lane c pP < 256 := by
    intro c hc
    rw [lane_signMask c hc]
    have := hP8 c hc
    omega
  have haddv : signMask + pP = fromLanes (fun c => lane c signMask + lane c pP) :=
    add_lanes (hwm ▸ signMask_lt) (hwm ▸ hP)
  have haddlt : signMask + pP < 18446744073709551616 := by
    rw [haddv]
    exact fromLanes_lt _ hr1sum
  set r1 := wadd signMask pP with hr1def
  have hr1v : r1 = signMask + pP := wadd_eq_add (hwm ▸ haddlt)
  have hr1lt : r1 < wordMod := by
    rw [hr1v]
    exact hwm ▸ haddlt
  have hr1lane : ∀ c, c < 8 → lane c r1 = 128 + lane c pP := by
    intro c hc
    rw [hr1v, haddv, lane_fromLanes _ hr1sum c hc, lane_signMask c hc]
  have hge : ∀ c, c < 8 → lane c pN ≤ lane c r1 := by
    intro c hc
    rw [hr1lane c hc]
    have := hN8 c hc
    omega
  have hsub := sub_lanes (hwm ▸ hr1lt) (hwm ▸ hN) hge
  set r2 := wsub r1 pN with hr2def
  have hr2v : r2 = r1 - pN := wsub_eq_sub hsub.2 hr1lt
  have hr2lt : r2 < wordMod := by
    rw [hr2v]
    exact lt_of_le_of_lt (Nat.sub_le _ _) hr1lt
  have hr2lane : ∀ c, c < 8 → lane c r2 = 128 + lane c pP - lane c pN := by
    intro c hc
    rw [hr2v, hsub.1, lane_fromLanes _ (fun c2 hc2 => by
      have := lane_lt2 c2 r1
      omega) c hc, hr1lane c hc]
  have hxlt : r2 ^^^ signMask < wordMod := xor_lt hr2lt signMask_lt
  have hxlane : ∀ c, c < 8 →
      lane c (r2 ^^^ signMask) = twoC ((lane c pP : Int) - lane c pN) := by
    intro c hc
    rw [lane_xor c _ _ hc, lane_signMask c hc, hr2lane c hc]
    have h1 := byte_xor_S (128 + lane c pP - lane c pN) (by
      have := hP8 c hc
      have := hN8 c hc
      omega) 1 (by norm_num)
    norm_num at h1
    rw [h1, byte_twoC_sub _ _ (hP8 c hc) (hN8 c hc)]
    have := hP8 c hc
    have := hN8 c hc
    omega
  calc byteVPVNSum pP pN = r2 ^^^ signMask := rfl
  _ = fromLanes (fun c => lane c (r2 ^^^ signMask)) := (fromLanes_lanes (hwm ▸ hxlt)).symm
  _ = fromLanes (fun c => twoC ((lane c pP : Int) - lane c pN)) :=
      fromLanes_congr _ _ hxlane

end GraphAligner


namespace GraphAligner

theorem byte_ded : ∀ a, a < 256 →
    (255 - 127 * (a / 128)) &&& a &&& 127 = if a < 128 then a else 0 := by decide

theorem byte_add_sm : ∀ a, a < 256 →
    ((127 * (a / 128)) &&& (255 - a)) + ((127 * (a / 128)) &&& 1) =
      if a < 128 then 0 else 256 - a := by decide

theorem differenceInitial_lanes (L R : Nat) (vL vR : Nat → Int)
    (hL : L < wordMod) (hR : R < wordMod)
    (hLl : ∀ c, c < 8 → lane c L = twoC (vL c))
    (hRl : ∀ c, c < 8 → lane c R = twoC (vR c))
    (hvL : ∀ c, c < 8 → -128 ≤ vL c ∧ vL c < 128)
    (hvR : ∀ c, c < 8 → -128 ≤ vR c ∧ vR c < 128)
    (hrange : ∀ c, c < 8 → -128 ≤ vL c - vR c ∧ vL c - vR c < 128) :
    differenceInitial L R = fromLanes (fun c => twoC (vL c - vR c)) := by
  have hwm : (18446744073709551616 : Nat) = wordMod := rfl
  have hRS : R &&& signMask = fromLanes (fun c => 128 * (lane c R / 128)) := by
    calc R &&& signMask = fromLanes (fun c => lane c (R &&& signMask)) :=
      (fromLanes_lanes (hwm ▸ land_lt_left hR)).symm
    _ = _ := fromLanes_congr _ _ (fun c hc => by
      rw [lane_land c _ _ hc, lane_signMask c hc, byte_and_128 _ (lane_lt2 c R)])
  have hmul128 : fromLanes (fun c => 128 * (lane c R / 128)) =
      128 * fromLanes (fun c => lane c R / 128) := by
    unfold fromLanes
    ring
  have hshr7 : (R &&& signMask) >>> 7 = fromLanes (fun c => lane c R / 128) := by
    rw [hRS, hmul128, Nat.shiftRight_eq_div_pow]
    norm_num
  have hsgn : ∀ c : Nat, lane c R / 128 < 2 := by
    intro c
    have := lane_lt2 c R
    omega
  have hmul127 : fromLanes (fun c => lane c R / 128) * 127 =
      fromLanes (fun c => 127 * (lane c R / 128)) := by
    unfold fromLanes
    ring
  have hsm127lt : fromLanes (fun c => 127 * (lane c R / 128)) < 18446744073709551616 :=
    fromLanes_lt _ (fun c hc => by
      have := hsgn c
      omega)
  set smear := wmul ((R &&& signMask) >>> (chunkBits - 1)) ((1 <<< (chunkBits - 1)) - 1)
    with hsmear_def
  have hsmear : smear = fromLanes (fun c => 127 * (lane c R / 128)) := by
    rw [hsmear_def, show ((1 : Nat) <<< (chunkBits - 1)) - 1 = 127 from rfl,
      show chunkBits - 1 = 7 from rfl]
    unfold wmul
    rw [hshr7, hmul127, Nat.mod_eq_of_lt (hwm ▸ hsm127lt)]
  have hsmear_lt : smear < wordMod := by
    rw [hsmear]
    exact hwm ▸ hsm127lt
  have hsmear_lane : ∀ c, c < 8 → lane c smear = 127 * (lane c R / 128) := by
    intro c hc
    rw [hsmear]
    exact lane_fromLanes _ (fun c2 hc2 => by
      have := hsgn c2
      omega) c hc
  set deds := (wnot smear) &&& R &&& wnot signMask with hdeds_def
  have hdeds_lt : deds < wordMod := by
    rw [hdeds_def]
    exact land_lt_left (land_lt_left (wnot_lt hsmear_lt))
  have hdeds_lane : ∀ c, c < 8 → lane c deds = (vR c).toNat := by
    intro c hc
    rw [hdeds_def, lane_land c _ _ hc, lane_land c _ _ hc, lane_wnot_signMask c hc,
      lane_wnot c _ hc hsmear_lt, hsmear_lane c hc,
      byte_ded (lane c R) (lane_lt2 c R), hRl c hc]
    have hb := (hvR c hc).1
    have hb2 := (hvR c hc).2
    rcases le_or_lt 0 (vR c) with hv | hv
    · have h1 : twoC (vR c) < 128 := by
        unfold twoC
        omega
      rw [if_pos h1]
      unfold twoC
      omega
    · have h1 : ¬ twoC (vR c) < 128 := by
        unfold twoC
        omega
      rw [if_neg h1]
      omega
  set adds := wadd (smear &&& wnot R) (smear &&& lsbMask) with hadds_def
  have hA1_lane : ∀ c, c < 8 → lane c (smear &&& wnot R) =
      (127 * (lane c R / 128)) &&& (255 - lane c R) := by
    intro c hc
    rw [lane_land c _ _ hc, lane_wnot c _ hc hR, hsmear_lane c hc]
  have hA2_lane : ∀ c, c < 8 → lane c (smear &&& lsbMask) =
      (127 * (lane c R / 128)) &&& 1 := by
    intro c hc
    rw [lane_land c _ _ hc, lane_lsbMask c hc, hsmear_lane c hc]
  have hA1_lt : smear &&& wnot R < 18446744073709551616 := hwm ▸ land_lt_left hsmear_lt
  have hA2_lt : smear &&& lsbMask < 18446744073709551616 := hwm ▸ land_lt_left hsmear_lt
  have hAsum_lt : ∀ c, c < 8 →
      lane c (smear &&& wnot R) + lane c (smear &&& lsbMask) < 256 := by
    intro c hc
    have h1 : lane c (smear &&& wnot R) ≤ 127 := by
      rw [hA1_lane c hc]
      exact le_trans Nat.and_le_left (by
        have := hsgn c
        omega)
    have h2 : lane c (smear &&& lsbMask) ≤ 1 := by
      rw [hA2_lane c hc]
      exact Nat.and_le_right
    omega
  have haddv : (smear &&& wnot R) + (smear &&& lsbMask) =
      fromLanes (fun c => lane c (smear &&& wnot R) + lane c (smear &&& lsbMask)) :=
    add_lanes hA1_lt hA2_lt
  have haddlt : (smear &&& wnot R) + (smear &&& lsbMask) < 18446744073709551616 := by
    rw [haddv]
    exact fromLanes_lt _ hAsum_lt
  have hadds_v : adds = (smear &&& wnot R) + (smear &&& lsbMask) := by
    rw [hadds_def]
    exact wadd_eq_add (hwm ▸ haddlt)
  have hadds_lt : adds < wordMod := by
    rw [hadds_v]
    exact hwm ▸ haddlt
  have hadds_lane : ∀ c, c < 8 → lane c adds = (-(vR c)).toNat := by
    intro c hc
    rw [hadds_v, haddv, lane_fromLanes _ hAsum_lt c hc, hA1_lane c hc, hA2_lane c hc,
      byte_add_sm (lane c R) (lane_lt2 c R), hRl c hc]
    have hb := (hvR c hc).1
    have hb2 := (hvR c hc).2
    rcases le_or_lt 0 (vR c) with hv | hv
    · have h1 : twoC (vR c) < 128 := by
        unfold twoC
        omega
      rw [if_pos h1]
      omega
    · have h1 : ¬ twoC (vR c) < 128 := by
        unfold twoC
        omega
      rw [if_neg h1]
      unfold twoC
      omega
  have hu8 : ∀ c, c < 8 → lane c adds ≤ 128 := by
    intro c hc
    rw [hadds_lane c hc]
    have := (hvR c hc).1
    omega
  have hv8 : ∀ c, c < 8 → lane c deds ≤ 127 := by
    intro c hc
    rw [hdeds_lane c hc]
    have := (hvR c hc).2
    omega
  have h2 : ∀ c, c < 8 → -128 ≤ vL c + lane c adds - lane c deds ∧
      vL c + lane c adds - lane c deds < 128 := by
    intro c hc
    rw [hadds_lane c hc, hdeds_lane c hc]
    have ha := hrange c hc
    have hb := (hvR c hc).1
    have hc2 := (hvR c hc).2
    omega
  have hg := gadget_word L adds deds vL hL hadds_lt hdeds_lt hLl hvL hu8 hv8 h2
  have hdi : differenceInitial L R =
      ((wsub (((wadd (L &&& wnot signMask) adds) ^^^ (L &&& signMask)) ||| signMask) deds)
          &&& wnot signMask) |||
        ((((wadd (L &&& wnot signMask) adds) ^^^ (L &&& signMask)) &&& signMask) ^^^
          (signMask &&& wnot (wsub (((wadd (L &&& wnot signMask) adds) ^^^ (L &&& signMask))
            ||| signMask) deds))) := rfl
  rw [hdi, hg]
  exact fromLanes_congr _ _ (fun c hc => by
    rw [hadds_lane c hc, hdeds_lane c hc]
    have hb := (hvR c hc).1
    have hb2 := (hvR c hc).2
    congr 1
    omega)

end GraphAligner

namespace GraphAligner

theorem wadd_wadd (a b c : Nat) : wadd (wadd a b) c = wadd a (b + c) := by
  unfold wadd wordMod
  omega

theorem wsub_wsub (a b c : Nat) (h : b + c ≤ wordMod) :
    wsub (wsub a b) c = wsub a (b + c) := by
  unfold wsub wordMod
  unfold wordMod at h
  omega

theorem twoC_lt (v : Int) : twoC v < 256 := by
  unfold twoC
  omega

theorem twoC_sign (v : Int) (h1 : -128 ≤ v) (h2 : v < 128) :
    twoC v / 128 = if v < 0 then 1 else 0 := by
  rcases lt_or_ge v 0 with h | h
  · rw [if_pos h]
    unfold twoC
    omega
  · rw [if_neg (by omega)]
    unfold twoC
    omega

theorem byte_nez_pos : ∀ a, a < 256 →
    ((((a ||| 128) - 1) &&& 128) &&& (255 - 128 * (a / 128))) =
      if 128 ≤ a ∨ a = 0 then 0 else 128 := by decide

theorem sign_shift (t : Nat) (ht : t < 8) (b : Nat → Nat) :
    fromLanes (fun c => 128 * b c) >>> (7 - t) = fromLanes (fun c => 2 ^ t * b c) := by
  have hpow : (2 : Nat) ^ (7 - t) * 2 ^ t = 128 := by
    rw [← pow_add, show 7 - t + t = 7 by omega]
    norm_num
  have h1 : fromLanes (fun c => 128 * b c) =
      2 ^ (7 - t) * fromLanes (fun c => 2 ^ t * b c) := by
    calc fromLanes (fun c => 128 * b c) =
        fromLanes (fun c => 2 ^ (7 - t) * (2 ^ t * b c)) :=
      fromLanes_congr _ _ (fun c hc => by rw [← mul_assoc, hpow])
    _ = 2 ^ (7 - t) * fromLanes (fun c => 2 ^ t * b c) := by
      unfold fromLanes
      ring
  rw [Nat.shiftRight_eq_div_pow, h1,
    Nat.mul_div_cancel_left _ (pow_pos (by norm_num) (7 - t))]

end GraphAligner

namespace GraphAligner

theorem differenceMasksStep_spec (t : Nat) (ht : t < 8)
    (D lv ln rv rn rl rr : Nat) (d e : Nat → Int)
    (hD : D = fromLanes (fun c => twoC (d c)))
    (hlv : lv < wordMod) (hln : ln < wordMod) (hrv : rv < wordMod) (hrn : rn < wordMod)
    (hd : ∀ c, c < 8 → -128 ≤ d c ∧ d c < 128)
    (he : ∀ c, c < 8 → e c = d c + ((lane c lv % 2 + lane c rn % 2 : Nat) : Int) -
      ((lane c ln % 2 + lane c rv % 2 : Nat) : Int))
    (he2 : ∀ c, c < 8 → -128 ≤ e c ∧ e c < 128) :
    differenceMasksStep t ⟨D, lv, ln, rv, rn, rl, rr⟩ =
      ⟨fromLanes (fun c => twoC (e c)), lv >>> 1, ln >>> 1, rv >>> 1, rn >>> 1,
        rl ||| fromLanes (fun c => 2 ^ t * (if e c < 0 then 1 else 0)),
        rr ||| fromLanes (fun c => 2 ^ t * (if 0 < e c then 1 else 0))⟩ := by
  have hwm : (18446744073709551616 : Nat) = wordMod := rfl
  have hDlt : D < wordMod := by
    rw [hD]
    exact hwm ▸ fromLanes_lt _ (fun c hc => twoC_lt _)
  have hDlane : ∀ c, c < 8 → lane c D = twoC (d c) := by
    intro c hc
    rw [hD]
    exact lane_fromLanes _ (fun c2 hc2 => twoC_lt _) c hc
  have hmask : ∀ y : Nat, ∀ c, c < 8 → lane c (y &&& lsbMask) = lane c y % 2 := by
    intro y c hc
    rw [lane_land c _ _ hc, lane_lsbMask c hc, Nat.and_one_is_mod]
  have hmlt : ∀ y : Nat, y &&& lsbMask < 18446744073709551616 :=
    fun y => lt_of_le_of_lt Nat.and_le_right (by norm_num [lsbMask])
  have huv : (lv &&& lsbMask) + (rn &&& lsbMask) =
      fromLanes (fun c => lane c (lv &&& lsbMask) + lane c (rn &&& lsbMask)) :=
    add_lanes (hmlt lv) (hmlt rn)
  have husum : ∀ c, c < 8 → lane c (lv &&& lsbMask) + lane c (rn &&& lsbMask) < 256 := by
    intro c hc
    rw [hmask lv c hc, hmask rn c hc]
    omega
  have hult : (lv &&& lsbMask) + (rn &&& lsbMask) < wordMod := by
    rw [huv]
    exact hwm ▸ fromLanes_lt _ husum
  have hulane : ∀ c, c < 8 → lane c ((lv &&& lsbMask) + (rn &&& lsbMask)) =
      lane c lv % 2 + lane c rn % 2 := by
    intro c hc
    rw [huv, lane_fromLanes _ husum c hc, hmask lv c hc, hmask rn c hc]
  have hvv : (ln &&& lsbMask) + (rv &&& lsbMask) =
      fromLanes (fun c => lane c (ln &&& lsbMask) + lane c (rv &&& lsbMask)) :=
    add_lanes (hmlt ln) (hmlt rv)
  have hvsum : ∀ c, c < 8 → lane c (ln &&& lsbMask) + lane c (rv &&& lsbMask) < 256 := by
    intro c hc
    rw [hmask ln c hc, hmask rv c hc]
    omega
  have hvlt : (ln &&& lsbMask) + (rv &&& lsbMask) < wordMod := by
    rw [hvv]
    exact hwm ▸ fromLanes_lt _ hvsum
  have hvlane : ∀ c, c < 8 → lane c ((ln &&& lsbMask) + (rv &&& lsbMask)) =
      lane c ln % 2 + lane c rv % 2 := by
    intro c hc
    rw [hvv, lane_fromLanes _ hvsum c hc, hmask ln c hc, hmask rv c hc]
  have hu8 : ∀ c, c < 8 → lane c ((lv &&& lsbMask) + (rn &&& lsbMask)) ≤ 128 := by
    intro c hc
    rw [hulane c hc]
    omega
  have hv8 : ∀ c, c < 8 → lane c ((ln &&& lsbMask) + (rv &&& lsbMask)) ≤ 127 := by
    intro c hc
    rw [hvlane c hc]
    omega
  have h2g : ∀ c, c < 8 →
      -128 ≤ d c + lane c ((lv &&& lsbMask) + (rn &&& lsbMask)) -
        lane c ((ln &&& lsbMask) + (rv &&& lsbMask)) ∧
      d c + lane c ((lv &&& lsbMask) + (rn &&& lsbMask)) -
        lane c ((ln &&& lsbMask) + (rv &&& lsbMask)) < 128 := by
    intro c hc
    rw [hulane c hc, hvlane c hc]
    have h3 := he c hc
    have h4 := he2 c hc
    omega
  have hg := gadget_word D ((lv &&& lsbMask) + (rn &&& lsbMask))
    ((ln &&& lsbMask) + (rv &&& lsbMask)) d hDlt hult hvlt hDlane hd hu8 hv8 h2g
  have hF := hg.trans (fromLanes_congr
    (fun c => twoC (d c + (lane c ((lv &&& lsbMask) + (rn &&& lsbMask)) : Int) -
      (lane c ((ln &&& lsbMask) + (rv &&& lsbMask)) : Int)))
    (fun c => twoC (e c)) (fun c hc => by
      show twoC (d c + (lane c ((lv &&& lsbMask) + (rn &&& lsbMask)) : Int) -
        (lane c ((ln &&& lsbMask) + (rv &&& lsbMask)) : Int)) = twoC (e c)
      rw [hulane c hc, hvlane c hc]
      congr 1
      have h3 := he c hc
      omega))
  have hble : (ln &&& lsbMask) + (rv &&& lsbMask) ≤ wordMod := le_of_lt hvlt
  have hGlt : fromLanes (fun c => twoC (e c)) < wordMod := hwm ▸ fromLanes_lt _ (fun c hc => twoC_lt _)
  have hGlane : ∀ c, c < 8 → lane c (fromLanes (fun c => twoC (e c))) = twoC (e c) :=
    fun c hc => lane_fromLanes _ (fun c2 hc2 => twoC_lt _) c hc
  have hneg : fromLanes (fun c => twoC (e c)) &&& signMask = fromLanes (fun c => 128 * (if e c < 0 then 1 else 0)) := by
    calc fromLanes (fun c => twoC (e c)) &&& signMask = fromLanes (fun c => lane c (fromLanes (fun c => twoC (e c)) &&& signMask)) :=
      (fromLanes_lanes (hwm ▸ land_lt_left hGlt)).symm
    _ = fromLanes (fun c => 128 * (if e c < 0 then 1 else 0)) := fromLanes_congr _ _ (fun c hc => by
      rw [lane_land c _ _ hc, lane_signMask c hc, hGlane c hc,
        byte_and_128 _ (twoC_lt _), twoC_sign _ (he2 c hc).1 (he2 c hc).2])
  have hnegllt : fromLanes (fun c => 128 * (if e c < 0 then 1 else 0)) < wordMod := by
    rw [← hneg]
    exact land_lt_left hGlt
  have hneglane : ∀ c, c < 8 → lane c (fromLanes (fun c => 128 * (if e c < 0 then 1 else 0))) = 128 * (if e c < 0 then 1 else 0) :=
    fun c hc => lane_fromLanes _ (fun c2 hc2 => by split_ifs <;> omega) c hc
  have hH1lt : fromLanes (fun c => twoC (e c)) ||| signMask < wordMod := lor_lt hGlt signMask_lt
  have hH1lane : ∀ c, c < 8 → lane c (fromLanes (fun c => twoC (e c)) ||| signMask) = twoC (e c) ||| 128 := by
    intro c hc
    rw [lane_lor c _ _ hc, lane_signMask c hc, hGlane c hc]
  have hge : ∀ c, c < 8 → lane c lsbMask ≤ lane c (fromLanes (fun c => twoC (e c)) ||| signMask) := by
    intro c hc
    rw [lane_lsbMask c hc, hH1lane c hc, byte_or_128 _ (twoC_lt _)]
    omega
  have hsubp := sub_lanes (hwm ▸ hH1lt) (by norm_num [lsbMask]) hge
  have hwsv : wsub (fromLanes (fun c => twoC (e c)) ||| signMask) lsbMask = (fromLanes (fun c => twoC (e c)) ||| signMask) - lsbMask :=
    wsub_eq_sub hsubp.2 hH1lt
  have hwslt : wsub (fromLanes (fun c => twoC (e c)) ||| signMask) lsbMask < wordMod := by
    rw [hwsv]
    exact lt_of_le_of_lt (Nat.sub_le _ _) hH1lt
  have hwslane : ∀ c, c < 8 → lane c (wsub (fromLanes (fun c => twoC (e c)) ||| signMask) lsbMask) =
      (twoC (e c) ||| 128) - 1 := by
    intro c hc
    rw [hwsv, hsubp.1, lane_fromLanes _ (fun c2 hc2 => by
      have := lane_lt2 c2 (fromLanes (fun c => twoC (e c)) ||| signMask)
      omega) c hc, hH1lane c hc, lane_lsbMask c hc]
  have hpos : ((wsub (fromLanes (fun c => twoC (e c)) ||| signMask) lsbMask) &&& signMask) &&& wnot (fromLanes (fun c => 128 * (if e c < 0 then 1 else 0))) =
      fromLanes (fun c => 128 * (if 0 < e c then 1 else 0)) := by
    have hlt2 : ((wsub (fromLanes (fun c => twoC (e c)) ||| signMask) lsbMask) &&& signMask) &&& wnot (fromLanes (fun c => 128 * (if e c < 0 then 1 else 0))) <
        wordMod := land_lt_left (land_lt_left hwslt)
    calc ((wsub (fromLanes (fun c => twoC (e c)) ||| signMask) lsbMask) &&& signMask) &&& wnot (fromLanes (fun c => 128 * (if e c < 0 then 1 else 0))) =
        fromLanes (fun c => lane c (((wsub (fromLanes (fun c => twoC (e c)) ||| signMask) lsbMask) &&& signMask) &&&
          wnot (fromLanes (fun c => 128 * (if e c < 0 then 1 else 0))))) := (fromLanes_lanes (hwm ▸ hlt2)).symm
    _ = fromLanes (fun c => 128 * (if 0 < e c then 1 else 0)) := fromLanes_congr _ _ (fun c hc => by
      rw [lane_land c _ _ hc, lane_land c _ _ hc, lane_signMask c hc,
        lane_wnot c _ hc hnegllt, hneglane c hc, hwslane c hc,
        ← twoC_sign _ (he2 c hc).1 (he2 c hc).2, byte_nez_pos _ (twoC_lt _)]
      have hb1 := (he2 c hc).1
      have hb2 := (he2 c hc).2
      unfold twoC at *
      split_ifs <;> omega)
  show (⟨(((wsub (wsub (((wadd (wadd (D &&& wnot signMask) (lv &&& lsbMask)) (rn &&& lsbMask)) ^^^ (D &&& signMask)) ||| signMask) (ln &&& lsbMask)) (rv &&& lsbMask)) &&& wnot signMask) ||| ((((wadd (wadd (D &&& wnot signMask) (lv &&& lsbMask)) (rn &&& lsbMask)) ^^^ (D &&& signMask)) &&& signMask) ^^^ (signMask &&& wnot (wsub (wsub (((wadd (wadd (D &&& wnot signMask) (lv &&& lsbMask)) (rn &&& lsbMask)) ^^^ (D &&& signMask)) ||| signMask) (ln &&& lsbMask)) (rv &&& lsbMask))))),
      lv >>> 1, ln >>> 1, rv >>> 1, rn >>> 1,
      rl ||| (((((wsub (wsub (((wadd (wadd (D &&& wnot signMask) (lv &&& lsbMask)) (rn &&& lsbMask)) ^^^ (D &&& signMask)) ||| signMask) (ln &&& lsbMask)) (rv &&& lsbMask)) &&& wnot signMask) ||| ((((wadd (wadd (D &&& wnot signMask) (lv &&& lsbMask)) (rn &&& lsbMask)) ^^^ (D &&& signMask)) &&& signMask) ^^^ (signMask &&& wnot (wsub (wsub (((wadd (wadd (D &&& wnot signMask) (lv &&& lsbMask)) (rn &&& lsbMask)) ^^^ (D &&& signMask)) ||| signMask) (ln &&& lsbMask)) (rv &&& lsbMask))))) &&& signMask) >>> (chunkBits - 1 - t)),
      rr ||| ((((wsub ((((wsub (wsub (((wadd (wadd (D &&& wnot signMask) (lv &&& lsbMask)) (rn &&& lsbMask)) ^^^ (D &&& signMask)) ||| signMask) (ln &&& lsbMask)) (rv &&& lsbMask)) &&& wnot signMask) ||| ((((wadd (wadd (D &&& wnot signMask) (lv &&& lsbMask)) (rn &&& lsbMask)) ^^^ (D &&& signMask)) &&& signMask) ^^^ (signMask &&& wnot (wsub (wsub (((wadd (wadd (D &&& wnot signMask) (lv &&& lsbMask)) (rn &&& lsbMask)) ^^^ (D &&& signMask)) ||| signMask) (ln &&& lsbMask)) (rv &&& lsbMask))))) ||| signMask) lsbMask) &&& signMask) &&& wnot ((((wsub (wsub (((wadd (wadd (D &&& wnot signMask) (lv &&& lsbMask)) (rn &&& lsbMask)) ^^^ (D &&& signMask)) ||| signMask) (ln &&& lsbMask)) (rv &&& lsbMask)) &&& wnot signMask) ||| ((((wadd (wadd (D &&& wnot signMask) (lv &&& lsbMask)) (rn &&& lsbMask)) ^^^ (D &&& signMask)) &&& signMask) ^^^ (signMask &&& wnot (wsub (wsub (((wadd (wadd (D &&& wnot signMask) (lv &&& lsbMask)) (rn &&& lsbMask)) ^^^ (D &&& signMask)) ||| signMask) (ln &&& lsbMask)) (rv &&& lsbMask))))) &&& signMask)) >>> (chunkBits - 1 - t))⟩ : DMState) =
    ⟨fromLanes (fun c => twoC (e c)), lv >>> 1, ln >>> 1, rv >>> 1, rn >>> 1,
      rl ||| fromLanes (fun c => 2 ^ t * (if e c < 0 then 1 else 0)),
      rr ||| fromLanes (fun c => 2 ^ t * (if 0 < e c then 1 else 0))⟩
  rw [wadd_wadd, wsub_wsub _ _ _ hble, hF,
    show chunkBits - 1 - t = 7 - t from rfl, hneg, hpos,
    sign_shift t ht (fun c => if e c < 0 then 1 else 0),
    sign_shift t ht (fun c => if 0 < e c then 1 else 0)]

end GraphAligner

namespace GraphAligner

theorem lane_shr_bit (c t Y : Nat) :
    lane c (Y >>> t) % 2 = Y / 2 ^ (8 * c + t) % 2 := by
  unfold lane
  rw [Nat.shiftRight_eq_div_pow,
    show (256 : Nat) ^ c = 2 ^ (8 * c) by
      rw [show (256 : Nat) = 2 ^ 8 by norm_num, ← pow_mul],
    Nat.div_div_eq_div_mul, ← pow_add, show t + 8 * c = 8 * c + t by omega]
  omega

theorem testBit_lane_div (X j : Nat) (hj : j < 64) :
    X.testBit j = (lane (j / 8) X).testBit (j % 8) := by
  have h := testBit_byte X (j / 8) (j % 8) (by omega) (by omega)
  rw [show 8 * (j / 8) + j % 8 = j by omega] at h
  exact h

theorem fromLanes_pow_testBit (t : Nat) (ht : t < 8) (b : Nat → Nat)
    (hb : ∀ c, c < 8 → b c ≤ 1) (j : Nat) (hj : j < 64) :
    (fromLanes (fun c => 2 ^ t * b c)).testBit j =
      (decide (j % 8 = t) && decide (b (j / 8) = 1)) := by
  have hpb : ∀ c, c < 8 → 2 ^ t * b c < 256 := by
    intro c hc
    have h1 := hb c hc
    have h2 : (2 : Nat) ^ t ≤ 128 := by
      calc (2 : Nat) ^ t ≤ 2 ^ 7 := Nat.pow_le_pow_right (by norm_num) (by omega)
      _ = 128 := by norm_num
    nlinarith
  rw [testBit_lane_div _ j hj, lane_fromLanes _ hpb (j / 8) (by omega)]
  rcases Nat.le_one_iff_eq_zero_or_eq_one.mp (hb (j / 8) (by omega)) with h | h
  · rw [h, mul_zero, Nat.zero_testBit]
    simp [h]
  · rw [h, mul_one]
    rcases eq_or_ne (j % 8) t with he | he
    · rw [he]
      simp [h, Nat.testBit_two_pow_self]
    · rw [Nat.testBit_two_pow_of_ne (Ne.symm he)]
      simp [he]

theorem shr_lt_wordMod {y : Nat} (t : Nat) (hy : y < wordMod) : y >>> t < wordMod := by
  rw [Nat.shiftRight_eq_div_pow]
  exact lt_of_le_of_lt (Nat.div_le_self _ _) hy

theorem shr_shr_one (y t : Nat) : (y >>> t) >>> 1 = y >>> (t + 1) := by
  rw [Nat.shiftRight_eq_div_pow, Nat.shiftRight_eq_div_pow, Nat.shiftRight_eq_div_pow,
    Nat.div_div_eq_div_mul, ← pow_add]

end GraphAligner

namespace GraphAligner

theorem differenceMasks_fold_inv
    (lVP lVN rVP rVN : Nat) (dAt : Nat → Int)
    (hlVP : lVP < wordMod) (hlVN : lVN < wordMod) (hrVP : rVP < wordMod)
    (hrVN : rVN < wordMod)
    (hrng : ∀ i, i ≤ 64 → -128 ≤ dAt i ∧ dAt i < 128)
    (hstep : ∀ i, i < 64 → dAt (i + 1) = dAt i +
      ((lVP / 2 ^ i % 2 + rVN / 2 ^ i % 2 : Nat) : Int) -
      ((lVN / 2 ^ i % 2 + rVP / 2 ^ i % 2 : Nat) : Int))
    (D0 : Nat) (hD0 : D0 = fromLanes (fun c => twoC (dAt (8 * c)))) :
    ∀ t, t ≤ 8 →
    ((List.range t).foldl (fun s bit => differenceMasksStep bit s) (⟨D0, lVP, lVN, rVP, rVN, 0, 0⟩ : DMState)).difference = fromLanes (fun c => twoC (dAt (8 * c + t))) ∧
    ((List.range t).foldl (fun s bit => differenceMasksStep bit s) (⟨D0, lVP, lVN, rVP, rVN, 0, 0⟩ : DMState)).leftVP = lVP >>> t ∧
    ((List.range t).foldl (fun s bit => differenceMasksStep bit s) (⟨D0, lVP, lVN, rVP, rVN, 0, 0⟩ : DMState)).leftVN = lVN >>> t ∧
    ((List.range t).foldl (fun s bit => differenceMasksStep bit s) (⟨D0, lVP, lVN, rVP, rVN, 0, 0⟩ : DMState)).rightVP = rVP >>> t ∧
    ((List.range t).foldl (fun s bit => differenceMasksStep bit s) (⟨D0, lVP, lVN, rVP, rVN, 0, 0⟩ : DMState)).rightVN = rVN >>> t ∧
    ((List.range t).foldl (fun s bit => differenceMasksStep bit s) (⟨D0, lVP, lVN, rVP, rVN, 0, 0⟩ : DMState)).resultLeftSmallerThanRight < 2 ^ 64 ∧
    ((List.range t).foldl (fun s bit => differenceMasksStep bit s) (⟨D0, lVP, lVN, rVP, rVN, 0, 0⟩ : DMState)).resultRightSmallerThanLeft < 2 ^ 64 ∧
    (∀ j, j < 64 → (((List.range t).foldl (fun s bit => differenceMasksStep bit s) (⟨D0, lVP, lVN, rVP, rVN, 0, 0⟩ : DMState)).resultLeftSmallerThanRight).testBit j =
      decide (j % 8 < t ∧ dAt (j + 1) < 0)) ∧
    (∀ j, j < 64 → (((List.range t).foldl (fun s bit => differenceMasksStep bit s) (⟨D0, lVP, lVN, rVP, rVN, 0, 0⟩ : DMState)).resultRightSmallerThanLeft).testBit j =
      decide (j % 8 < t ∧ 0 < dAt (j + 1))) := by
  intro t
  induction t with
  | zero =>
    intro ht0
    refine ⟨?_, ?_, ?_, ?_, ?_, ?_, ?_, ?_, ?_⟩ <;>
      simp only [List.range_zero, List.foldl_nil, Nat.shiftRight_zero]
    · exact hD0.trans (fromLanes_congr _ _ (fun c hc => by norm_num))
    · norm_num
    · norm_num
    · intro j hj
      simp [Nat.zero_testBit]
    · intro j hj
      simp [Nat.zero_testBit]
  | succ t ih =>
    intro ht1
    have ht8 : t < 8 := by omega
    obtain ⟨ihD, ihlv, ihln, ihrv, ihrn, ihrl_lt, ihrr_lt, ihrl, ihrr⟩ := ih (by omega)
    have hSmk : ((List.range t).foldl (fun s bit => differenceMasksStep bit s) (⟨D0, lVP, lVN, rVP, rVN, 0, 0⟩ : DMState)) =
        ⟨fromLanes (fun c => twoC (dAt (8 * c + t))), lVP >>> t, lVN >>> t,
          rVP >>> t, rVN >>> t,
          ((List.range t).foldl (fun s bit => differenceMasksStep bit s) (⟨D0, lVP, lVN, rVP, rVN, 0, 0⟩ : DMState)).resultLeftSmallerThanRight,
          ((List.range t).foldl (fun s bit => differenceMasksStep bit s) (⟨D0, lVP, lVN, rVP, rVN, 0, 0⟩ : DMState)).resultRightSmallerThanLeft⟩ := by
      rw [← ihD, ← ihlv, ← ihln, ← ihrv, ← ihrn]
    have hw64 : (18446744073709551616 : Nat) = 2 ^ 64 := by norm_num
    have hspec := differenceMasksStep_spec t ht8
      (fromLanes (fun c => twoC (dAt (8 * c + t))))
      (lVP >>> t) (lVN >>> t) (rVP >>> t) (rVN >>> t)
      (((List.range t).foldl (fun s bit => differenceMasksStep bit s) (⟨D0, lVP, lVN, rVP, rVN, 0, 0⟩ : DMState)).resultLeftSmallerThanRight)
      (((List.range t).foldl (fun s bit => differenceMasksStep bit s) (⟨D0, lVP, lVN, rVP, rVN, 0, 0⟩ : DMState)).resultRightSmallerThanLeft)
      (fun c => dAt (8 * c + t)) (fun c => dAt (8 * c + t + 1)) rfl
      (shr_lt_wordMod t hlVP) (shr_lt_wordMod t hlVN) (shr_lt_wordMod t hrVP)
      (shr_lt_wordMod t hrVN)
      (fun c hc => hrng (8 * c + t) (by omega))
      (fun c hc => by
        have h1 := hstep (8 * c + t) (by omega)
        rw [lane_shr_bit c t lVP, lane_shr_bit c t rVN, lane_shr_bit c t lVN,
          lane_shr_bit c t rVP]
        exact h1)
      (fun c hc => hrng (8 * c + t + 1) (by omega))
    have hfold1 : ∀ s0 : DMState,
        (List.range (t + 1)).foldl (fun s bit => differenceMasksStep bit s) s0 =
          differenceMasksStep t
            ((List.range t).foldl (fun s bit => differenceMasksStep bit s) s0) := by
      intro s0
      rw [List.range_succ, List.foldl_append, List.foldl_cons, List.foldl_nil]
    rw [hfold1, hSmk, hspec]
    have hindlt : ∀ P : Nat → Prop, ∀ inst : DecidablePred P,
        fromLanes (fun c => 2 ^ t * (if P c then 1 else 0)) < 2 ^ 64 := by
      intro P inst
      rw [← hw64]
      exact fromLanes_lt _ (fun c hc => by
        have h2 : (2 : Nat) ^ t ≤ 128 := by
          calc (2 : Nat) ^ t ≤ 2 ^ 7 := Nat.pow_le_pow_right (by norm_num) (by omega)
          _ = 128 := by norm_num
        split_ifs <;> omega)
    refine ⟨?_, ?_, ?_, ?_, ?_, ?_, ?_, ?_, ?_⟩
    · show fromLanes (fun c => twoC (dAt (8 * c + t + 1))) =
        fromLanes (fun c => twoC (dAt (8 * c + (t + 1))))
      exact fromLanes_congr _ _ (fun c hc => by rw [show 8 * c + t + 1 = 8 * c + (t + 1) by omega])
    · exact shr_shr_one lVP t
    · exact shr_shr_one lVN t
    · exact shr_shr_one rVP t
    · exact shr_shr_one rVN t
    · show ((List.range t).foldl (fun s bit => differenceMasksStep bit s) (⟨D0, lVP, lVN, rVP, rVN, 0, 0⟩ : DMState)).resultLeftSmallerThanRight |||
        fromLanes (fun c => 2 ^ t * (if dAt (8 * c + t + 1) < 0 then 1 else 0)) < 2 ^ 64
      exact Nat.or_lt_two_pow ihrl_lt (hindlt _ _)
    · show ((List.range t).foldl (fun s bit => differenceMasksStep bit s) (⟨D0, lVP, lVN, rVP, rVN, 0, 0⟩ : DMState)).resultRightSmallerThanLeft |||
        fromLanes (fun c => 2 ^ t * (if 0 < dAt (8 * c + t + 1) then 1 else 0)) < 2 ^ 64
      exact Nat.or_lt_two_pow ihrr_lt (hindlt _ _)
    · intro j hj
      show (((List.range t).foldl (fun s bit => differenceMasksStep bit s) (⟨D0, lVP, lVN, rVP, rVN, 0, 0⟩ : DMState)).resultLeftSmallerThanRight |||
        fromLanes (fun c => 2 ^ t * (if dAt (8 * c + t + 1) < 0 then 1 else 0))).testBit j =
          decide (j % 8 < t + 1 ∧ dAt (j + 1) < 0)
      rw [Nat.testBit_lor, ihrl j hj,
        fromLanes_pow_testBit t ht8 _ (fun c hc => by split_ifs <;> omega) j hj]
      rcases eq_or_ne (j % 8) t with h3 | h3
      · rw [show 8 * (j / 8) + t + 1 = j + 1 by omega, h3]
        by_cases h1 : dAt (j + 1) < 0 <;> simp [h1]
      · by_cases h1 : dAt (j + 1) < 0 <;> by_cases h2 : j % 8 < t <;>
          simp [h1, h2, h3] <;> try omega
    · intro j hj
      show (((List.range t).foldl (fun s bit => differenceMasksStep bit s) (⟨D0, lVP, lVN, rVP, rVN, 0, 0⟩ : DMState)).resultRightSmallerThanLeft |||
        fromLanes (fun c => 2 ^ t * (if 0 < dAt (8 * c + t + 1) then 1 else 0))).testBit j =
          decide (j % 8 < t + 1 ∧ 0 < dAt (j + 1))
      rw [Nat.testBit_lor, ihrr j hj,
        fromLanes_pow_testBit t ht8 _ (fun c hc => by split_ifs <;> omega) j hj]
      rcases eq_or_ne (j % 8) t with h3 | h3
      · rw [show 8 * (j / 8) + t + 1 = j + 1 by omega, h3]
        by_cases h1 : 0 < dAt (j + 1) <;> simp [h1]
      · by_cases h1 : 0 < dAt (j + 1) <;> by_cases h2 : j % 8 < t <;>
          simp [h1, h2, h3] <;> try omega

end GraphAligner

namespace GraphAligner

theorem shr_and_one (y t : Nat) : (y >>> t) &&& 1 = y / 2 ^ t % 2 := by
  rw [Nat.and_one_is_mod, Nat.shiftRight_eq_div_pow]

theorem or_two_pow_testBit (m t j : Nat) (hm : m < 2 ^ 64) :
    (m ||| 2 ^ t).testBit j = (m.testBit j || decide (t = j)) := by
  rw [Nat.testBit_lor]
  rcases eq_or_ne t j with he | he
  · rw [he]
    simp [Nat.testBit_two_pow_self]
  · rw [Nat.testBit_two_pow_of_ne he]
    simp [he]

theorem two_pow_lt_word (t : Nat) (ht : t < 64) : (2 : Nat) ^ t < 2 ^ 64 := by
  have h : (2 : Nat) ^ t ≤ 2 ^ 63 := Nat.pow_le_pow_right (by norm_num) (by omega)
  have h2 : (2 : Nat) ^ 63 < 2 ^ 64 := by norm_num
  omega

theorem cellByCell_inv (lVP0 lVN0 rVP0 rVN0 : Nat) (sd : Int) :
    ∀ t, t ≤ 64 →
    ((List.range t).foldl (fun (s : Int × Int × Nat × Nat × Nat × Nat × Nat × Nat) i =>
      let (leftscore, rightscore, lVP, lVN, rVP, rVN, leftSmaller, rightSmaller) := s
      let leftscore := leftscore + ((lVP &&& 1 : Nat) : Int)
      let leftscore := leftscore - ((lVN &&& 1 : Nat) : Int)
      let rightscore := rightscore + ((rVP &&& 1 : Nat) : Int)
      let rightscore := rightscore - ((rVN &&& 1 : Nat) : Int)
      let lVP := lVP >>> 1
      let lVN := lVN >>> 1
      let rVP := rVP >>> 1
      let rVN := rVN >>> 1
      let leftSmaller := if leftscore < rightscore then leftSmaller ||| (1 <<< i) else leftSmaller
      let rightSmaller := if rightscore < leftscore then rightSmaller ||| (1 <<< i) else rightSmaller
      (leftscore, rightscore, lVP, lVN, rVP, rVN, leftSmaller, rightSmaller)) ((0 : Int), sd, lVP0, lVN0, rVP0, rVN0, 0, 0)).1 = (cnt lVP0 t : Int) - cnt lVN0 t ∧
    ((List.range t).foldl (fun (s : Int × Int × Nat × Nat × Nat × Nat × Nat × Nat) i =>
      let (leftscore, rightscore, lVP, lVN, rVP, rVN, leftSmaller, rightSmaller) := s
      let leftscore := leftscore + ((lVP &&& 1 : Nat) : Int)
      let leftscore := leftscore - ((lVN &&& 1 : Nat) : Int)
      let rightscore := rightscore + ((rVP &&& 1 : Nat) : Int)
      let rightscore := rightscore - ((rVN &&& 1 : Nat) : Int)
      let lVP := lVP >>> 1
      let lVN := lVN >>> 1
      let rVP := rVP >>> 1
      let rVN := rVN >>> 1
      let leftSmaller := if leftscore < rightscore then leftSmaller ||| (1 <<< i) else leftSmaller
      let rightSmaller := if rightscore < leftscore then rightSmaller ||| (1 <<< i) else rightSmaller
      (leftscore, rightscore, lVP, lVN, rVP, rVN, leftSmaller, rightSmaller)) ((0 : Int), sd, lVP0, lVN0, rVP0, rVN0, 0, 0)).2.1 = sd + (cnt rVP0 t : Int) - cnt rVN0 t ∧
    ((List.range t).foldl (fun (s : Int × Int × Nat × Nat × Nat × Nat × Nat × Nat) i =>
      let (leftscore, rightscore, lVP, lVN, rVP, rVN, leftSmaller, rightSmaller) := s
      let leftscore := leftscore + ((lVP &&& 1 : Nat) : Int)
      let leftscore := leftscore - ((lVN &&& 1 : Nat) : Int)
      let rightscore := rightscore + ((rVP &&& 1 : Nat) : Int)
      let rightscore := rightscore - ((rVN &&& 1 : Nat) : Int)
      let lVP := lVP >>> 1
      let lVN := lVN >>> 1
      let rVP := rVP >>> 1
      let rVN := rVN >>> 1
      let leftSmaller := if leftscore < rightscore then leftSmaller ||| (1 <<< i) else leftSmaller
      let rightSmaller := if rightscore < leftscore then rightSmaller ||| (1 <<< i) else rightSmaller
      (leftscore, rightscore, lVP, lVN, rVP, rVN, leftSmaller, rightSmaller)) ((0 : Int), sd, lVP0, lVN0, rVP0, rVN0, 0, 0)).2.2.1 = lVP0 >>> t ∧
    ((List.range t).foldl (fun (s : Int × Int × Nat × Nat × Nat × Nat × Nat × Nat) i =>
      let (leftscore, rightscore, lVP, lVN, rVP, rVN, leftSmaller, rightSmaller) := s
      let leftscore := leftscore + ((lVP &&& 1 : Nat) : Int)
      let leftscore := leftscore - ((lVN &&& 1 : Nat) : Int)
      let rightscore := rightscore + ((rVP &&& 1 : Nat) : Int)
      let rightscore := rightscore - ((rVN &&& 1 : Nat) : Int)
      let lVP := lVP >>> 1
      let lVN := lVN >>> 1
      let rVP := rVP >>> 1
      let rVN := rVN >>> 1
      let leftSmaller := if leftscore < rightscore then leftSmaller ||| (1 <<< i) else leftSmaller
      let rightSmaller := if rightscore < leftscore then rightSmaller ||| (1 <<< i) else rightSmaller
      (leftscore, rightscore, lVP, lVN, rVP, rVN, leftSmaller, rightSmaller)) ((0 : Int), sd, lVP0, lVN0, rVP0, rVN0, 0, 0)).2.2.2.1 = lVN0 >>> t ∧
    ((List.range t).foldl (fun (s : Int × Int × Nat × Nat × Nat × Nat × Nat × Nat) i =>
      let (leftscore, rightscore, lVP, lVN, rVP, rVN, leftSmaller, rightSmaller) := s
      let leftscore := leftscore + ((lVP &&& 1 : Nat) : Int)
      let leftscore := leftscore - ((lVN &&& 1 : Nat) : Int)
      let rightscore := rightscore + ((rVP &&& 1 : Nat) : Int)
      let rightscore := rightscore - ((rVN &&& 1 : Nat) : Int)
      let lVP := lVP >>> 1
      let lVN := lVN >>> 1
      let rVP := rVP >>> 1
      let rVN := rVN >>> 1
      let leftSmaller := if leftscore < rightscore then leftSmaller ||| (1 <<< i) else leftSmaller
      let rightSmaller := if rightscore < leftscore then rightSmaller ||| (1 <<< i) else rightSmaller
      (leftscore, rightscore, lVP, lVN, rVP, rVN, leftSmaller, rightSmaller)) ((0 : Int), sd, lVP0, lVN0, rVP0, rVN0, 0, 0)).2.2.2.2.1 = rVP0 >>> t ∧
    ((List.range t).foldl (fun (s : Int × Int × Nat × Nat × Nat × Nat × Nat × Nat) i =>
      let (leftscore, rightscore, lVP, lVN, rVP, rVN, leftSmaller, rightSmaller) := s
      let leftscore := leftscore + ((lVP &&& 1 : Nat) : Int)
      let leftscore := leftscore - ((lVN &&& 1 : Nat) : Int)
      let rightscore := rightscore + ((rVP &&& 1 : Nat) : Int)
      let rightscore := rightscore - ((rVN &&& 1 : Nat) : Int)
      let lVP := lVP >>> 1
      let lVN := lVN >>> 1
      let rVP := rVP >>> 1
      let rVN := rVN >>> 1
      let leftSmaller := if leftscore < rightscore then leftSmaller ||| (1 <<< i) else leftSmaller
      let rightSmaller := if rightscore < leftscore then rightSmaller ||| (1 <<< i) else rightSmaller
      (leftscore, rightscore, lVP, lVN, rVP, rVN, leftSmaller, rightSmaller)) ((0 : Int), sd, lVP0, lVN0, rVP0, rVN0, 0, 0)).2.2.2.2.2.1 = rVN0 >>> t ∧
    ((List.range t).foldl (fun (s : Int × Int × Nat × Nat × Nat × Nat × Nat × Nat) i =>
      let (leftscore, rightscore, lVP, lVN, rVP, rVN, leftSmaller, rightSmaller) := s
      let leftscore := leftscore + ((lVP &&& 1 : Nat) : Int)
      let leftscore := leftscore - ((lVN &&& 1 : Nat) : Int)
      let rightscore := rightscore + ((rVP &&& 1 : Nat) : Int)
      let rightscore := rightscore - ((rVN &&& 1 : Nat) : Int)
      let lVP := lVP >>> 1
      let lVN := lVN >>> 1
      let rVP := rVP >>> 1
      let rVN := rVN >>> 1
      let leftSmaller := if leftscore < rightscore then leftSmaller ||| (1 <<< i) else leftSmaller
      let rightSmaller := if rightscore < leftscore then rightSmaller ||| (1 <<< i) else rightSmaller
      (leftscore, rightscore, lVP, lVN, rVP, rVN, leftSmaller, rightSmaller)) ((0 : Int), sd, lVP0, lVN0, rVP0, rVN0, 0, 0)).2.2.2.2.2.2.1 < 2 ^ 64 ∧
    ((List.range t).foldl (fun (s : Int × Int × Nat × Nat × Nat × Nat × Nat × Nat) i =>
      let (leftscore, rightscore, lVP, lVN, rVP, rVN, leftSmaller, rightSmaller) := s
      let leftscore := leftscore + ((lVP &&& 1 : Nat) : Int)
      let leftscore := leftscore - ((lVN &&& 1 : Nat) : Int)
      let rightscore := rightscore + ((rVP &&& 1 : Nat) : Int)
      let rightscore := rightscore - ((rVN &&& 1 : Nat) : Int)
      let lVP := lVP >>> 1
      let lVN := lVN >>> 1
      let rVP := rVP >>> 1
      let rVN := rVN >>> 1
      let leftSmaller := if leftscore < rightscore then leftSmaller ||| (1 <<< i) else leftSmaller
      let rightSmaller := if rightscore < leftscore then rightSmaller ||| (1 <<< i) else rightSmaller
      (leftscore, rightscore, lVP, lVN, rVP, rVN, leftSmaller, rightSmaller)) ((0 : Int), sd, lVP0, lVN0, rVP0, rVN0, 0, 0)).2.2.2.2.2.2.2 < 2 ^ 64 ∧
    (∀ j, j < 64 → (((List.range t).foldl (fun (s : Int × Int × Nat × Nat × Nat × Nat × Nat × Nat) i =>
      let (leftscore, rightscore, lVP, lVN, rVP, rVN, leftSmaller, rightSmaller) := s
      let leftscore := leftscore + ((lVP &&& 1 : Nat) : Int)
      let leftscore := leftscore - ((lVN &&& 1 : Nat) : Int)
      let rightscore := rightscore + ((rVP &&& 1 : Nat) : Int)
      let rightscore := rightscore - ((rVN &&& 1 : Nat) : Int)
      let lVP := lVP >>> 1
      let lVN := lVN >>> 1
      let rVP := rVP >>> 1
      let rVN := rVN >>> 1
      let leftSmaller := if leftscore < rightscore then leftSmaller ||| (1 <<< i) else leftSmaller
      let rightSmaller := if rightscore < leftscore then rightSmaller ||| (1 <<< i) else rightSmaller
      (leftscore, rightscore, lVP, lVN, rVP, rVN, leftSmaller, rightSmaller)) ((0 : Int), sd, lVP0, lVN0, rVP0, rVN0, 0, 0)).2.2.2.2.2.2.1).testBit j =
      decide (j < t ∧ ((cnt lVP0 (j + 1) : Int) - cnt lVN0 (j + 1)) < (sd + (cnt rVP0 (j + 1) : Int) - cnt rVN0 (j + 1)))) ∧
    (∀ j, j < 64 → (((List.range t).foldl (fun (s : Int × Int × Nat × Nat × Nat × Nat × Nat × Nat) i =>
      let (leftscore, rightscore, lVP, lVN, rVP, rVN, leftSmaller, rightSmaller) := s
      let leftscore := leftscore + ((lVP &&& 1 : Nat) : Int)
      let leftscore := leftscore - ((lVN &&& 1 : Nat) : Int)
      let rightscore := rightscore + ((rVP &&& 1 : Nat) : Int)
      let rightscore := rightscore - ((rVN &&& 1 : Nat) : Int)
      let lVP := lVP >>> 1
      let lVN := lVN >>> 1
      let rVP := rVP >>> 1
      let rVN := rVN >>> 1
      let leftSmaller := if leftscore < rightscore then leftSmaller ||| (1 <<< i) else leftSmaller
      let rightSmaller := if rightscore < leftscore then rightSmaller ||| (1 <<< i) else rightSmaller
      (leftscore, rightscore, lVP, lVN, rVP, rVN, leftSmaller, rightSmaller)) ((0 : Int), sd, lVP0, lVN0, rVP0, rVN0, 0, 0)).2.2.2.2.2.2.2).testBit j =
      decide (j < t ∧ (sd + (cnt rVP0 (j + 1) : Int) - cnt rVN0 (j + 1)) < ((cnt lVP0 (j + 1) : Int) - cnt lVN0 (j + 1)))) := by
  intro t
  induction t with
  | zero =>
    intro ht0
    refine ⟨?_, ?_, ?_, ?_, ?_, ?_, ?_, ?_, ?_, ?_⟩ <;>
      simp only [List.range_zero, List.foldl_nil, Nat.shiftRight_zero] <;>
      simp [cnt_zero, Nat.zero_testBit]
  | succ t ih =>
    intro ht1
    have ht64 : t < 64 := by omega
    have hfold1 : ∀ s0 : Int × Int × Nat × Nat × Nat × Nat × Nat × Nat,
        (List.range (t + 1)).foldl (fun (s : Int × Int × Nat × Nat × Nat × Nat × Nat × Nat) i =>
      let (leftscore, rightscore, lVP, lVN, rVP, rVN, leftSmaller, rightSmaller) := s
      let leftscore := leftscore + ((lVP &&& 1 : Nat) : Int)
      let leftscore := leftscore - ((lVN &&& 1 : Nat) : Int)
      let rightscore := rightscore + ((rVP &&& 1 : Nat) : Int)
      let rightscore := rightscore - ((rVN &&& 1 : Nat) : Int)
      let lVP := lVP >>> 1
      let lVN := lVN >>> 1
      let rVP := rVP >>> 1
      let rVN := rVN >>> 1
      let leftSmaller := if leftscore < rightscore then leftSmaller ||| (1 <<< i) else leftSmaller
      let rightSmaller := if rightscore < leftscore then rightSmaller ||| (1 <<< i) else rightSmaller
      (leftscore, rightscore, lVP, lVN, rVP, rVN, leftSmaller, rightSmaller)) s0 =
          (fun (s : Int × Int × Nat × Nat × Nat × Nat × Nat × Nat) i =>
      let (leftscore, rightscore, lVP, lVN, rVP, rVN, leftSmaller, rightSmaller) := s
      let leftscore := leftscore + ((lVP &&& 1 : Nat) : Int)
      let leftscore := leftscore - ((lVN &&& 1 : Nat) : Int)
      let rightscore := rightscore + ((rVP &&& 1 : Nat) : Int)
      let rightscore := rightscore - ((rVN &&& 1 : Nat) : Int)
      let lVP := lVP >>> 1
      let lVN := lVN >>> 1
      let rVP := rVP >>> 1
      let rVN := rVN >>> 1
      let leftSmaller := if leftscore < rightscore then leftSmaller ||| (1 <<< i) else leftSmaller
      let rightSmaller := if rightscore < leftscore then rightSmaller ||| (1 <<< i) else rightSmaller
      (leftscore, rightscore, lVP, lVN, rVP, rVN, leftSmaller, rightSmaller)) ((List.range t).foldl (fun (s : Int × Int × Nat × Nat × Nat × Nat × Nat × Nat) i =>
      let (leftscore, rightscore, lVP, lVN, rVP, rVN, leftSmaller, rightSmaller) := s
      let leftscore := leftscore + ((lVP &&& 1 : Nat) : Int)
      let leftscore := leftscore - ((lVN &&& 1 : Nat) : Int)
      let rightscore := rightscore + ((rVP &&& 1 : Nat) : Int)
      let rightscore := rightscore - ((rVN &&& 1 : Nat) : Int)
      let lVP := lVP >>> 1
      let lVN := lVN >>> 1
      let rVP := rVP >>> 1
      let rVN := rVN >>> 1
      let leftSmaller := if leftscore < rightscore then leftSmaller ||| (1 <<< i) else leftSmaller
      let rightSmaller := if rightscore < leftscore then rightSmaller ||| (1 <<< i) else rightSmaller
      (leftscore, rightscore, lVP, lVN, rVP, rVN, leftSmaller, rightSmaller)) s0) t := by
      intro s0
      rw [List.range_succ, List.foldl_append, List.foldl_cons, List.foldl_nil]
    rw [hfold1]
    obtain ⟨ihls, ihrs, ihlv, ihln, ihrv, ihrn, ihlS_lt, ihrS_lt, ihlS, ihrS⟩ :=
      ih (by omega)
    rcases hstate : ((List.range t).foldl (fun (s : Int × Int × Nat × Nat × Nat × Nat × Nat × Nat) i =>
      let (leftscore, rightscore, lVP, lVN, rVP, rVN, leftSmaller, rightSmaller) := s
      let leftscore := leftscore + ((lVP &&& 1 : Nat) : Int)
      let leftscore := leftscore - ((lVN &&& 1 : Nat) : Int)
      let rightscore := rightscore + ((rVP &&& 1 : Nat) : Int)
      let rightscore := rightscore - ((rVN &&& 1 : Nat) : Int)
      let lVP := lVP >>> 1
      let lVN := lVN >>> 1
      let rVP := rVP >>> 1
      let rVN := rVN >>> 1
      let leftSmaller := if leftscore < rightscore then leftSmaller ||| (1 <<< i) else leftSmaller
      let rightSmaller := if rightscore < leftscore then rightSmaller ||| (1 <<< i) else rightSmaller
      (leftscore, rightscore, lVP, lVN, rVP, rVN, leftSmaller, rightSmaller)) ((0 : Int), sd, lVP0, lVN0, rVP0, rVN0, 0, 0)) with ⟨ls0, rs0, alv, aln, arv, arn, gl, gr⟩
    rw [hstate] at ihls ihrs ihlv ihln ihrv ihrn ihlS_lt ihrS_lt ihlS ihrS
    simp only [] at ihls ihrs ihlv ihln ihrv ihrn ihlS_lt ihrS_lt ihlS ihrS
    subst ihls ihrs ihlv ihln ihrv ihrn
    have hls1 : (cnt lVP0 t : Int) - cnt lVN0 t + ((lVP0 >>> t &&& 1 : Nat) : Int) - ((lVN0 >>> t &&& 1 : Nat) : Int) = (cnt lVP0 (t + 1) : Int) - cnt lVN0 (t + 1) := by
      rw [shr_and_one, shr_and_one, cnt_succ, cnt_succ]
      push_cast
      ring
    have hrs1 : sd + (cnt rVP0 t : Int) - cnt rVN0 t + ((rVP0 >>> t &&& 1 : Nat) : Int) - ((rVN0 >>> t &&& 1 : Nat) : Int) = sd + (cnt rVP0 (t + 1) : Int) - cnt rVN0 (t + 1) := by
      rw [shr_and_one, shr_and_one, cnt_succ, cnt_succ]
      push_cast
      ring
    refine ⟨?_, ?_, ?_, ?_, ?_, ?_, ?_, ?_, ?_, ?_⟩
    · exact hls1
    · exact hrs1
    · exact shr_shr_one lVP0 t
    · exact shr_shr_one lVN0 t
    · exact shr_shr_one rVP0 t
    · exact shr_shr_one rVN0 t
    · show (if (cnt lVP0 t : Int) - cnt lVN0 t + ((lVP0 >>> t &&& 1 : Nat) : Int) - ((lVN0 >>> t &&& 1 : Nat) : Int) < sd + (cnt rVP0 t : Int) - cnt rVN0 t + ((rVP0 >>> t &&& 1 : Nat) : Int) - ((rVN0 >>> t &&& 1 : Nat) : Int) then gl ||| (1 <<< t) else gl) < 2 ^ 64
      split_ifs with h
      · rw [Nat.one_shiftLeft]
        exact Nat.or_lt_two_pow ihlS_lt (two_pow_lt_word t ht64)
      · exact ihlS_lt
    · show (if sd + (cnt rVP0 t : Int) - cnt rVN0 t + ((rVP0 >>> t &&& 1 : Nat) : Int) - ((rVN0 >>> t &&& 1 : Nat) : Int) < (cnt lVP0 t : Int) - cnt lVN0 t + ((lVP0 >>> t &&& 1 : Nat) : Int) - ((lVN0 >>> t &&& 1 : Nat) : Int) then gr ||| (1 <<< t) else gr) < 2 ^ 64
      split_ifs with h
      · rw [Nat.one_shiftLeft]
        exact Nat.or_lt_two_pow ihrS_lt (two_pow_lt_word t ht64)
      · exact ihrS_lt
    · intro j hj
      show (if (cnt lVP0 t : Int) - cnt lVN0 t + ((lVP0 >>> t &&& 1 : Nat) : Int) - ((lVN0 >>> t &&& 1 : Nat) : Int) < sd + (cnt rVP0 t : Int) - cnt rVN0 t + ((rVP0 >>> t &&& 1 : Nat) : Int) - ((rVN0 >>> t &&& 1 : Nat) : Int) then gl ||| (1 <<< t) else gl).testBit j =
        decide (j < t + 1 ∧ ((cnt lVP0 (j + 1) : Int) - cnt lVN0 (j + 1)) < (sd + (cnt rVP0 (j + 1) : Int) - cnt rVN0 (j + 1)))
      have hC : ((cnt lVP0 t : Int) - cnt lVN0 t + ((lVP0 >>> t &&& 1 : Nat) : Int) - ((lVN0 >>> t &&& 1 : Nat) : Int) < sd + (cnt rVP0 t : Int) - cnt rVN0 t + ((rVP0 >>> t &&& 1 : Nat) : Int) - ((rVN0 >>> t &&& 1 : Nat) : Int)) ↔ ((cnt lVP0 (t + 1) : Int) - cnt lVN0 (t + 1) < sd + (cnt rVP0 (t + 1) : Int) - cnt rVN0 (t + 1)) := by
        rw [hls1, hrs1]
      by_cases hcnd : (cnt lVP0 (t + 1) : Int) - cnt lVN0 (t + 1) < sd + (cnt rVP0 (t + 1) : Int) - cnt rVN0 (t + 1)
      · rw [if_pos (hC.mpr hcnd), Nat.one_shiftLeft, or_two_pow_testBit _ _ _ ihlS_lt,
          ihlS j hj]
        rcases eq_or_ne j t with he | he
        · subst he
          simp [hcnd]
        · simp only [Ne.symm he, decide_eq_false_iff_not, Bool.or_eq_true,
            decide_eq_true_eq]
          by_cases hp : ((cnt lVP0 (j + 1) : Int) - cnt lVN0 (j + 1)) < (sd + (cnt rVP0 (j + 1) : Int) - cnt rVN0 (j + 1)) <;> by_cases h2 : j < t <;> simp [hp, h2, Ne.symm he] <;>
            omega
      · rw [if_neg (fun hhh => hcnd (hC.mp hhh)), ihlS j hj]
        rcases eq_or_ne j t with he | he
        · subst he
          simp [hcnd]
        · by_cases hp : ((cnt lVP0 (j + 1) : Int) - cnt lVN0 (j + 1)) < (sd + (cnt rVP0 (j + 1) : Int) - cnt rVN0 (j + 1)) <;> by_cases h2 : j < t <;> simp [hp, h2] <;> omega

    · intro j hj
      show (if sd + (cnt rVP0 t : Int) - cnt rVN0 t + ((rVP0 >>> t &&& 1 : Nat) : Int) - ((rVN0 >>> t &&& 1 : Nat) : Int) < (cnt lVP0 t : Int) - cnt lVN0 t + ((lVP0 >>> t &&& 1 : Nat) : Int) - ((lVN0 >>> t &&& 1 : Nat) : Int) then gr ||| (1 <<< t) else gr).testBit j =
        decide (j < t + 1 ∧ (sd + (cnt rVP0 (j + 1) : Int) - cnt rVN0 (j + 1)) < ((cnt lVP0 (j + 1) : Int) - cnt lVN0 (j + 1)))
      have hC : (sd + (cnt rVP0 t : Int) - cnt rVN0 t + ((rVP0 >>> t &&& 1 : Nat) : Int) - ((rVN0 >>> t &&& 1 : Nat) : Int) < (cnt lVP0 t : Int) - cnt lVN0 t + ((lVP0 >>> t &&& 1 : Nat) : Int) - ((lVN0 >>> t &&& 1 : Nat) : Int)) ↔ (sd + (cnt rVP0 (t + 1) : Int) - cnt rVN0 (t + 1) < (cnt lVP0 (t + 1) : Int) - cnt lVN0 (t + 1)) := by
        rw [hls1, hrs1]
      by_cases hcnd : sd + (cnt rVP0 (t + 1) : Int) - cnt rVN0 (t + 1) < (cnt lVP0 (t + 1) : Int) - cnt lVN0 (t + 1)
      · rw [if_pos (hC.mpr hcnd), Nat.one_shiftLeft, or_two_pow_testBit _ _ _ ihrS_lt,
          ihrS j hj]
        rcases eq_or_ne j t with he | he
        · subst he
          simp [hcnd]
        · simp only [Ne.symm he, decide_eq_false_iff_not, Bool.or_eq_true,
            decide_eq_true_eq]
          by_cases hp : (sd + (cnt rVP0 (j + 1) : Int) - cnt rVN0 (j + 1)) < ((cnt lVP0 (j + 1) : Int) - cnt lVN0 (j + 1)) <;> by_cases h2 : j < t <;> simp [hp, h2, Ne.symm he] <;>
            omega
      · rw [if_neg (fun hhh => hcnd (hC.mp hhh)), ihrS j hj]
        rcases eq_or_ne j t with he | he
        · subst he
          simp [hcnd]
        · by_cases hp : (sd + (cnt rVP0 (j + 1) : Int) - cnt rVN0 (j + 1)) < ((cnt lVP0 (j + 1) : Int) - cnt lVN0 (j + 1)) <;> by_cases h2 : j < t <;> simp [hp, h2] <;> omega


end GraphAligner

namespace GraphAligner

theorem testBit_wnot2 (z j : Nat) (hz : z < wordMod) (hj : j < 64) :
    (wnot z).testBit j = !z.testBit j := by
  unfold wnot allOnes
  rw [Nat.testBit_xor, show (0xFFFFFFFFFFFFFFFF : Nat) = 2 ^ 64 - 1 by norm_num,
    Nat.testBit_two_pow_sub_one, decide_eq_true hj, Bool.true_xor]

theorem bit_toNat (z j : Nat) : z / 2 ^ j % 2 = (z.testBit j).toNat := by
  rw [Nat.testBit_to_div_mod]
  rcases Nat.mod_two_eq_zero_or_one (z / 2 ^ j) with h | h <;> simp [h]

theorem cnt_strip (x y : Nat) (hx : x < wordMod) (hy : y < wordMod) (i : Nat)
    (hi : i ≤ 64) :
    cnt (x &&& wnot (x &&& y)) i + cnt (x &&& y) i = cnt x i := by
  unfold cnt
  rw [← Finset.sum_add_distrib]
  apply Finset.sum_congr rfl
  intro j hj
  have hj64 : j < 64 := by
    have := Finset.mem_range.mp hj
    omega
  rw [bit_toNat, bit_toNat, bit_toNat, Nat.testBit_and, Nat.testBit_and,
    testBit_wnot2 _ j (land_lt_left hx) hj64, Nat.testBit_and]
  cases h1 : x.testBit j <;> cases h2 : y.testBit j <;> simp

theorem cnt_disj (x y i : Nat) (hi : i ≤ 64) (hx : x < wordMod) (hy : y < wordMod)
    (hd : x &&& y = 0) : cnt x i + cnt y i ≤ i := by
  unfold cnt
  rw [← Finset.sum_add_distrib]
  have hstep : (∑ j ∈ Finset.range i, (x / 2 ^ j % 2 + y / 2 ^ j % 2)) ≤
      ∑ j ∈ Finset.range i, 1 := by
    apply Finset.sum_le_sum
    intro j hj
    rw [bit_toNat, bit_toNat]
    have hbit : (x &&& y).testBit j = false := by
      rw [hd]
      exact Nat.zero_testBit j
    rw [Nat.testBit_and] at hbit
    cases h1 : x.testBit j <;> cases h2 : y.testBit j <;> simp_all
  have hone : (∑ j ∈ Finset.range i, (1 : Nat)) = i := by simp
  omega

theorem cnt_mono (x : Nat) {m n : Nat} (h : m ≤ n) : cnt x m ≤ cnt x n := by
  unfold cnt
  exact Finset.sum_le_sum_of_subset (Finset.range_subset.mpr h)

theorem cnt_tail_le (x i k : Nat) : cnt x (i + k) ≤ cnt x i + k := by
  unfold cnt
  rw [Finset.sum_range_add]
  have h : (∑ j ∈ Finset.range k, x / 2 ^ (i + j) % 2) ≤ ∑ j ∈ Finset.range k, 1 := by
    apply Finset.sum_le_sum
    intro j hj
    omega
  simp at h
  omega

theorem cnt_prefix_sum (x : Nat) : ∀ c, (∑ j ∈ Finset.range c, bytePop (lane j x)) =
    cnt x (8 * c) := by
  intro c
  induction c with
  | zero => simp [cnt_zero]
  | succ c ih =>
    rw [Finset.sum_range_succ, ih, show 8 * (c + 1) = 8 * c + 8 by omega, cnt_byte]

theorem cnt_allOnes (i : Nat) (hi : i ≤ 64) : cnt allOnes i = i := by
  unfold cnt
  have hcong : (∑ j ∈ Finset.range i, allOnes / 2 ^ j % 2) =
      ∑ j ∈ Finset.range i, 1 := by
    apply Finset.sum_congr rfl
    intro j hj
    have hj64 : j < 64 := by
      have := Finset.mem_range.mp hj
      omega
    rw [bit_toNat]
    have hb : allOnes.testBit j = true := by
      unfold allOnes
      rw [show (0xFFFFFFFFFFFFFFFF : Nat) = 2 ^ 64 - 1 by norm_num,
        Nat.testBit_two_pow_sub_one, decide_eq_true hj64]
    rw [hb]
    rfl
  rw [hcong]
  simp

theorem cnt_zero_word (i : Nat) : cnt 0 i = 0 := by
  unfold cnt
  simp

theorem cnt_eq64_allOnes (x : Nat) (hx : x < wordMod) (h : cnt x 64 = 64) :
    x = allOnes := by
  have hbits : ∀ j, j < 64 → x.testBit j = true := by
    intro j hj
    by_contra hb
    have hb2 : x.testBit j = false := by
      cases h2 : x.testBit j
      · rfl
      · exact absurd h2 hb
    have hlt : cnt x 64 < 64 := by
      unfold cnt
      have hstep : (∑ k ∈ Finset.range 64, x / 2 ^ k % 2) <
          ∑ k ∈ Finset.range 64, 1 := by
        apply Finset.sum_lt_sum
        · intro k hk
          omega
        · refine ⟨j, Finset.mem_range.mpr hj, ?_⟩
          rw [bit_toNat, hb2]
          norm_num
      have hone : (∑ k ∈ Finset.range 64, (1 : Nat)) = 64 := by simp
      omega
    omega
  apply Nat.eq_of_testBit_eq
  intro j
  rcases lt_or_ge j 64 with hj | hj
  · rw [hbits j hj]
    unfold allOnes
    rw [show (0xFFFFFFFFFFFFFFFF : Nat) = 2 ^ 64 - 1 by norm_num,
      Nat.testBit_two_pow_sub_one, decide_eq_true hj]
  · have h1 : x < 2 ^ j := lt_of_lt_of_le (by
      rw [wordMod_eq2] at hx
      exact hx) (Nat.pow_le_pow_right (by norm_num) hj)
    have h2 : allOnes < 2 ^ j := lt_of_lt_of_le (by norm_num [allOnes])
      (Nat.pow_le_pow_right (by norm_num) hj)
    rw [Nat.testBit_lt_two_pow h1, Nat.testBit_lt_two_pow h2]

end GraphAligner

namespace GraphAligner

theorem land_allOnes_self (x : Nat) (hx : x < wordMod) : x &&& allOnes = x := by
  apply Nat.eq_of_testBit_eq
  intro j
  rw [Nat.testBit_and]
  rcases lt_or_ge j 64 with hj | hj
  · have hb : allOnes.testBit j = true := by
      unfold allOnes
      rw [show (0xFFFFFFFFFFFFFFFF : Nat) = 2 ^ 64 - 1 by norm_num,
        Nat.testBit_two_pow_sub_one, decide_eq_true hj]
    rw [hb, Bool.and_true]
  · have h1 : x < 2 ^ j := lt_of_lt_of_le (by rw [wordMod_eq2] at hx; exact hx)
      (Nat.pow_le_pow_right (by norm_num) hj)
    rw [Nat.testBit_lt_two_pow h1, Bool.false_and]

theorem main_bounds (lVP lVN rVP rVN : Nat) (sd : Int)
    (hlVP : lVP < wordMod) (hlVN : lVN < wordMod) (hrVP : rVP < wordMod)
    (hrVN : rVN < wordMod) (hsd0 : 0 ≤ sd)
    (hpd : lVP &&& rVP = 0) (hnd : rVP &&& rVN = 0)
    (hb1 : sd ≤ ((cnt rVN 64 + cnt lVP 64 : Nat) : Int))
    (hb2 : ¬(sd = 128 ∧ rVN = allOnes ∧ lVP = allOnes))
    (hb3 : ¬(sd = 0 ∧ rVN = allOnes ∧ lVP = allOnes)) :
    sd ≤ 127 ∧
    (∀ i, i ≤ 64 → -128 ≤ (cnt lVP i : Int) - cnt lVN i - sd - cnt rVP i + cnt rVN i ∧
      (cnt lVP i : Int) - cnt lVN i - sd - cnt rVP i + cnt rVN i < 128) ∧
    (∀ c, c ≤ 8 → (sd.toNat + cnt rVP (8 * c) : Nat) ≤ 127) := by
  have hA64 : cnt rVN 64 ≤ 64 := cnt_le _ _
  have hB64 : cnt lVP 64 ≤ 64 := cnt_le _ _
  have hsd127 : sd ≤ 127 := by
    by_contra hc
    push_neg at hc
    have hpack : cnt rVN 64 = 64 ∧ cnt lVP 64 = 64 ∧ sd = 128 := by
      push_cast at hb1
      omega
    exact hb2 ⟨hpack.2.2, cnt_eq64_allOnes rVN hrVN hpack.1,
      cnt_eq64_allOnes lVP hlVP hpack.2.1⟩
  refine ⟨hsd127, ?_, ?_⟩
  · intro i hi
    have ht1 : cnt lVP 64 ≤ cnt lVP i + (64 - i) := by
      have := cnt_tail_le lVP i (64 - i)
      rw [show i + (64 - i) = 64 by omega] at this
      omega
    have ht2 : cnt rVN 64 ≤ cnt rVN i + (64 - i) := by
      have := cnt_tail_le rVN i (64 - i)
      rw [show i + (64 - i) = 64 by omega] at this
      omega
    have hl1 : cnt lVN i ≤ i := cnt_le _ _
    have hl2 : cnt rVP i ≤ i := cnt_le _ _
    have hl3 : cnt lVP i ≤ i := cnt_le _ _
    have hl4 : cnt rVN i ≤ i := cnt_le _ _
    constructor
    · push_cast at hb1 ⊢
      omega
    · rcases eq_or_lt_of_le hsd0 with hz | hpos
      · have hsum : cnt rVN 64 + cnt lVP 64 ≤ 127 := by
          by_contra hc2
          push_neg at hc2
          have hpack : cnt rVN 64 = 64 ∧ cnt lVP 64 = 64 := by omega
          exact hb3 ⟨hz.symm, cnt_eq64_allOnes rVN hrVN hpack.1,
            cnt_eq64_allOnes lVP hlVP hpack.2⟩
        have hm1 : cnt lVP i ≤ cnt lVP 64 := cnt_mono _ hi
        have hm2 : cnt rVN i ≤ cnt rVN 64 := cnt_mono _ hi
        omega
      · omega
  · intro c hc
    by_contra hc2
    push_neg at hc2
    have hdisj64 : cnt lVP 64 + cnt rVP 64 ≤ 64 :=
      cnt_disj _ _ 64 le_rfl hlVP hrVP hpd
    have hmono : cnt rVP (8 * c) ≤ cnt rVP 64 := cnt_mono _ (by omega)
    have hsdt : (sd.toNat : Int) = sd := Int.toNat_of_nonneg hsd0
    have hpack : cnt rVN 64 = 64 := by
      push_cast at hb1
      omega
    have hrvnAll : rVN = allOnes := cnt_eq64_allOnes rVN hrVN hpack
    have hrvp0 : rVP = 0 := by
      have h1 := land_allOnes_self rVP hrVP
      rw [hrvnAll] at hnd
      rw [← h1, hnd]
    have hcnt0 : cnt rVP 64 = 0 := by
      rw [hrvp0]
      exact cnt_zero_word 64
    have hlvp64 : cnt lVP 64 = 64 := by
      push_cast at hb1
      omega
    have hsd128 : sd = 128 := by
      push_cast at hb1
      omega
    exact hb2 ⟨hsd128, hrvnAll, cnt_eq64_allOnes lVP hlVP hlvp64⟩

end GraphAligner

namespace GraphAligner

theorem byteVPVNSum_pipeline (VPx VNx : Nat) (a : Nat)
    (hVP : VPx < wordMod) (hVN : VNx < wordMod)
    (hbound : ∀ c, c ≤ 8 → a + cnt VPx (8 * c) ≤ 127) :
    byteVPVNSum (bytePrefixSums (chunkPopcounts VPx) (a : Int))
        (bytePrefixSums (chunkPopcounts VNx) 0) =
      fromLanes (fun c => twoC ((a : Int) + cnt VPx (8 * c) - cnt VNx (8 * c))) := by
  have hwm : (18446744073709551616 : Nat) = wordMod := rfl
  have hgeP : ∀ c : Nat, bytePop (lane c VPx) ≤ 8 := fun c => bytePop_le _
  have hgeN : ∀ c : Nat, bytePop (lane c VNx) ≤ 8 := fun c => bytePop_le _
  have ha127 : a ≤ 127 := by
    have := hbound 0 (by norm_num)
    simpa [cnt_zero] using this
  have hbP : a + bytePop (lane 0 VPx) + bytePop (lane 1 VPx) + bytePop (lane 2 VPx) +
      bytePop (lane 3 VPx) + bytePop (lane 4 VPx) + bytePop (lane 5 VPx) +
      bytePop (lane 6 VPx) < 256 := by
    have h0 := hgeP 0
    have h1 := hgeP 1
    have h2 := hgeP 2
    have h3 := hgeP 3
    have h4 := hgeP 4
    have h5 := hgeP 5
    have h6 := hgeP 6
    omega
  have hbN : 0 + bytePop (lane 0 VNx) + bytePop (lane 1 VNx) + bytePop (lane 2 VNx) +
      bytePop (lane 3 VNx) + bytePop (lane 4 VNx) + bytePop (lane 5 VNx) +
      bytePop (lane 6 VNx) < 256 := by
    have h0 := hgeN 0
    have h1 := hgeN 1
    have h2 := hgeN 2
    have h3 := hgeN 3
    have h4 := hgeN 4
    have h5 := hgeN 5
    have h6 := hgeN 6
    omega
  have hP := bytePrefixSums_lanes (fun c => bytePop (lane c VPx)) a hbP
  have hN := bytePrefixSums_lanes (fun c => bytePop (lane c VNx)) 0 hbN
  have hlaneP : ∀ c, c < 8 →
      (a + ∑ j ∈ Finset.range c, bytePop (lane j VPx)) = a + cnt VPx (8 * c) := by
    intro c hc
    rw [cnt_prefix_sum]
  have hlaneN : ∀ c, c < 8 →
      (0 + ∑ j ∈ Finset.range c, bytePop (lane j VNx)) = cnt VNx (8 * c) := by
    intro c hc
    rw [cnt_prefix_sum]
    omega
  have hPlt : ∀ c, c < 8 → a + cnt VPx (8 * c) < 256 := by
    intro c hc
    have := hbound c (by omega)
    omega
  have hNlt : ∀ c, c < 8 → cnt VNx (8 * c) < 256 := by
    intro c hc
    have := cnt_le VNx (8 * c)
    omega
  have hPv : bytePrefixSums (chunkPopcounts VPx) (a : Int) =
      fromLanes (fun c => a + cnt VPx (8 * c)) := by
    rw [chunkPopcounts_lanes VPx hVP, hP]
    exact fromLanes_congr _ _ hlaneP
  have hNv : bytePrefixSums (chunkPopcounts VNx) 0 =
      fromLanes (fun c => cnt VNx (8 * c)) := by
    rw [chunkPopcounts_lanes VNx hVN, show (0 : Int) = ((0 : Nat) : Int) by norm_num, hN]
    exact fromLanes_congr _ _ hlaneN
  rw [hPv, hNv]
  have hsum := byteVPVNSum_lanes (fromLanes (fun c => a + cnt VPx (8 * c)))
    (fromLanes (fun c => cnt VNx (8 * c)))
    (hwm ▸ fromLanes_lt _ hPlt) (hwm ▸ fromLanes_lt _ hNlt)
    (fun c hc => by
      rw [lane_fromLanes _ hPlt c hc]
      exact hbound c (by omega))
    (fun c hc => by
      rw [lane_fromLanes _ hNlt c hc]
      have := cnt_le VNx (8 * c)
      omega)
  rw [hsum]
  exact fromLanes_congr _ _ (fun c hc => by
    rw [lane_fromLanes _ hPlt c hc, lane_fromLanes _ hNlt c hc]
    have hca : ((a + cnt VPx (8 * c) : Nat) : Int) - ((cnt VNx (8 * c) : Nat) : Int) =
        (a : Int) + cnt VPx (8 * c) - cnt VNx (8 * c) := by
      push_cast
      ring
    rw [hca])

end GraphAligner

namespace GraphAligner

theorem mainBranch_spec (lVP lVN rVP rVN : Nat) (sd : Int)
    (hlVP : lVP < wordMod) (hlVN : lVN < wordMod) (hrVP : rVP < wordMod)
    (hrVN : rVN < wordMod) (hsd0 : 0 ≤ sd)
    (hpd : lVP &&& rVP = 0) (hnd : rVP &&& rVN = 0)
    (hb1 : sd ≤ ((cnt rVN 64 + cnt lVP 64 : Nat) : Int))
    (hb2 : ¬(sd = 128 ∧ rVN = allOnes ∧ lVP = allOnes))
    (hb3 : ¬(sd = 0 ∧ rVN = allOnes ∧ lVP = allOnes)) :
    ((List.range 8).foldl (fun s bit => differenceMasksStep bit s) ⟨differenceInitial (byteVPVNSum (bytePrefixSums (chunkPopcounts lVP) 0) (bytePrefixSums (chunkPopcounts lVN) 0)) (byteVPVNSum (bytePrefixSums (chunkPopcounts rVP) sd) (bytePrefixSums (chunkPopcounts rVN) 0)), lVP, lVN, rVP, rVN, 0, 0⟩).resultLeftSmallerThanRight < 2 ^ 64 ∧
    ((List.range 8).foldl (fun s bit => differenceMasksStep bit s) ⟨differenceInitial (byteVPVNSum (bytePrefixSums (chunkPopcounts lVP) 0) (bytePrefixSums (chunkPopcounts lVN) 0)) (byteVPVNSum (bytePrefixSums (chunkPopcounts rVP) sd) (bytePrefixSums (chunkPopcounts rVN) 0)), lVP, lVN, rVP, rVN, 0, 0⟩).resultRightSmallerThanLeft < 2 ^ 64 ∧
    (∀ j, j < 64 → (((List.range 8).foldl (fun s bit => differenceMasksStep bit s) ⟨differenceInitial (byteVPVNSum (bytePrefixSums (chunkPopcounts lVP) 0) (bytePrefixSums (chunkPopcounts lVN) 0)) (byteVPVNSum (bytePrefixSums (chunkPopcounts rVP) sd) (bytePrefixSums (chunkPopcounts rVN) 0)), lVP, lVN, rVP, rVN, 0, 0⟩).resultLeftSmallerThanRight).testBit j =
      decide ((cnt lVP (j + 1) : Int) - cnt lVN (j + 1) - sd - cnt rVP (j + 1) + cnt rVN (j + 1) < 0)) ∧
    (∀ j, j < 64 → (((List.range 8).foldl (fun s bit => differenceMasksStep bit s) ⟨differenceInitial (byteVPVNSum (bytePrefixSums (chunkPopcounts lVP) 0) (bytePrefixSums (chunkPopcounts lVN) 0)) (byteVPVNSum (bytePrefixSums (chunkPopcounts rVP) sd) (bytePrefixSums (chunkPopcounts rVN) 0)), lVP, lVN, rVP, rVN, 0, 0⟩).resultRightSmallerThanLeft).testBit j =
      decide (0 < (cnt lVP (j + 1) : Int) - cnt lVN (j + 1) - sd - cnt rVP (j + 1) + cnt rVN (j + 1))) := by
  have hwm : (18446744073709551616 : Nat) = wordMod := rfl
  obtain ⟨hsd127, hrng, hrbound⟩ := main_bounds lVP lVN rVP rVN sd hlVP hlVN hrVP hrVN
    hsd0 hpd hnd hb1 hb2 hb3
  have hsdnat : ((sd.toNat : Nat) : Int) = sd := Int.toNat_of_nonneg hsd0
  have hBL := byteVPVNSum_pipeline lVP lVN 0 hlVP hlVN (fun c hc => by
    have := cnt_le lVP (8 * c)
    omega)
  rw [Nat.cast_zero] at hBL
  have hBR := byteVPVNSum_pipeline rVP rVN sd.toNat hrVP hrVN (fun c hc =>
    hrbound c hc)
  rw [hsdnat] at hBR
  have hBLlt : (byteVPVNSum (bytePrefixSums (chunkPopcounts lVP) 0) (bytePrefixSums (chunkPopcounts lVN) 0)) < wordMod := by
    rw [hBL]
    exact hwm ▸ fromLanes_lt _ (fun c hc => twoC_lt _)
  have hBRlt : (byteVPVNSum (bytePrefixSums (chunkPopcounts rVP) sd) (bytePrefixSums (chunkPopcounts rVN) 0)) < wordMod := by
    rw [hBR]
    exact hwm ▸ fromLanes_lt _ (fun c hc => twoC_lt _)
  have hvLrange : ∀ c, c < 8 →
      -128 ≤ (0 : Int) + cnt lVP (8 * c) - cnt lVN (8 * c) ∧
        (0 : Int) + cnt lVP (8 * c) - cnt lVN (8 * c) < 128 := by
    intro c hc
    have h1 := cnt_le lVP (8 * c)
    have h2 := cnt_le lVN (8 * c)
    constructor <;> push_cast <;> omega
  have hvRrange : ∀ c, c < 8 →
      -128 ≤ sd + cnt rVP (8 * c) - cnt rVN (8 * c) ∧
        sd + cnt rVP (8 * c) - cnt rVN (8 * c) < 128 := by
    intro c hc
    have h1 := hrbound c (by omega)
    have h2 := cnt_le rVN (8 * c)
    have h3 : 8 * c ≤ 64 := by omega
    constructor
    · push_cast
      omega
    · push_cast
      omega
  have hdrange : ∀ c, c < 8 →
      -128 ≤ ((0 : Int) + cnt lVP (8 * c) - cnt lVN (8 * c)) -
        (sd + cnt rVP (8 * c) - cnt rVN (8 * c)) ∧
      ((0 : Int) + cnt lVP (8 * c) - cnt lVN (8 * c)) -
        (sd + cnt rVP (8 * c) - cnt rVN (8 * c)) < 128 := by
    intro c hc
    have h1 := hrng (8 * c) (by omega)
    constructor
    · have := h1.1
      push_cast at this ⊢
      omega
    · have := h1.2
      push_cast at this ⊢
      omega
  have hD0 := differenceInitial_lanes (byteVPVNSum (bytePrefixSums (chunkPopcounts lVP) 0) (bytePrefixSums (chunkPopcounts lVN) 0)) (byteVPVNSum (bytePrefixSums (chunkPopcounts rVP) sd) (bytePrefixSums (chunkPopcounts rVN) 0))
    (fun c => (0 : Int) + cnt lVP (8 * c) - cnt lVN (8 * c))
    (fun c => sd + cnt rVP (8 * c) - cnt rVN (8 * c))
    hBLlt hBRlt
    (fun c hc => by
      rw [hBL]
      exact lane_fromLanes _ (fun c2 hc2 => twoC_lt _) c hc)
    (fun c hc => by
      rw [hBR]
      exact lane_fromLanes _ (fun c2 hc2 => twoC_lt _) c hc)
    hvLrange hvRrange hdrange
  have hD0v : differenceInitial (byteVPVNSum (bytePrefixSums (chunkPopcounts lVP) 0) (bytePrefixSums (chunkPopcounts lVN) 0)) (byteVPVNSum (bytePrefixSums (chunkPopcounts rVP) sd) (bytePrefixSums (chunkPopcounts rVN) 0)) =
      fromLanes (fun c => twoC ((fun i => (cnt lVP i : Int) - cnt lVN i - sd - cnt rVP i + cnt rVN i) (8 * c))) := by
    rw [hD0]
    exact fromLanes_congr _ _ (fun c hc => by
      congr 1
      push_cast
      ring)
  have hfold := differenceMasks_fold_inv lVP lVN rVP rVN (fun i => (cnt lVP i : Int) - cnt lVN i - sd - cnt rVP i + cnt rVN i)
    hlVP hlVN hrVP hrVN
    (fun i hi => hrng i hi)
    (fun i hi => by
      show (cnt lVP (i + 1) : Int) - cnt lVN (i + 1) - sd - cnt rVP (i + 1) +
          cnt rVN (i + 1) = _
      rw [cnt_succ lVP i, cnt_succ lVN i, cnt_succ rVP i, cnt_succ rVN i]
      push_cast
      ring)
    (differenceInitial (byteVPVNSum (bytePrefixSums (chunkPopcounts lVP) 0) (bytePrefixSums (chunkPopcounts lVN) 0)) (byteVPVNSum (bytePrefixSums (chunkPopcounts rVP) sd) (bytePrefixSums (chunkPopcounts rVN) 0))) hD0v 8 le_rfl
  obtain ⟨hfD, hflv, hfln, hfrv, hfrn, hfrl_lt, hfrr_lt, hfrl, hfrr⟩ := hfold
  refine ⟨hfrl_lt, hfrr_lt, ?_, ?_⟩
  · intro j hj
    rw [hfrl j hj]
    have hm8 : j % 8 < 8 := Nat.mod_lt _ (by norm_num)
    simp [hm8]
  · intro j hj
    rw [hfrr j hj]
    have hm8 : j % 8 < 8 := Nat.mod_lt _ (by norm_num)
    simp [hm8]

end GraphAligner

namespace GraphAligner

theorem strip_sub_bit (x y j : Nat) (hx : x < wordMod) (hy : y < wordMod) (hj : j < 64) :
    (x &&& wnot (x &&& y)).testBit j = (x.testBit j && !(y.testBit j)) := by
  rw [Nat.testBit_and, testBit_wnot2 _ j (land_lt_left hx) hj, Nat.testBit_and]
  cases h1 : x.testBit j <;> cases h2 : y.testBit j <;> simp

theorem strip_lt {x y : Nat} (hx : x < wordMod) : x &&& wnot (x &&& y) < wordMod :=
  land_lt_left hx

theorem testBit_ge64 {x : Nat} (hx : x < wordMod) {j : Nat} (hj : 64 ≤ j) :
    x.testBit j = false := by
  apply Nat.testBit_lt_two_pow
  exact lt_of_lt_of_le (by rw [wordMod_eq2] at hx; exact hx)
    (Nat.pow_le_pow_right (by norm_num) hj)

theorem strip_disj_pp (x y : Nat) (hx : x < wordMod) (hy : y < wordMod) :
    (x &&& wnot (x &&& y)) &&& (y &&& wnot (y &&& x)) = 0 := by
  apply Nat.eq_of_testBit_eq
  intro j
  rw [Nat.zero_testBit, Nat.testBit_and]
  rcases lt_or_ge j 64 with hj | hj
  · rw [strip_sub_bit x y j hx hy hj, strip_sub_bit y x j hy hx hj]
    cases h1 : x.testBit j <;> cases h2 : y.testBit j <;> simp
  · rw [testBit_ge64 (strip_lt hx) hj, Bool.false_and]

theorem strip_disj_sub (x y u v : Nat) (hx : x < wordMod) (hy : y < wordMod)
    (hu : u < wordMod) (hv : v < wordMod) (hd : x &&& u = 0) :
    (x &&& wnot (x &&& y)) &&& (u &&& wnot (u &&& v)) = 0 := by
  apply Nat.eq_of_testBit_eq
  intro j
  rw [Nat.zero_testBit, Nat.testBit_and]
  rcases lt_or_ge j 64 with hj | hj
  · rw [strip_sub_bit x y j hx hy hj, strip_sub_bit u v j hu hv hj]
    have hdb : (x &&& u).testBit j = false := by
      rw [hd]
      exact Nat.zero_testBit j
    rw [Nat.testBit_and] at hdb
    cases h1 : x.testBit j <;> cases h2 : u.testBit j <;> simp_all
  · rw [testBit_ge64 (strip_lt hx) hj, Bool.false_and]

theorem strip_allOnes (x y : Nat) (hx : x < wordMod) (hy : y < wordMod)
    (h : x &&& wnot (x &&& y) = allOnes) : x = allOnes ∧ y = 0 := by
  have hbits : ∀ j, j < 64 → (x.testBit j = true ∧ y.testBit j = false) := by
    intro j hj
    have hb : (x &&& wnot (x &&& y)).testBit j = true := by
      rw [h]
      unfold allOnes
      rw [show (0xFFFFFFFFFFFFFFFF : Nat) = 2 ^ 64 - 1 by norm_num,
        Nat.testBit_two_pow_sub_one, decide_eq_true hj]
    rw [strip_sub_bit x y j hx hy hj] at hb
    cases h1 : x.testBit j <;> cases h2 : y.testBit j <;> simp_all
  constructor
  · apply Nat.eq_of_testBit_eq
    intro j
    rcases lt_or_ge j 64 with hj | hj
    · rw [(hbits j hj).1]
      unfold allOnes
      rw [show (0xFFFFFFFFFFFFFFFF : Nat) = 2 ^ 64 - 1 by norm_num,
        Nat.testBit_two_pow_sub_one, decide_eq_true hj]
    · rw [testBit_ge64 hx hj, testBit_ge64 (by norm_num [wordMod, allOnes]) hj]
  · apply Nat.eq_of_testBit_eq
    intro j
    rw [Nat.zero_testBit]
    rcases lt_or_ge j 64 with hj | hj
    · exact (hbits j hj).2
    · exact testBit_ge64 hy hj

theorem cnt_strip_cancel (x y : Nat) (hx : x < wordMod) (hy : y < wordMod) (i : Nat)
    (hi : i ≤ 64) :
    (cnt x i : Int) - cnt y i =
      (cnt (x &&& wnot (x &&& y)) i : Int) - cnt (y &&& wnot (y &&& x)) i := by
  have h1 := cnt_strip x y hx hy i hi
  have h2 := cnt_strip y x hy hx i hi
  have h3 : cnt (x &&& y) i = cnt (y &&& x) i := by
    rw [Nat.and_comm]
  push_cast
  omega

end GraphAligner

namespace GraphAligner

theorem allOnes_bit {j : Nat} (hj : j < 64) : allOnes.testBit j = true := by
  unfold allOnes
  rw [show (0xFFFFFFFFFFFFFFFF : Nat) = 2 ^ 64 - 1 by norm_num,
    Nat.testBit_two_pow_sub_one, decide_eq_true hj]

theorem bit_ge64p {x : Nat} (hx : x < 2 ^ 64) {j : Nat} (hj : 64 ≤ j) :
    x.testBit j = false :=
  Nat.testBit_lt_two_pow (lt_of_lt_of_le hx (Nat.pow_le_pow_right (by norm_num) hj))

/-- Helper equivalence: for disjoint 64-bit `VP`/`VN` pairs and a score
difference at least 0, `differenceMasks` agrees with the cell-by-cell
comparison `differenceMasksCellByCell` of the two implied DP columns. -/
theorem differenceMasks_eq_cellByCell (lVPa lVNa rVPa rVNa : Nat) (sd : Int)
    (hlVPa : lVPa < wordMod) (hlVNa : lVNa < wordMod) (hrVPa : rVPa < wordMod)
    (hrVNa : rVNa < wordMod) (hlda : lVPa &&& lVNa = 0) (hrda : rVPa &&& rVNa = 0)
    (hsd0 : 0 ≤ sd) :
    differenceMasks lVPa lVNa rVPa rVNa sd =
      differenceMasksCellByCell lVPa lVNa rVPa rVNa sd := by
  have hwm : (18446744073709551616 : Nat) = wordMod := rfl
  have hw64 : wordMod = 2 ^ 64 := wordMod_eq2
  have hsrvp : (rVPa &&& wnot (lVPa &&& rVPa)) = rVPa &&& wnot (rVPa &&& lVPa) := by
    rw [Nat.and_comm lVPa rVPa]
  have hsrvn : (rVNa &&& wnot (lVNa &&& rVNa)) = rVNa &&& wnot (rVNa &&& lVNa) := by
    rw [Nat.and_comm lVNa rVNa]
  have hslvp_lt : (lVPa &&& wnot (lVPa &&& rVPa)) < wordMod := land_lt_left hlVPa
  have hslvn_lt : (lVNa &&& wnot (lVNa &&& rVNa)) < wordMod := land_lt_left hlVNa
  have hsrvp_lt : (rVPa &&& wnot (lVPa &&& rVPa)) < wordMod := land_lt_left hrVPa
  have hsrvn_lt : (rVNa &&& wnot (lVNa &&& rVNa)) < wordMod := land_lt_left hrVNa
  have hpd : (lVPa &&& wnot (lVPa &&& rVPa)) &&& (rVPa &&& wnot (lVPa &&& rVPa)) = 0 := by
    rw [hsrvp]
    exact strip_disj_pp lVPa rVPa hlVPa hrVPa
  have hnd : (rVPa &&& wnot (lVPa &&& rVPa)) &&& (rVNa &&& wnot (lVNa &&& rVNa)) = 0 := by
    rw [hsrvp, hsrvn]
    exact strip_disj_sub rVPa lVPa rVNa lVNa hrVPa hlVPa hrVNa hlVNa hrda
  have hcP : ∀ i, i ≤ 64 → (cnt lVPa i : Int) - cnt rVPa i =
      (cnt (lVPa &&& wnot (lVPa &&& rVPa)) i : Int) - cnt (rVPa &&& wnot (lVPa &&& rVPa)) i := by
    intro i hi
    rw [hsrvp]
    exact cnt_strip_cancel lVPa rVPa hlVPa hrVPa i hi
  have hcN : ∀ i, i ≤ 64 → (cnt rVNa i : Int) - cnt lVNa i =
      (cnt (rVNa &&& wnot (lVNa &&& rVNa)) i : Int) - cnt (lVNa &&& wnot (lVNa &&& rVNa)) i := by
    intro i hi
    rw [hsrvn]
    exact cnt_strip_cancel rVNa lVNa hrVNa hlVNa i hi
  have hpcN : popcount (rVNa &&& wnot (lVNa &&& rVNa)) = cnt (rVNa &&& wnot (lVNa &&& rVNa)) 64 := popcount_eq_cnt _ hsrvn_lt
  have hpcP : popcount (lVPa &&& wnot (lVPa &&& rVPa)) = cnt (lVPa &&& wnot (lVPa &&& rVPa)) 64 := popcount_eq_cnt _ hslvp_lt
  obtain ⟨hcls, hcrs, hclv, hcln, hcrv, hcrn, hcl_lt, hcr_lt, hclbits, hcrbits⟩ :=
    cellByCell_inv lVPa lVNa rVPa rVNa sd 64 le_rfl
  have hcbc : differenceMasksCellByCell lVPa lVNa rVPa rVNa sd =
      (((List.range 64).foldl (fun (s : Int × Int × Nat × Nat × Nat × Nat × Nat × Nat) i =>
      let (leftscore, rightscore, lVP, lVN, rVP, rVN, leftSmaller, rightSmaller) := s
      let leftscore := leftscore + ((lVP &&& 1 : Nat) : Int)
      let leftscore := leftscore - ((lVN &&& 1 : Nat) : Int)
      let rightscore := rightscore + ((rVP &&& 1 : Nat) : Int)
      let rightscore := rightscore - ((rVN &&& 1 : Nat) : Int)
      let lVP := lVP >>> 1
      let lVN := lVN >>> 1
      let rVP := rVP >>> 1
      let rVN := rVN >>> 1
      let leftSmaller := if leftscore < rightscore then leftSmaller ||| (1 <<< i) else leftSmaller
      let rightSmaller := if rightscore < leftscore then rightSmaller ||| (1 <<< i) else rightSmaller
      (leftscore, rightscore, lVP, lVN, rVP, rVN, leftSmaller, rightSmaller)) ((0 : Int), sd, lVPa, lVNa, rVPa, rVNa, 0, 0)).2.2.2.2.2.2.1, ((List.range 64).foldl (fun (s : Int × Int × Nat × Nat × Nat × Nat × Nat × Nat) i =>
      let (leftscore, rightscore, lVP, lVN, rVP, rVN, leftSmaller, rightSmaller) := s
      let leftscore := leftscore + ((lVP &&& 1 : Nat) : Int)
      let leftscore := leftscore - ((lVN &&& 1 : Nat) : Int)
      let rightscore := rightscore + ((rVP &&& 1 : Nat) : Int)
      let rightscore := rightscore - ((rVN &&& 1 : Nat) : Int)
      let lVP := lVP >>> 1
      let lVN := lVN >>> 1
      let rVP := rVP >>> 1
      let rVN := rVN >>> 1
      let leftSmaller := if leftscore < rightscore then leftSmaller ||| (1 <<< i) else leftSmaller
      let rightSmaller := if rightscore < leftscore then rightSmaller ||| (1 <<< i) else rightSmaller
      (leftscore, rightscore, lVP, lVN, rVP, rVN, leftSmaller, rightSmaller)) ((0 : Int), sd, lVPa, lVNa, rVPa, rVNa, 0, 0)).2.2.2.2.2.2.2) := rfl
  have hallOnes_lt : allOnes < 2 ^ 64 := by
    rw [← hw64, ← hwm]
    norm_num [allOnes]
  have hdm : differenceMasks lVPa lVNa rVPa rVNa sd =
      (if sd > ((popcount (rVNa &&& wnot (lVNa &&& rVNa)) + popcount (lVPa &&& wnot (lVPa &&& rVPa)) : Nat) : Int) then ((allOnes, allZeros) : Nat × Nat)
       else if sd = 128 ∧ (rVNa &&& wnot (lVNa &&& rVNa)) = allOnes ∧ (lVPa &&& wnot (lVPa &&& rVPa)) = allOnes then (allOnes ^^^ (1 <<< 63), allZeros)
       else if sd = 0 ∧ (rVNa &&& wnot (lVNa &&& rVNa)) = allOnes ∧ (lVPa &&& wnot (lVPa &&& rVPa)) = allOnes then (0, allOnes)
       else (((List.range 8).foldl (fun s bit => differenceMasksStep bit s) ⟨differenceInitial (byteVPVNSum (bytePrefixSums (chunkPopcounts (lVPa &&& wnot (lVPa &&& rVPa))) 0) (bytePrefixSums (chunkPopcounts (lVNa &&& wnot (lVNa &&& rVNa))) 0)) (byteVPVNSum (bytePrefixSums (chunkPopcounts (rVPa &&& wnot (lVPa &&& rVPa))) sd) (bytePrefixSums (chunkPopcounts (rVNa &&& wnot (lVNa &&& rVNa))) 0)), (lVPa &&& wnot (lVPa &&& rVPa)), (lVNa &&& wnot (lVNa &&& rVNa)), (rVPa &&& wnot (lVPa &&& rVPa)), (rVNa &&& wnot (lVNa &&& rVNa)), 0, 0⟩).resultLeftSmallerThanRight, ((List.range 8).foldl (fun s bit => differenceMasksStep bit s) ⟨differenceInitial (byteVPVNSum (bytePrefixSums (chunkPopcounts (lVPa &&& wnot (lVPa &&& rVPa))) 0) (bytePrefixSums (chunkPopcounts (lVNa &&& wnot (lVNa &&& rVNa))) 0)) (byteVPVNSum (bytePrefixSums (chunkPopcounts (rVPa &&& wnot (lVPa &&& rVPa))) sd) (bytePrefixSums (chunkPopcounts (rVNa &&& wnot (lVNa &&& rVNa))) 0)), (lVPa &&& wnot (lVPa &&& rVPa)), (lVNa &&& wnot (lVNa &&& rVNa)), (rVPa &&& wnot (lVPa &&& rVPa)), (rVNa &&& wnot (lVNa &&& rVNa)), 0, 0⟩).resultRightSmallerThanLeft)) := rfl
  by_cases h1 : sd > ((popcount (rVNa &&& wnot (lVNa &&& rVNa)) + popcount (lVPa &&& wnot (lVPa &&& rVPa)) : Nat) : Int)
  · rw [hdm, if_pos h1, hcbc]
    have h1n : ((cnt (rVNa &&& wnot (lVNa &&& rVNa)) 64 + cnt (lVPa &&& wnot (lVPa &&& rVPa)) 64 : Nat) : Int) < sd := by
      rw [← hpcN, ← hpcP]
      exact h1
    have hlt : ∀ j, j < 64 → ((cnt lVPa (j + 1) : Int) - cnt lVNa (j + 1)) < (sd + (cnt rVPa (j + 1) : Int) - cnt rVNa (j + 1)) := by
      intro j hj
      have e1 := hcP (j + 1) (by omega)
      have e2 := hcN (j + 1) (by omega)
      have m1 : cnt (lVPa &&& wnot (lVPa &&& rVPa)) (j + 1) ≤ cnt (lVPa &&& wnot (lVPa &&& rVPa)) 64 := cnt_mono _ (by omega)
      have m2 : cnt (rVNa &&& wnot (lVNa &&& rVNa)) (j + 1) ≤ cnt (rVNa &&& wnot (lVNa &&& rVNa)) 64 := cnt_mono _ (by omega)
      push_cast at h1n e1 e2 ⊢
      omega
    refine Prod.ext ?_ ?_
    · show allOnes = ((List.range 64).foldl (fun (s : Int × Int × Nat × Nat × Nat × Nat × Nat × Nat) i =>
      let (leftscore, rightscore, lVP, lVN, rVP, rVN, leftSmaller, rightSmaller) := s
      let leftscore := leftscore + ((lVP &&& 1 : Nat) : Int)
      let leftscore := leftscore - ((lVN &&& 1 : Nat) : Int)
      let rightscore := rightscore + ((rVP &&& 1 : Nat) : Int)
      let rightscore := rightscore - ((rVN &&& 1 : Nat) : Int)
      let lVP := lVP >>> 1
      let lVN := lVN >>> 1
      let rVP := rVP >>> 1
      let rVN := rVN >>> 1
      let leftSmaller := if leftscore < rightscore then leftSmaller ||| (1 <<< i) else leftSmaller
      let rightSmaller := if rightscore < leftscore then rightSmaller ||| (1 <<< i) else rightSmaller
      (leftscore, rightscore, lVP, lVN, rVP, rVN, leftSmaller, rightSmaller)) ((0 : Int), sd, lVPa, lVNa, rVPa, rVNa, 0, 0)).2.2.2.2.2.2.1
      apply Nat.eq_of_testBit_eq
      intro j
      rcases lt_or_ge j 64 with hj | hj
      · rw [hclbits j hj, allOnes_bit hj]
        symm
        rw [decide_eq_true_eq]
        exact ⟨hj, hlt j hj⟩
      · rw [bit_ge64p hallOnes_lt hj, bit_ge64p hcl_lt hj]
    · show allZeros = ((List.range 64).foldl (fun (s : Int × Int × Nat × Nat × Nat × Nat × Nat × Nat) i =>
      let (leftscore, rightscore, lVP, lVN, rVP, rVN, leftSmaller, rightSmaller) := s
      let leftscore := leftscore + ((lVP &&& 1 : Nat) : Int)
      let leftscore := leftscore - ((lVN &&& 1 : Nat) : Int)
      let rightscore := rightscore + ((rVP &&& 1 : Nat) : Int)
      let rightscore := rightscore - ((rVN &&& 1 : Nat) : Int)
      let lVP := lVP >>> 1
      let lVN := lVN >>> 1
      let rVP := rVP >>> 1
      let rVN := rVN >>> 1
      let leftSmaller := if leftscore < rightscore then leftSmaller ||| (1 <<< i) else leftSmaller
      let rightSmaller := if rightscore < leftscore then rightSmaller ||| (1 <<< i) else rightSmaller
      (leftscore, rightscore, lVP, lVN, rVP, rVN, leftSmaller, rightSmaller)) ((0 : Int), sd, lVPa, lVNa, rVPa, rVNa, 0, 0)).2.2.2.2.2.2.2
      apply Nat.eq_of_testBit_eq
      intro j
      rw [show allZeros.testBit j = false from Nat.zero_testBit j]
      rcases lt_or_ge j 64 with hj | hj
      · rw [hcrbits j hj]
        symm
        rw [decide_eq_false_iff_not]
        rintro ⟨hj2, habs⟩
        have := hlt j hj
        omega
      · rw [bit_ge64p hcr_lt hj]
  · by_cases h2 : sd = 128 ∧ (rVNa &&& wnot (lVNa &&& rVNa)) = allOnes ∧ (lVPa &&& wnot (lVPa &&& rVPa)) = allOnes
    · rw [hdm, if_neg h1, if_pos h2, hcbc]
      obtain ⟨hsd128, hrvnAll, hlvpAll⟩ := h2
      obtain ⟨hlvpa, hrvpa⟩ := strip_allOnes lVPa rVPa hlVPa hrVPa hlvpAll
      rw [hsrvn] at hrvnAll
      obtain ⟨hrvna, hlvna⟩ := strip_allOnes rVNa lVNa hrVNa hlVNa hrvnAll
      have hcnt1 : ∀ j : Nat, j < 64 → cnt lVPa (j + 1) = j + 1 := fun j hj => by
        rw [hlvpa]
        exact cnt_allOnes _ (by omega)
      have hcnt2 : ∀ j : Nat, cnt rVPa (j + 1) = 0 := fun j => by
        rw [hrvpa]
        exact cnt_zero_word _
      have hcnt3 : ∀ j : Nat, j < 64 → cnt rVNa (j + 1) = j + 1 := fun j hj => by
        rw [hrvna]
        exact cnt_allOnes _ (by omega)
      have hcnt4 : ∀ j : Nat, cnt lVNa (j + 1) = 0 := fun j => by
        rw [hlvna]
        exact cnt_zero_word _
      refine Prod.ext ?_ ?_
      · show allOnes ^^^ (1 <<< 63) = ((List.range 64).foldl (fun (s : Int × Int × Nat × Nat × Nat × Nat × Nat × Nat) i =>
      let (leftscore, rightscore, lVP, lVN, rVP, rVN, leftSmaller, rightSmaller) := s
      let leftscore := leftscore + ((lVP &&& 1 : Nat) : Int)
      let leftscore := leftscore - ((lVN &&& 1 : Nat) : Int)
      let rightscore := rightscore + ((rVP &&& 1 : Nat) : Int)
      let rightscore := rightscore - ((rVN &&& 1 : Nat) : Int)
      let lVP := lVP >>> 1
      let lVN := lVN >>> 1
      let rVP := rVP >>> 1
      let rVN := rVN >>> 1
      let leftSmaller := if leftscore < rightscore then leftSmaller ||| (1 <<< i) else leftSmaller
      let rightSmaller := if rightscore < leftscore then rightSmaller ||| (1 <<< i) else rightSmaller
      (leftscore, rightscore, lVP, lVN, rVP, rVN, leftSmaller, rightSmaller)) ((0 : Int), sd, lVPa, lVNa, rVPa, rVNa, 0, 0)).2.2.2.2.2.2.1
        apply Nat.eq_of_testBit_eq
        intro j
        rcases lt_or_ge j 64 with hj | hj
        · rw [hclbits j hj, Nat.testBit_xor, allOnes_bit hj, Nat.one_shiftLeft]
          have e1 := hcnt1 j hj
          have e2 := hcnt2 j
          have e3 := hcnt3 j hj
          have e4 := hcnt4 j
          rcases eq_or_ne j 63 with he | he
          · rw [he, Nat.testBit_two_pow_self, Bool.true_xor, Bool.not_true]
            symm
            rw [decide_eq_false_iff_not]
            rintro ⟨hj2, habs⟩
            rw [he] at e1 e2 e3 e4
            omega
          · rw [Nat.testBit_two_pow_of_ne (Ne.symm he)]
            symm
            rw [Bool.true_xor, Bool.not_false, decide_eq_true_eq]
            refine ⟨hj, ?_⟩
            omega
        · rw [Nat.testBit_xor, bit_ge64p hallOnes_lt hj,
            Nat.one_shiftLeft, Nat.testBit_two_pow_of_ne (by omega),
            bit_ge64p hcl_lt hj]
          rfl
      · show allZeros = ((List.range 64).foldl (fun (s : Int × Int × Nat × Nat × Nat × Nat × Nat × Nat) i =>
      let (leftscore, rightscore, lVP, lVN, rVP, rVN, leftSmaller, rightSmaller) := s
      let leftscore := leftscore + ((lVP &&& 1 : Nat) : Int)
      let leftscore := leftscore - ((lVN &&& 1 : Nat) : Int)
      let rightscore := rightscore + ((rVP &&& 1 : Nat) : Int)
      let rightscore := rightscore - ((rVN &&& 1 : Nat) : Int)
      let lVP := lVP >>> 1
      let lVN := lVN >>> 1
      let rVP := rVP >>> 1
      let rVN := rVN >>> 1
      let leftSmaller := if leftscore < rightscore then leftSmaller ||| (1 <<< i) else leftSmaller
      let rightSmaller := if rightscore < leftscore then rightSmaller ||| (1 <<< i) else rightSmaller
      (leftscore, rightscore, lVP, lVN, rVP, rVN, leftSmaller, rightSmaller)) ((0 : Int), sd, lVPa, lVNa, rVPa, rVNa, 0, 0)).2.2.2.2.2.2.2
        apply Nat.eq_of_testBit_eq
        intro j
        rw [show allZeros.testBit j = false from Nat.zero_testBit j]
        rcases lt_or_ge j 64 with hj | hj
        · rw [hcrbits j hj]
          symm
          rw [decide_eq_false_iff_not]
          rintro ⟨hj2, habs⟩
          have e1 := hcnt1 j hj
          have e2 := hcnt2 j
          have e3 := hcnt3 j hj
          have e4 := hcnt4 j
          omega
        · rw [bit_ge64p hcr_lt hj]
    · by_cases h3 : sd = 0 ∧ (rVNa &&& wnot (lVNa &&& rVNa)) = allOnes ∧ (lVPa &&& wnot (lVPa &&& rVPa)) = allOnes
      · rw [hdm, if_neg h1, if_neg h2, if_pos h3, hcbc]
        obtain ⟨hsd00, hrvnAll, hlvpAll⟩ := h3
        obtain ⟨hlvpa, hrvpa⟩ := strip_allOnes lVPa rVPa hlVPa hrVPa hlvpAll
        rw [hsrvn] at hrvnAll
        obtain ⟨hrvna, hlvna⟩ := strip_allOnes rVNa lVNa hrVNa hlVNa hrvnAll
        have hcnt1 : ∀ j : Nat, j < 64 → cnt lVPa (j + 1) = j + 1 := fun j hj => by
          rw [hlvpa]
          exact cnt_allOnes _ (by omega)
        have hcnt2 : ∀ j : Nat, cnt rVPa (j + 1) = 0 := fun j => by
          rw [hrvpa]
          exact cnt_zero_word _
        have hcnt3 : ∀ j : Nat, j < 64 → cnt rVNa (j + 1) = j + 1 := fun j hj => by
          rw [hrvna]
          exact cnt_allOnes _ (by omega)
        have hcnt4 : ∀ j : Nat, cnt lVNa (j + 1) = 0 := fun j => by
          rw [hlvna]
          exact cnt_zero_word _
        refine Prod.ext ?_ ?_
        · show (0 : Nat) = ((List.range 64).foldl (fun (s : Int × Int × Nat × Nat × Nat × Nat × Nat × Nat) i =>
      let (leftscore, rightscore, lVP, lVN, rVP, rVN, leftSmaller, rightSmaller) := s
      let leftscore := leftscore + ((lVP &&& 1 : Nat) : Int)
      let leftscore := leftscore - ((lVN &&& 1 : Nat) : Int)
      let rightscore := rightscore + ((rVP &&& 1 : Nat) : Int)
      let rightscore := rightscore - ((rVN &&& 1 : Nat) : Int)
      let lVP := lVP >>> 1
      let lVN := lVN >>> 1
      let rVP := rVP >>> 1
      let rVN := rVN >>> 1
      let leftSmaller := if leftscore < rightscore then leftSmaller ||| (1 <<< i) else leftSmaller
      let rightSmaller := if rightscore < leftscore then rightSmaller ||| (1 <<< i) else rightSmaller
      (leftscore, rightscore, lVP, lVN, rVP, rVN, leftSmaller, rightSmaller)) ((0 : Int), sd, lVPa, lVNa, rVPa, rVNa, 0, 0)).2.2.2.2.2.2.1
          apply Nat.eq_of_testBit_eq
          intro j
          rw [show Nat.testBit 0 j = false from Nat.zero_testBit j]
          rcases lt_or_ge j 64 with hj | hj
          · rw [hclbits j hj]
            symm
            rw [decide_eq_false_iff_not]
            rintro ⟨hj2, habs⟩
            have e1 := hcnt1 j hj
            have e2 := hcnt2 j
            have e3 := hcnt3 j hj
            have e4 := hcnt4 j
            omega
          · rw [bit_ge64p hcl_lt hj]
        · show allOnes = ((List.range 64).foldl (fun (s : Int × Int × Nat × Nat × Nat × Nat × Nat × Nat) i =>
      let (leftscore, rightscore, lVP, lVN, rVP, rVN, leftSmaller, rightSmaller) := s
      let leftscore := leftscore + ((lVP &&& 1 : Nat) : Int)
      let leftscore := leftscore - ((lVN &&& 1 : Nat) : Int)
      let rightscore := rightscore + ((rVP &&& 1 : Nat) : Int)
      let rightscore := rightscore - ((rVN &&& 1 : Nat) : Int)
      let lVP := lVP >>> 1
      let lVN := lVN >>> 1
      let rVP := rVP >>> 1
      let rVN := rVN >>> 1
      let leftSmaller := if leftscore < rightscore then leftSmaller ||| (1 <<< i) else leftSmaller
      let rightSmaller := if rightscore < leftscore then rightSmaller ||| (1 <<< i) else rightSmaller
      (leftscore, rightscore, lVP, lVN, rVP, rVN, leftSmaller, rightSmaller)) ((0 : Int), sd, lVPa, lVNa, rVPa, rVNa, 0, 0)).2.2.2.2.2.2.2
          apply Nat.eq_of_testBit_eq
          intro j
          rcases lt_or_ge j 64 with hj | hj
          · rw [hcrbits j hj, allOnes_bit hj]
            symm
            rw [decide_eq_true_eq]
            refine ⟨hj, ?_⟩
            have e1 := hcnt1 j hj
            have e2 := hcnt2 j
            have e3 := hcnt3 j hj
            have e4 := hcnt4 j
            omega
          · rw [bit_ge64p hallOnes_lt hj, bit_ge64p hcr_lt hj]
      · rw [hdm, if_neg h1, if_neg h2, if_neg h3, hcbc]
        have hb1 : sd ≤ ((cnt (rVNa &&& wnot (lVNa &&& rVNa)) 64 + cnt (lVPa &&& wnot (lVPa &&& rVPa)) 64 : Nat) : Int) := by
          rw [← hpcN, ← hpcP]
          exact not_lt.mp h1
        obtain ⟨hml_lt, hmr_lt, hmlbits, hmrbits⟩ := mainBranch_spec
          (lVPa &&& wnot (lVPa &&& rVPa)) (lVNa &&& wnot (lVNa &&& rVNa)) (rVPa &&& wnot (lVPa &&& rVPa)) (rVNa &&& wnot (lVNa &&& rVNa)) sd hslvp_lt hslvn_lt hsrvp_lt hsrvn_lt hsd0
          hpd hnd hb1 h2 h3
        have hiff : ∀ j, j < 64 →
            (((cnt (lVPa &&& wnot (lVPa &&& rVPa)) (j + 1) : Int) - cnt (lVNa &&& wnot (lVNa &&& rVNa)) (j + 1) - sd -
              cnt (rVPa &&& wnot (lVPa &&& rVPa)) (j + 1) + cnt (rVNa &&& wnot (lVNa &&& rVNa)) (j + 1) < 0) ↔ (((cnt lVPa (j + 1) : Int) - cnt lVNa (j + 1)) < (sd + (cnt rVPa (j + 1) : Int) - cnt rVNa (j + 1)))) := by
          intro j hj
          have e1 := hcP (j + 1) (by omega)
          have e2 := hcN (j + 1) (by omega)
          constructor <;> intro hx <;> push_cast at e1 e2 hx ⊢ <;> omega
        have hiff2 : ∀ j, j < 64 →
            ((0 < (cnt (lVPa &&& wnot (lVPa &&& rVPa)) (j + 1) : Int) - cnt (lVNa &&& wnot (lVNa &&& rVNa)) (j + 1) - sd -
              cnt (rVPa &&& wnot (lVPa &&& rVPa)) (j + 1) + cnt (rVNa &&& wnot (lVNa &&& rVNa)) (j + 1)) ↔ ((sd + (cnt rVPa (j + 1) : Int) - cnt rVNa (j + 1)) < ((cnt lVPa (j + 1) : Int) - cnt lVNa (j + 1)))) := by
          intro j hj
          have e1 := hcP (j + 1) (by omega)
          have e2 := hcN (j + 1) (by omega)
          constructor <;> intro hx <;> push_cast at e1 e2 hx ⊢ <;> omega
        refine Prod.ext ?_ ?_
        · show ((List.range 8).foldl (fun s bit => differenceMasksStep bit s) ⟨differenceInitial (byteVPVNSum (bytePrefixSums (chunkPopcounts (lVPa &&& wnot (lVPa &&& rVPa))) 0) (bytePrefixSums (chunkPopcounts (lVNa &&& wnot (lVNa &&& rVNa))) 0)) (byteVPVNSum (bytePrefixSums (chunkPopcounts (rVPa &&& wnot (lVPa &&& rVPa))) sd) (bytePrefixSums (chunkPopcounts (rVNa &&& wnot (lVNa &&& rVNa))) 0)), (lVPa &&& wnot (lVPa &&& rVPa)), (lVNa &&& wnot (lVNa &&& rVNa)), (rVPa &&& wnot (lVPa &&& rVPa)), (rVNa &&& wnot (lVNa &&& rVNa)), 0, 0⟩).resultLeftSmallerThanRight = ((List.range 64).foldl (fun (s : Int × Int × Nat × Nat × Nat × Nat × Nat × Nat) i =>
      let (leftscore, rightscore, lVP, lVN, rVP, rVN, leftSmaller, rightSmaller) := s
      let leftscore := leftscore + ((lVP &&& 1 : Nat) : Int)
      let leftscore := leftscore - ((lVN &&& 1 : Nat) : Int)
      let rightscore := rightscore + ((rVP &&& 1 : Nat) : Int)
      let rightscore := rightscore - ((rVN &&& 1 : Nat) : Int)
      let lVP := lVP >>> 1
      let lVN := lVN >>> 1
      let rVP := rVP >>> 1
      let rVN := rVN >>> 1
      let leftSmaller := if leftscore < rightscore then leftSmaller ||| (1 <<< i) else leftSmaller
      let rightSmaller := if rightscore < leftscore then rightSmaller ||| (1 <<< i) else rightSmaller
      (leftscore, rightscore, lVP, lVN, rVP, rVN, leftSmaller, rightSmaller)) ((0 : Int), sd, lVPa, lVNa, rVPa, rVNa, 0, 0)).2.2.2.2.2.2.1
          apply Nat.eq_of_testBit_eq
          intro j
          rcases lt_or_ge j 64 with hj | hj
          · rw [hmlbits j hj, hclbits j hj, decide_eq_decide]
            constructor
            · intro hx
              exact ⟨hj, (hiff j hj).mp hx⟩
            · rintro ⟨hj2, hx⟩
              exact (hiff j hj).mpr hx
          · rw [bit_ge64p hml_lt hj, bit_ge64p hcl_lt hj]
        · show ((List.range 8).foldl (fun s bit => differenceMasksStep bit s) ⟨differenceInitial (byteVPVNSum (bytePrefixSums (chunkPopcounts (lVPa &&& wnot (lVPa &&& rVPa))) 0) (bytePrefixSums (chunkPopcounts (lVNa &&& wnot (lVNa &&& rVNa))) 0)) (byteVPVNSum (bytePrefixSums (chunkPopcounts (rVPa &&& wnot (lVPa &&& rVPa))) sd) (bytePrefixSums (chunkPopcounts (rVNa &&& wnot (lVNa &&& rVNa))) 0)), (lVPa &&& wnot (lVPa &&& rVPa)), (lVNa &&& wnot (lVNa &&& rVNa)), (rVPa &&& wnot (lVPa &&& rVPa)), (rVNa &&& wnot (lVNa &&& rVNa)), 0, 0⟩).resultRightSmallerThanLeft = ((List.range 64).foldl (fun (s : Int × Int × Nat × Nat × Nat × Nat × Nat × Nat) i =>
      let (leftscore, rightscore, lVP, lVN, rVP, rVN, leftSmaller, rightSmaller) := s
      let leftscore := leftscore + ((lVP &&& 1 : Nat) : Int)
      let leftscore := leftscore - ((lVN &&& 1 : Nat) : Int)
      let rightscore := rightscore + ((rVP &&& 1 : Nat) : Int)
      let rightscore := rightscore - ((rVN &&& 1 : Nat) : Int)
      let lVP := lVP >>> 1
      let lVN := lVN >>> 1
      let rVP := rVP >>> 1
      let rVN := rVN >>> 1
      let leftSmaller := if leftscore < rightscore then leftSmaller ||| (1 <<< i) else leftSmaller
      let rightSmaller := if rightscore < leftscore then rightSmaller ||| (1 <<< i) else rightSmaller
      (leftscore, rightscore, lVP, lVN, rVP, rVN, leftSmaller, rightSmaller)) ((0 : Int), sd, lVPa, lVNa, rVPa, rVNa, 0, 0)).2.2.2.2.2.2.2
          apply Nat.eq_of_testBit_eq
          intro j
          rcases lt_or_ge j 64 with hj | hj
          · rw [hmrbits j hj, hcrbits j hj, decide_eq_decide]
            constructor
            · intro hx
              exact ⟨hj, (hiff2 j hj).mp hx⟩
            · rintro ⟨hj2, hx⟩
              exact (hiff2 j hj).mpr hx
          · rw [bit_ge64p hmr_lt hj, bit_ge64p hcr_lt hj]

/-- C1: for every pair of 64-bit bitvector pairs (leftVP, leftVN) and
(rightVP, rightVN) with VP and VN disjoint in each pair and every score
difference at least 0, `differenceMasks` returns exactly the same
(leftSmaller, rightSmaller) masks as the cell-by-cell comparison
`differenceMasksCellByCell` of the two implied 64-row DP columns. -/
theorem C1_differenceMasks_cellByCell (lVPa lVNa rVPa rVNa : Nat) (sd : Int)
    (hlVPa : lVPa < wordMod) (hlVNa : lVNa < wordMod) (hrVPa : rVPa < wordMod)
    (hrVNa : rVNa < wordMod) (hlda : lVPa &&& lVNa = 0) (hrda : rVPa &&& rVNa = 0)
    (hsd0 : 0 ≤ sd) :
    differenceMasks lVPa lVNa rVPa rVNa sd =
      differenceMasksCellByCell lVPa lVNa rVPa rVNa sd :=
  differenceMasks_eq_cellByCell lVPa lVNa rVPa rVNa sd hlVPa hlVNa hrVPa hrVNa
    hlda hrda hsd0

end GraphAligner

namespace GraphAligner

theorem C1_differenceMasks_cellByCell_witness :
    ((5 : Nat) < wordMod ∧ (2 : Nat) < wordMod ∧ (1 : Nat) < wordMod ∧
      (4 : Nat) < wordMod ∧ (5 : Nat) &&& 2 = 0 ∧ (1 : Nat) &&& 4 = 0 ∧
      (0 : Int) ≤ 1) ∧
    differenceMasks 5 2 1 4 1 = differenceMasksCellByCell 5 2 1 4 1 :=
  ⟨⟨by norm_num [wordMod], by norm_num [wordMod], by norm_num [wordMod],
    by norm_num [wordMod], by decide, by decide, by norm_num⟩,
    C1_differenceMasks_cellByCell 5 2 1 4 1 (by norm_num [wordMod])
      (by norm_num [wordMod]) (by norm_num [wordMod]) (by norm_num [wordMod])
      (by decide) (by decide) (by norm_num)⟩

end GraphAligner




namespace GraphAligner

/-- Carry into bit `i` of the addition `A + B`, defined by the textbook
majority recurrence. -/
def carryB (A B : Nat) : Nat → Bool
  | 0 => false
  | i + 1 => (A.testBit i && B.testBit i) ||
      ((A.testBit i || B.testBit i) && carryB A B i)

theorem mod_two_pow_succ (x i : Nat) :
    x % 2 ^ (i + 1) = x % 2 ^ i + 2 ^ i * (x / 2 ^ i % 2) := by
  rw [pow_succ, Nat.mod_mul]

theorem addBits (A B : Nat) : ∀ i, A % 2 ^ i + B % 2 ^ i =
    (A + B) % 2 ^ i + 2 ^ i * (carryB A B i).toNat := by
  intro i
  induction i with
  | zero =>
    simp only [carryB, Bool.toNat_false]
    omega
  | succ i ih =>
    have hk : (0 : Nat) < 2 ^ i := Nat.two_pow_pos i
    have e1 := mod_two_pow_succ A i
    have e2 := mod_two_pow_succ B i
    have e3 := mod_two_pow_succ (A + B) i
    have b1 := bit_toNat A i
    have b2 := bit_toNat B i
    have b3 := bit_toNat (A + B) i
    have m1 : A % 2 ^ i < 2 ^ i := Nat.mod_lt _ hk
    have m2 : B % 2 ^ i < 2 ^ i := Nat.mod_lt _ hk
    have m3 : (A + B) % 2 ^ i < 2 ^ i := Nat.mod_lt _ hk
    have hp : (2 : Nat) ^ (i + 1) = 2 * 2 ^ i := by ring
    have hkp : (0 : Nat) < 2 ^ (i + 1) := Nat.two_pow_pos (i + 1)
    have hm1 : A % 2 ^ (i + 1) < 2 ^ (i + 1) := Nat.mod_lt _ hkp
    have hm2 : B % 2 ^ (i + 1) < 2 ^ (i + 1) := Nat.mod_lt _ hkp
    have key : (A + B) % 2 ^ (i + 1) =
        (A % 2 ^ (i + 1) + B % 2 ^ (i + 1)) % 2 ^ (i + 1) := by
      rw [Nat.add_mod]
    have hcases : (A % 2 ^ (i + 1) + B % 2 ^ (i + 1) < 2 ^ (i + 1) ∧
        (A % 2 ^ (i + 1) + B % 2 ^ (i + 1)) % 2 ^ (i + 1) =
          A % 2 ^ (i + 1) + B % 2 ^ (i + 1)) ∨
        (2 ^ (i + 1) ≤ A % 2 ^ (i + 1) + B % 2 ^ (i + 1) ∧
        (A % 2 ^ (i + 1) + B % 2 ^ (i + 1)) % 2 ^ (i + 1) =
          A % 2 ^ (i + 1) + B % 2 ^ (i + 1) - 2 ^ (i + 1)) := by
      rcases lt_or_ge (A % 2 ^ (i + 1) + B % 2 ^ (i + 1)) (2 ^ (i + 1)) with h | h
      · exact Or.inl ⟨h, Nat.mod_eq_of_lt h⟩
      · refine Or.inr ⟨h, ?_⟩
        rw [Nat.mod_eq_sub_mod h, Nat.mod_eq_of_lt (by omega)]
    rw [show carryB A B (i + 1) = ((A.testBit i && B.testBit i) ||
      ((A.testBit i || B.testBit i) && carryB A B i)) from rfl]
    cases h1 : A.testBit i <;> cases h2 : B.testBit i <;> cases h3 : carryB A B i <;>
      cases h4 : (A + B).testBit i <;>
      rw [h1] at b1 <;> rw [h2] at b2 <;> rw [h4] at b3 <;> rw [h3] at ih <;>
      simp only [Bool.toNat_true, Bool.toNat_false, Bool.and_self, Bool.or_self,
        Bool.true_and, Bool.false_and, Bool.and_true, Bool.and_false,
        Bool.true_or, Bool.false_or, Bool.or_true, Bool.or_false] at b1 b2 b3 ih ⊢ <;>
      rw [b1] at e1 <;> rw [b2] at e2 <;> rw [b3] at e3 <;>
      rcases hcases with ⟨hcb, hc⟩ | ⟨hcb, hc⟩ <;>
      omega

theorem sum_testBit (A B i : Nat) :
    (A + B).testBit i =
      ((A.testBit i).xor ((B.testBit i).xor (carryB A B i))) := by
  have hk : (0 : Nat) < 2 ^ i := Nat.two_pow_pos i
  have e1 := mod_two_pow_succ A i
  have e2 := mod_two_pow_succ B i
  have e3 := mod_two_pow_succ (A + B) i
  have b1 := bit_toNat A i
  have b2 := bit_toNat B i
  have b3 := bit_toNat (A + B) i
  have m1 : A % 2 ^ i < 2 ^ i := Nat.mod_lt _ hk
  have m2 : B % 2 ^ i < 2 ^ i := Nat.mod_lt _ hk
  have m3 : (A + B) % 2 ^ i < 2 ^ i := Nat.mod_lt _ hk
  have hp : (2 : Nat) ^ (i + 1) = 2 * 2 ^ i := by ring
  have ih := addBits A B i
  have ih2 := addBits A B (i + 1)
  rw [show carryB A B (i + 1) = ((A.testBit i && B.testBit i) ||
    ((A.testBit i || B.testBit i) && carryB A B i)) from rfl] at ih2
  cases h1 : A.testBit i <;> cases h2 : B.testBit i <;> cases h3 : carryB A B i <;>
    cases h4 : (A + B).testBit i <;>
    rw [h1] at b1 <;> rw [h2] at b2 <;> rw [h4] at b3 <;>
    rw [h1, h2, h3] at ih2 <;> rw [h3] at ih <;>
    simp only [Bool.toNat_true, Bool.toNat_false, Bool.and_self, Bool.or_self,
      Bool.true_and, Bool.false_and, Bool.and_true, Bool.and_false,
      Bool.true_or, Bool.false_or, Bool.or_true, Bool.or_false, Bool.xor_false,
      Bool.xor_true, Bool.false_xor, Bool.true_xor, Bool.not_true, Bool.not_false] at b1 b2 b3 ih ih2 ⊢ <;>
    rw [b1] at e1 <;> rw [b2] at e2 <;> rw [b3] at e3 <;>
    first
    | rfl
    | omega

end GraphAligner

namespace GraphAligner

theorem testBit_one2 (j : Nat) : (1 : Nat).testBit j = decide (0 = j) := by
  have h : (1 : Nat) = 2 ^ 0 := rfl
  rw [h, Nat.testBit_two_pow]

theorem testBit_wmod {x j : Nat} (hj : j < 64) : (x % wordMod).testBit j = x.testBit j := by
  rw [wordMod_eq, Nat.testBit_mod_two_pow]
  simp [hj]

theorem wadd_testBit {a b j : Nat} (hj : j < 64) :
    (wadd a b).testBit j = (a + b).testBit j := by
  unfold wadd
  exact testBit_wmod hj

theorem wshl1_testBit {x j : Nat} (hj : j < 64) :
    (wshl x 1).testBit j = if j = 0 then false else x.testBit (j - 1) := by
  unfold wshl
  rw [testBit_wmod hj, Nat.testBit_shiftLeft]
  rcases Nat.eq_zero_or_pos j with h | h
  · subst h
    simp
  · simp [Nat.one_le_iff_ne_zero.mpr (Nat.pos_iff_ne_zero.mp h)]
    omega

theorem land_lastBitMask_ne (P : Nat) :
    (P &&& lastBitMask ≠ 0) ↔ P.testBit 63 = true := by
  have h : lastBitMask = 2 ^ 63 := by norm_num [lastBitMask]
  rw [h, Nat.and_two_pow]
  cases hb : P.testBit 63 <;> simp [hb]

/-- The carry recurrence for the Myers addition `(Eq1 &&& VP) + VP` matches the
`Mh` bit formula one position below. -/
theorem carry_step_bool (e1 vp c : Bool) :
    (((e1 && vp) && vp) || (((e1 && vp) || vp) && c)) =
      (vp && ((((e1 && vp).xor (vp.xor c)).xor vp) || e1)) := by
  revert e1 vp c
  decide

/-- `Ph` and `Mh` bits are mutually exclusive at each position. -/
theorem ph_mh_excl (vp vn xh : Bool) (hd : (vp && vn) = false) :
    ((vn || !(xh || vp)) && (vp && xh)) = false := by
  revert vp vn xh
  decide

/-- Per-row conservation of the Myers bit-parallel update: the new vertical
delta at a row equals the old vertical delta plus the outgoing horizontal
delta minus the incoming horizontal delta.  `p2`/`m2` are the incoming
horizontal bits, `c` the carry into this bit of the `(Eq1 & VP) + VP`
addition, `e1` the (possibly LSB-seeded) equality bit. -/
theorem myers_bit (vp vn eq e1 c p2 m2 : Bool)
    (hd : (vp && vn) = false) (hdpm : (p2 && m2) = false)
    (hside : (c = m2 ∧ e1 = eq) ∨ (c = false ∧ e1 = (eq || m2))) :
    ((m2 || !((eq || vn) || p2)).toNat : Int) - ((p2 && (eq || vn)).toNat : Int) =
      ((vp.toNat : Int) - (vn.toNat : Int)) +
      ((((vn || !(((((e1 && vp).xor (vp.xor c)).xor vp) || e1) || vp)).toNat : Int) -
        ((vp && ((((e1 && vp).xor (vp.xor c)).xor vp) || e1)).toNat : Int))) -
      ((p2.toNat : Int) - (m2.toNat : Int)) := by
  revert vp vn eq e1 c p2 m2
  decide

/-- The new `VP` and `VN` bits are mutually exclusive at each position. -/
theorem vpvn_excl (xv p2 m2 : Bool) (hdpm : (p2 && m2) = false) :
    ((m2 || !(xv || p2)) && (p2 && xv)) = false := by
  revert xv p2 m2
  decide

end GraphAligner

namespace GraphAligner

theorem lor_one_testBit_succ (x j : Nat) (hj : 1 ≤ j) :
    (x ||| 1).testBit j = x.testBit j := by
  rw [Nat.testBit_or, testBit_one2]
  rcases j with _ | k
  · omega
  · simp

/-- One step of `getNextSlice` preserves well-formedness, disjointness of the
vertical deltas, and changes the column score span by exactly the change of
`popcount VP - popcount VN` (stated with the bit counter `cnt`), provided the
left cell is within the band of the upper cell (`scoreBeforeStart ≤
previous.scoreEnd`, the source's assert). -/
theorem getNextSlice_cnt_spec (Eqw : Nat) (slice previous : WordSlice) (pib pEq : Bool)
    (hEq : Eqw < wordMod) (hVP : slice.VP < wordMod) (hVN : slice.VN < wordMod)
    (hd : slice.VP &&& slice.VN = 0)
    (hband : pib = true → slice.scoreBeforeStart ≤ previous.scoreEnd) :
    (getNextSlice Eqw slice pib pEq previous).VP < wordMod ∧
    (getNextSlice Eqw slice pib pEq previous).VN < wordMod ∧
    (getNextSlice Eqw slice pib pEq previous).VP &&& (getNextSlice Eqw slice pib pEq previous).VN = 0 ∧
    (getNextSlice Eqw slice pib pEq previous).scoreEnd -
        (getNextSlice Eqw slice pib pEq previous).scoreBeforeStart =
      (slice.scoreEnd - slice.scoreBeforeStart) +
        ((cnt (getNextSlice Eqw slice pib pEq previous).VP 64 : Int) -
          (cnt (getNextSlice Eqw slice pib pEq previous).VN 64 : Int)) -
        ((cnt slice.VP 64 : Int) - (cnt slice.VN 64 : Int)) := by
  set sbs : Int := (if pib then min (slice.scoreBeforeStart + 1)
      (previous.scoreEnd - (if previous.VP &&& lastBitMask ≠ 0 then 1 else 0)
        + (if previous.VN &&& lastBitMask ≠ 0 then 1 else 0)
        + (if pEq then 0 else 1))
    else slice.scoreBeforeStart + 1) with hsbs
  set hin : Int := sbs - slice.scoreBeforeStart with hhindef
  set Eq1 := if hin < 0 then Eqw ||| 1 else Eqw with hEq1def
  set Xv := Eqw ||| slice.VN with hXvdef
  set A := Eq1 &&& slice.VP with hAdef
  set Xh := ((wadd A slice.VP) ^^^ slice.VP) ||| Eq1 with hXhdef
  set Ph := slice.VN ||| wnot (Xh ||| slice.VP) with hPhdef
  set Mh := slice.VP &&& Xh with hMhdef
  set dtop : Int := (if Ph &&& lastBitMask ≠ 0 then 1
      else if Mh &&& lastBitMask ≠ 0 then -1 else 0) with hdtopdef
  set Ph1 := wshl Ph 1 with hPh1def
  set Mh1 := wshl Mh 1 with hMh1def
  set Mh2 := if hin < 0 then Mh1 ||| 1 else Mh1 with hMh2def
  set Ph2 := if ¬(hin < 0) ∧ hin > 0 then Ph1 ||| 1 else Ph1 with hPh2def
  set VPn := Mh2 ||| wnot (Xv ||| Ph2) with hVPndef
  set VNn := Ph2 &&& Xv with hVNndef
  have hres : getNextSlice Eqw slice pib pEq previous =
      ⟨VPn, VNn, slice.scoreEnd + dtop, sbs⟩ := rfl
  rw [hres]
  have hwm : (0 : Nat) < wordMod := by norm_num [wordMod]
  have hEq1lt : Eq1 < wordMod := by
    rw [hEq1def]
    split_ifs
    · exact lor_lt hEq (by norm_num [wordMod])
    · exact hEq
  have hwaddlt : wadd A slice.VP < wordMod := Nat.mod_lt _ hwm
  have hXhlt : Xh < wordMod := lor_lt (xor_lt hwaddlt hVP) hEq1lt
  have hXvlt : Xv < wordMod := lor_lt hEq hVN
  have hPh1lt : Ph1 < wordMod := Nat.mod_lt _ hwm
  have hMh1lt : Mh1 < wordMod := Nat.mod_lt _ hwm
  have hPh2lt : Ph2 < wordMod := by
    rw [hPh2def]
    split_ifs
    · exact lor_lt hPh1lt (by norm_num [wordMod])
    · exact hPh1lt
  have hMh2lt : Mh2 < wordMod := by
    rw [hMh2def]
    split_ifs
    · exact lor_lt hMh1lt (by norm_num [wordMod])
    · exact hMh1lt
  have hVPnlt : VPn < wordMod := lor_lt hMh2lt (wnot_lt (lor_lt hXvlt hPh2lt))
  have hVNnlt : VNn < wordMod := land_lt_left hPh2lt
  -- the horizontal input is -1, 0 or 1
  have hin_b1 : ((0 : Int) ≤ (if previous.VP &&& lastBitMask ≠ 0 then (1 : Int) else 0) ∧
      (if previous.VP &&& lastBitMask ≠ 0 then (1 : Int) else 0) ≤ 1) := by
    split_ifs <;> norm_num
  have hin_b2 : ((0 : Int) ≤ (if previous.VN &&& lastBitMask ≠ 0 then (1 : Int) else 0) ∧
      (if previous.VN &&& lastBitMask ≠ 0 then (1 : Int) else 0) ≤ 1) := by
    split_ifs <;> norm_num
  have hin_b3 : ((0 : Int) ≤ (if pEq then (0 : Int) else 1) ∧
      (if pEq then (0 : Int) else 1) ≤ 1) := by
    split_ifs <;> norm_num
  have htri : hin = -1 ∨ hin = 0 ∨ hin = 1 := by
    rw [hhindef, hsbs]
    cases pib with
    | false => simp
    | true =>
      have hb := hband rfl
      simp only [if_true]
      omega
  -- bit formulas
  have hXvbit : ∀ j : Nat, Xv.testBit j = (Eqw.testBit j || slice.VN.testBit j) := by
    intro j
    rw [hXvdef, Nat.testBit_or]
  have hAbit : ∀ j : Nat, A.testBit j = (Eq1.testBit j && slice.VP.testBit j) := by
    intro j
    rw [hAdef, Nat.testBit_and]
  have hXhbit : ∀ j, j < 64 → Xh.testBit j =
      ((((Eq1.testBit j && slice.VP.testBit j).xor
          ((slice.VP.testBit j).xor (carryB A slice.VP j))).xor (slice.VP.testBit j)) ||
        Eq1.testBit j) := by
    intro j hj
    rw [hXhdef, Nat.testBit_or, Nat.testBit_xor, wadd_testBit hj, sum_testBit, hAbit j]
  have hPhbit : ∀ j, j < 64 → Ph.testBit j =
      (slice.VN.testBit j || !(Xh.testBit j || slice.VP.testBit j)) := by
    intro j hj
    rw [hPhdef, Nat.testBit_or, testBit_wnot2 _ _ (lor_lt hXhlt hVP) hj, Nat.testBit_or]
  have hMhbit : ∀ j : Nat, Mh.testBit j = (slice.VP.testBit j && Xh.testBit j) := by
    intro j
    rw [hMhdef, Nat.testBit_and]
  have hcarry : ∀ j, j < 64 → carryB A slice.VP (j + 1) = Mh.testBit j := by
    intro j hj
    rw [show carryB A slice.VP (j + 1) = ((A.testBit j && slice.VP.testBit j) ||
      ((A.testBit j || slice.VP.testBit j) && carryB A slice.VP j)) from rfl,
      hAbit j, hMhbit j, hXhbit j hj]
    exact carry_step_bool (Eq1.testBit j) (slice.VP.testBit j) (carryB A slice.VP j)
  have hEq1bit0 : Eq1.testBit 0 = (Eqw.testBit 0 || decide (hin < 0)) := by
    rw [hEq1def]
    rcases lt_or_ge hin 0 with h | h
    · rw [if_pos h, Nat.testBit_or, testBit_one2]
      simp [h]
    · have hn : ¬ hin < 0 := not_lt.mpr h
      rw [if_neg hn]
      simp [hn]
  have hEq1bitS : ∀ j, 1 ≤ j → Eq1.testBit j = Eqw.testBit j := by
    intro j hj
    rw [hEq1def]
    split_ifs
    · exact lor_one_testBit_succ Eqw j hj
    · rfl
  have hPh2bit0 : Ph2.testBit 0 = decide (0 < hin) := by
    rw [hPh2def]
    split_ifs with h
    · rw [Nat.testBit_or, testBit_one2, hPh1def, wshl1_testBit (by norm_num)]
      simp [h.2]
    · rw [hPh1def, wshl1_testBit (by norm_num)]
      have hn : ¬ (0 : Int) < hin := by
        by_contra hc
        exact h ⟨by omega, hc⟩
      simp [hn]
  have hMh2bit0 : Mh2.testBit 0 = decide (hin < 0) := by
    rw [hMh2def]
    split_ifs with h
    · rw [Nat.testBit_or, testBit_one2, hMh1def, wshl1_testBit (by norm_num)]
      simp [h]
    · rw [hMh1def, wshl1_testBit (by norm_num)]
      simp [h]
  have hPh2bitS : ∀ j, 1 ≤ j → j < 64 → Ph2.testBit j = Ph.testBit (j - 1) := by
    intro j h1 hj
    rw [hPh2def]
    have hne : ¬ j = 0 := by omega
    split_ifs
    · rw [lor_one_testBit_succ _ j h1, hPh1def, wshl1_testBit hj, if_neg hne]
    · rw [hPh1def, wshl1_testBit hj, if_neg hne]
  have hMh2bitS : ∀ j, 1 ≤ j → j < 64 → Mh2.testBit j = Mh.testBit (j - 1) := by
    intro j h1 hj
    rw [hMh2def]
    have hne : ¬ j = 0 := by omega
    split_ifs
    · rw [lor_one_testBit_succ _ j h1, hMh1def, wshl1_testBit hj, if_neg hne]
    · rw [hMh1def, wshl1_testBit hj, if_neg hne]
  have hdbit : ∀ j : Nat, (slice.VP.testBit j && slice.VN.testBit j) = false := by
    intro j
    have h := congrArg (fun z => z.testBit j) hd
    simpa [Nat.testBit_and] using h
  have hphmh : ∀ j, j < 64 → (Ph.testBit j && Mh.testBit j) = false := by
    intro j hj
    rw [hPhbit j hj, hMhbit j]
    exact ph_mh_excl _ _ _ (hdbit j)
  have hdpm : ∀ j, j < 64 → (Ph2.testBit j && Mh2.testBit j) = false := by
    intro j hj
    rcases Nat.eq_zero_or_pos j with h0 | h1
    · subst h0
      rw [hPh2bit0, hMh2bit0]
      rcases htri with h | h | h <;> rw [h] <;> decide
    · rw [hPh2bitS j h1 hj, hMh2bitS j h1 hj]
      exact hphmh (j - 1) (by omega)
  have hVPnbit : ∀ j, j < 64 → VPn.testBit j =
      (Mh2.testBit j || !(Xv.testBit j || Ph2.testBit j)) := by
    intro j hj
    rw [hVPndef, Nat.testBit_or, testBit_wnot2 _ _ (lor_lt hXvlt hPh2lt) hj, Nat.testBit_or]
  have hVNnbit : ∀ j : Nat, VNn.testBit j = (Ph2.testBit j && Xv.testBit j) := by
    intro j
    rw [hVNndef, Nat.testBit_and]
  have hdisj : VPn &&& VNn = 0 := by
    apply Nat.eq_of_testBit_eq
    intro j
    rw [Nat.testBit_and]
    simp only [Nat.zero_testBit]
    rcases lt_or_ge j 64 with hj | hj
    · rw [hVPnbit j hj, hVNnbit j]
      exact vpvn_excl (Xv.testBit j) (Ph2.testBit j) (Mh2.testBit j) (hdpm j hj)
    · rw [testBit_ge64 hVPnlt hj]
      rfl
  -- per-row conservation
  have hrow : ∀ j, j < 64 →
      (((VPn.testBit j).toNat : Int) - ((VNn.testBit j).toNat : Int)) =
        ((((slice.VP.testBit j).toNat : Int) - ((slice.VN.testBit j).toNat : Int)) +
          ((((Ph.testBit j).toNat : Int) - ((Mh.testBit j).toNat : Int))) -
          (((Ph2.testBit j).toNat : Int) - ((Mh2.testBit j).toNat : Int))) := by
    intro j hj
    have hside : (carryB A slice.VP j = Mh2.testBit j ∧ Eq1.testBit j = Eqw.testBit j) ∨
        (carryB A slice.VP j = false ∧
          Eq1.testBit j = (Eqw.testBit j || Mh2.testBit j)) := by
      rcases Nat.eq_zero_or_pos j with h0 | h1
      · subst h0
        exact Or.inr ⟨rfl, by rw [hEq1bit0, hMh2bit0]⟩
      · refine Or.inl ⟨?_, hEq1bitS j h1⟩
        have hj1 : j - 1 + 1 = j := by omega
        have hc := hcarry (j - 1) (by omega)
        rw [hj1] at hc
        rw [hc, hMh2bitS j h1 hj]
    have hm := myers_bit (slice.VP.testBit j) (slice.VN.testBit j) (Eqw.testBit j)
      (Eq1.testBit j) (carryB A slice.VP j) (Ph2.testBit j) (Mh2.testBit j)
      (hdbit j) (hdpm j hj) hside
    rw [hVPnbit j hj, hVNnbit j, hPhbit j hj, hMhbit j, hXhbit j hj, hXvbit j]
    exact hm
  -- telescoping over the 64 rows
  have htel : ∀ n, n ≤ 64 →
      ((cnt VPn n : Int) - (cnt VNn n : Int)) =
        (((cnt slice.VP n : Int) - (cnt slice.VN n : Int)) +
          (if n = 0 then 0 else
            (((Ph.testBit (n - 1)).toNat : Int) - ((Mh.testBit (n - 1)).toNat : Int))) -
          (if n = 0 then 0 else hin)) := by
    intro n
    induction n with
    | zero =>
      intro _
      simp [cnt_zero]
    | succ k ih =>
      intro hk
      have hk64 : k < 64 := by omega
      have ihh := ih (by omega)
      have hrowk := hrow k hk64
      have e1 : cnt VPn (k + 1) = cnt VPn k + VPn / 2 ^ k % 2 := cnt_succ _ _
      have e2 : cnt VNn (k + 1) = cnt VNn k + VNn / 2 ^ k % 2 := cnt_succ _ _
      have e3 : cnt slice.VP (k + 1) = cnt slice.VP k + slice.VP / 2 ^ k % 2 := cnt_succ _ _
      have e4 : cnt slice.VN (k + 1) = cnt slice.VN k + slice.VN / 2 ^ k % 2 := cnt_succ _ _
      have b1 : VPn / 2 ^ k % 2 = (VPn.testBit k).toNat := bit_toNat _ _
      have b2 : VNn / 2 ^ k % 2 = (VNn.testBit k).toNat := bit_toNat _ _
      have b3 : slice.VP / 2 ^ k % 2 = (slice.VP.testBit k).toNat := bit_toNat _ _
      have b4 : slice.VN / 2 ^ k % 2 = (slice.VN.testBit k).toNat := bit_toNat _ _
      have hkne2 : ¬ (k + 1 = 0) := by omega
      rw [if_neg hkne2, if_neg hkne2]
      simp only [Nat.add_sub_cancel]
      rcases Nat.eq_zero_or_pos k with h0 | h1
      · subst h0
        have hp0v : (((Ph2.testBit 0).toNat : Int) - ((Mh2.testBit 0).toNat : Int)) = hin := by
          rw [hPh2bit0, hMh2bit0]
          rcases htri with h | h | h <;> rw [h] <;> decide
        have hz1 : cnt VPn 0 = 0 := cnt_zero _
        have hz2 : cnt VNn 0 = 0 := cnt_zero _
        have hz3 : cnt slice.VP 0 = 0 := cnt_zero _
        have hz4 : cnt slice.VN 0 = 0 := cnt_zero _
        omega
      · have hkne : ¬ (k = 0) := by omega
        rw [if_neg hkne, if_neg hkne] at ihh
        rw [hPh2bitS k h1 hk64, hMh2bitS k h1 hk64] at hrowk
        omega
  have h64 := htel 64 (by norm_num)
  norm_num at h64
  have hdtop : dtop = (((Ph.testBit 63).toNat : Int) - ((Mh.testBit 63).toNat : Int)) := by
    rw [hdtopdef]
    split_ifs with hP hM
    · have hp63 : Ph.testBit 63 = true := (land_lastBitMask_ne Ph).mp hP
      have hm63 : Mh.testBit 63 = false := by
        have h := hphmh 63 (by norm_num)
        rw [hp63] at h
        simpa using h
      rw [hp63, hm63]
      norm_num
    · have hm63 : Mh.testBit 63 = true := (land_lastBitMask_ne Mh).mp hM
      have hp63 : Ph.testBit 63 = false := by
        rcases hpb : Ph.testBit 63 with _ | _
        · rfl
        · exact absurd ((land_lastBitMask_ne Ph).mpr hpb) hP
      rw [hp63, hm63]
      norm_num
    · have hp63 : Ph.testBit 63 = false := by
        rcases hpb : Ph.testBit 63 with _ | _
        · rfl
        · exact absurd ((land_lastBitMask_ne Ph).mpr hpb) hP
      have hm63 : Mh.testBit 63 = false := by
        rcases hmb : Mh.testBit 63 with _ | _
        · rfl
        · exact absurd ((land_lastBitMask_ne Mh).mpr hmb) hM
      rw [hp63, hm63]
      norm_num
  refine ⟨hVPnlt, hVNnlt, hdisj, ?_⟩
  show (slice.scoreEnd + dtop) - sbs =
    (slice.scoreEnd - slice.scoreBeforeStart) +
      ((cnt VPn 64 : Int) - (cnt VNn 64 : Int)) -
      ((cnt slice.VP 64 : Int) - (cnt slice.VN 64 : Int))
  rw [hdtop]
  omega

end GraphAligner

namespace GraphAligner

theorem testBit_wnot_lt64 (z j : Nat) (hj : j < 64) : (wnot z).testBit j = !z.testBit j := by
  unfold wnot allOnes
  rw [Nat.testBit_xor, show (0xFFFFFFFFFFFFFFFF : Nat) = 2 ^ 64 - 1 by norm_num,
    Nat.testBit_two_pow_sub_one, decide_eq_true hj, Bool.true_xor]

theorem disj_bit {x y : Nat} (h : (x &&& y) = 0) (j : Nat) :
    (x.testBit j && y.testBit j) = false := by
  have hh := congrArg (fun z => z.testBit j) h
  simpa [Nat.testBit_and] using hh

theorem merge_bit (avp avn bvp bvn m x y : Bool)
    (ha : (avp && avn) = false) (hb : (bvp && bvn) = false) :
    (((avp && !m) || (bvp && m)) &&
      (((avn && x) && !m) || ((bvn && y) && m))) = false := by
  revert avp avn bvp bvn m x y
  decide

theorem merge_body_disjoint (a b : WordSlice) (mask la ra : Nat)
    (haVP : a.VP < wordMod) (hbVP : b.VP < wordMod)
    (hda : (a.VP &&& a.VN) = 0) (hdb : (b.VP &&& b.VN) = 0) :
    ((((a.VP &&& wnot mask) ||| (b.VP &&& mask)) &&&
      (((a.VN &&& wnot la) &&& wnot mask) ||| ((b.VN &&& wnot ra) &&& mask)))) = 0 := by
  apply Nat.eq_of_testBit_eq
  intro j
  simp only [Nat.zero_testBit, Nat.testBit_and, Nat.testBit_or]
  rcases lt_or_ge j 64 with hj | hj
  · rw [testBit_wnot_lt64 mask j hj, testBit_wnot_lt64 la j hj, testBit_wnot_lt64 ra j hj]
    exact merge_bit _ _ _ _ _ _ _ (disj_bit hda j) (disj_bit hdb j)
  · rw [testBit_ge64 haVP hj, testBit_ge64 hbVP hj]
    simp

/-- `mergeTwoSlices` preserves disjointness of `VP`/`VN` and takes the
pointwise minimum of the two boundary scores. -/
theorem mergeTwoSlices_inv (l r : WordSlice)
    (hlVP : l.VP < wordMod) (hrVP : r.VP < wordMod)
    (hdl : (l.VP &&& l.VN) = 0) (hdr : (r.VP &&& r.VN) = 0) :
    ((mergeTwoSlices l r).VP &&& (mergeTwoSlices l r).VN) = 0 ∧
    (mergeTwoSlices l r).scoreBeforeStart = min l.scoreBeforeStart r.scoreBeforeStart ∧
    (mergeTwoSlices l r).scoreEnd = min l.scoreEnd r.scoreEnd := by
  rcases lt_or_ge r.scoreBeforeStart l.scoreBeforeStart with hlt | hle
  · have hc : (l.scoreBeforeStart > r.scoreBeforeStart) = True := by
      simp [hlt]
    simp only [mergeTwoSlices, hc, if_true]
    refine ⟨merge_body_disjoint r l _ _ _ hrVP hlVP hdr hdl, ?_, ?_⟩
    · exact min_comm _ _
    · exact min_comm _ _
  · have hc : (l.scoreBeforeStart > r.scoreBeforeStart) = False := by
      simp
      omega
    simp only [mergeTwoSlices, hc, if_false]
    exact ⟨merge_body_disjoint l r _ _ _ hlVP hrVP hdl hdr, trivial, trivial⟩

end GraphAligner

namespace GraphAligner

/-- C2 counterexample: a concrete `getNextSlice` call whose two input slices
satisfy every invariant of `assertSliceCorrectness` (disjoint `VP`/`VN`,
exact score identity, non-negative scores, span at most 64) and whose band
assert `slice.scoreBeforeStart ≤ previous.scoreEnd` holds, yet whose output
`scoreBeforeStart` is negative. -/
theorem C2_scoreBeforeStart_negative :
    ((allOnes &&& allZeros) = 0 ∧
      (64 : Int) = 0 + ((popcount allOnes : Nat) : Int) - ((popcount allZeros : Nat) : Int) ∧
      (0 : Int) ≤ 0 ∧ (0 : Int) ≤ 64 ∧ (64 : Int) - 0 ≤ 64 ∧ (0 : Int) - 64 ≤ 64) ∧
    ((lastBitMask &&& 1) = 0 ∧
      (0 : Int) = 0 + ((popcount lastBitMask : Nat) : Int) - ((popcount 1 : Nat) : Int) ∧
      (0 : Int) ≤ 0 ∧ (0 : Int) - 0 ≤ 64 ∧ (0 : Int) - 0 ≤ 64) ∧
    (WordSlice.mk allOnes allZeros 64 0).scoreBeforeStart ≤
      (WordSlice.mk lastBitMask 1 0 0).scoreEnd ∧
    (getNextSlice 0 (WordSlice.mk allOnes allZeros 64 0) true true
      (WordSlice.mk lastBitMask 1 0 0)).scoreBeforeStart < 0 := by
  decide

end GraphAligner



namespace GraphAligner

/-- Borrow into bit `i` of the subtraction `S - T`, defined by the textbook
borrow recurrence. -/
def borrowB (S T : Nat) : Nat → Bool
  | 0 => false
  | i + 1 => ((!(S.testBit i)) && (T.testBit i || borrowB S T i)) ||
      (S.testBit i && T.testBit i && borrowB S T i)

theorem subBits (S T : Nat) (hT : T < wordMod) : ∀ i, i ≤ 64 →
    (wsub S T) % 2 ^ i + T % 2 ^ i = S % 2 ^ i + 2 ^ i * (borrowB S T i).toNat := by
  intro i
  induction i with
  | zero =>
    intro _
    simp only [borrowB, Bool.toNat_false]
    omega
  | succ i ih =>
    intro hi1
    have ihh := ih (by omega)
    have hk : (0 : Nat) < 2 ^ i := Nat.two_pow_pos i
    have hkp : (0 : Nat) < 2 ^ (i + 1) := Nat.two_pow_pos (i + 1)
    have e1 := mod_two_pow_succ S i
    have e2 := mod_two_pow_succ T i
    have e3 := mod_two_pow_succ (wsub S T) i
    have b1 := bit_toNat S i
    have b2 := bit_toNat T i
    have b3 := bit_toNat (wsub S T) i
    have m1 : S % 2 ^ i < 2 ^ i := Nat.mod_lt _ hk
    have m2 : T % 2 ^ i < 2 ^ i := Nat.mod_lt _ hk
    have m3 : (wsub S T) % 2 ^ i < 2 ^ i := Nat.mod_lt _ hk
    have hp : (2 : Nat) ^ (i + 1) = 2 * 2 ^ i := by ring
    have hm1 : S % 2 ^ (i + 1) < 2 ^ (i + 1) := Nat.mod_lt _ hkp
    have hm2 : T % 2 ^ (i + 1) < 2 ^ (i + 1) := Nat.mod_lt _ hkp
    have hdvd : (2 : Nat) ^ (i + 1) ∣ wordMod := by
      rw [wordMod_eq2]
      exact pow_dvd_pow 2 (by omega)
    have k1 : wsub S T % 2 ^ (i + 1) = (S + (wordMod - T)) % 2 ^ (i + 1) := by
      unfold wsub
      rw [Nat.mod_mod_of_dvd _ hdvd]
      congr 1
      omega
    have k3 : (wordMod - T) % 2 ^ (i + 1) = (2 ^ (i + 1) - T % 2 ^ (i + 1)) % 2 ^ (i + 1) := by
      obtain ⟨K, hK⟩ := hdvd
      have hq : T / 2 ^ (i + 1) < K := by
        rw [Nat.div_lt_iff_lt_mul hkp, mul_comm]
        rw [hK] at hT
        exact hT
      have hu : T % 2 ^ (i + 1) < 2 ^ (i + 1) := Nat.mod_lt _ hkp
      have hdm := Nat.div_add_mod T (2 ^ (i + 1))
      obtain ⟨a, ha⟩ : ∃ a, K = T / 2 ^ (i + 1) + 1 + a :=
        ⟨K - T / 2 ^ (i + 1) - 1, by omega⟩
      have hexp : wordMod - T = 2 ^ (i + 1) * a + (2 ^ (i + 1) - T % 2 ^ (i + 1)) := by
        rw [hK, ha]
        have h1 : 2 ^ (i + 1) * (T / 2 ^ (i + 1) + 1 + a) =
            2 ^ (i + 1) * (T / 2 ^ (i + 1)) + 2 ^ (i + 1) + 2 ^ (i + 1) * a := by ring
        omega
      rw [hexp, Nat.mul_add_mod]
    have key : wsub S T % 2 ^ (i + 1) =
        (S % 2 ^ (i + 1) + (2 ^ (i + 1) - T % 2 ^ (i + 1))) % 2 ^ (i + 1) := by
      rw [k1, Nat.add_mod, k3, Nat.add_mod_mod]
    have hcases : (S % 2 ^ (i + 1) + (2 ^ (i + 1) - T % 2 ^ (i + 1)) < 2 ^ (i + 1) ∧
        (S % 2 ^ (i + 1) + (2 ^ (i + 1) - T % 2 ^ (i + 1))) % 2 ^ (i + 1) =
          S % 2 ^ (i + 1) + (2 ^ (i + 1) - T % 2 ^ (i + 1))) ∨
        (2 ^ (i + 1) ≤ S % 2 ^ (i + 1) + (2 ^ (i + 1) - T % 2 ^ (i + 1)) ∧
        (S % 2 ^ (i + 1) + (2 ^ (i + 1) - T % 2 ^ (i + 1))) % 2 ^ (i + 1) =
          S % 2 ^ (i + 1) + (2 ^ (i + 1) - T % 2 ^ (i + 1)) - 2 ^ (i + 1)) := by
      rcases lt_or_ge (S % 2 ^ (i + 1) + (2 ^ (i + 1) - T % 2 ^ (i + 1))) (2 ^ (i + 1))
        with h | h
      · exact Or.inl ⟨h, Nat.mod_eq_of_lt h⟩
      · refine Or.inr ⟨h, ?_⟩
        rw [Nat.mod_eq_sub_mod h, Nat.mod_eq_of_lt (by omega)]
    rw [show borrowB S T (i + 1) = (((!(S.testBit i)) && (T.testBit i || borrowB S T i)) ||
      (S.testBit i && T.testBit i && borrowB S T i)) from rfl]
    cases h1 : S.testBit i <;> cases h2 : T.testBit i <;> cases h3 : borrowB S T i <;>
      cases h4 : (wsub S T).testBit i <;>
      rw [h1] at b1 <;> rw [h2] at b2 <;> rw [h4] at b3 <;> rw [h3] at ihh <;>
      simp only [Bool.toNat_true, Bool.toNat_false, Bool.and_self, Bool.or_self,
        Bool.true_and, Bool.false_and, Bool.and_true, Bool.and_false,
        Bool.true_or, Bool.false_or, Bool.or_true, Bool.or_false,
        Bool.not_true, Bool.not_false] at b1 b2 b3 ihh ⊢ <;>
      rw [b1] at e1 <;> rw [b2] at e2 <;> rw [b3] at e3 <;>
      rcases hcases with ⟨hcb, hc⟩ | ⟨hcb, hc⟩ <;>
      omega

theorem sub_testBit (S T : Nat) (hT : T < wordMod) (i : Nat) (hi : i < 64) :
    (wsub S T).testBit i = ((S.testBit i).xor ((T.testBit i).xor (borrowB S T i))) := by
  have hk : (0 : Nat) < 2 ^ i := Nat.two_pow_pos i
  have e1 := mod_two_pow_succ S i
  have e2 := mod_two_pow_succ T i
  have e3 := mod_two_pow_succ (wsub S T) i
  have b1 := bit_toNat S i
  have b2 := bit_toNat T i
  have b3 := bit_toNat (wsub S T) i
  have m1 : S % 2 ^ i < 2 ^ i := Nat.mod_lt _ hk
  have m2 : T % 2 ^ i < 2 ^ i := Nat.mod_lt _ hk
  have m3 : (wsub S T) % 2 ^ i < 2 ^ i := Nat.mod_lt _ hk
  have hp : (2 : Nat) ^ (i + 1) = 2 * 2 ^ i := by ring
  have ih := subBits S T hT i (by omega)
  have ih2 := subBits S T hT (i + 1) (by omega)
  rw [show borrowB S T (i + 1) = (((!(S.testBit i)) && (T.testBit i || borrowB S T i)) ||
    (S.testBit i && T.testBit i && borrowB S T i)) from rfl] at ih2
  cases h1 : S.testBit i <;> cases h2 : T.testBit i <;> cases h3 : borrowB S T i <;>
    cases h4 : (wsub S T).testBit i <;>
    rw [h1] at b1 <;> rw [h2] at b2 <;> rw [h4] at b3 <;>
    rw [h1, h2, h3] at ih2 <;> rw [h3] at ih <;>
    simp only [Bool.toNat_true, Bool.toNat_false, Bool.and_self, Bool.or_self,
      Bool.true_and, Bool.false_and, Bool.and_true, Bool.and_false,
      Bool.true_or, Bool.false_or, Bool.or_true, Bool.or_false, Bool.xor_false,
      Bool.xor_true, Bool.false_xor, Bool.true_xor, Bool.not_true,
      Bool.not_false] at b1 b2 b3 ih ih2 ⊢ <;>
    rw [b1] at e1 <;> rw [b2] at e2 <;> rw [b3] at e3 <;>
    first
    | rfl
    | omega

end GraphAligner

namespace GraphAligner

/-- Tie-breaking state of the merge mask: after `n` rows, is the right column
the one that was strictly smaller at the most recent row where the two
columns differed (`false` if they never differed)? -/
def signPersist (L R : Nat → Int) : Nat → Bool
  | 0 => false
  | n + 1 => if R (n + 1) < L (n + 1) then true
      else if L (n + 1) < R (n + 1) then false else signPersist L R n

theorem signPersist_succ (L R : Nat → Int) (n : Nat) :
    signPersist L R (n + 1) = (if R (n + 1) < L (n + 1) then true
      else if L (n + 1) < R (n + 1) then false else signPersist L R n) := rfl

/-- Per-row conservation of the slice merge: the vertical delta of the
pointwise-minimum column equals the delta selected by the mask bit, after
the `VN` reduction bits cancel the switchover rows. -/
theorem merge_row (lv ln rv rn m lr rr pj : Bool) (Lj Rj Lj1 Rj1 : Int)
    (hdl : (lv && ln) = false) (hdr : (rv && rn) = false)
    (hL1 : Lj1 = Lj + (lv.toNat : Int) - (ln.toNat : Int))
    (hR1 : Rj1 = Rj + (rv.toNat : Int) - (rn.toNat : Int))
    (hm1 : Rj1 < Lj1 → m = true) (hm2 : Lj1 < Rj1 → m = false)
    (hm3 : Lj1 = Rj1 → m = pj)
    (hpj1 : Rj < Lj → pj = true) (hpj2 : Lj < Rj → pj = false)
    (hlr1 : Lj1 < Rj1 → Rj < Lj → lr = true)
    (hlr2 : ¬(Lj1 < Rj1 ∧ Rj < Lj) → lr = false)
    (hrr1 : Rj1 < Lj1 → Lj < Rj → rr = true)
    (hrr2 : ¬(Rj1 < Lj1 ∧ Lj < Rj) → rr = false) :
    (((lv && !m) || (rv && m)).toNat : Int) -
      ((((ln && !lr) && !m) || ((rn && !rr) && m)).toNat : Int) =
      min Lj1 Rj1 - min Lj Rj := by
  subst hL1 hR1
  rcases lt_trichotomy (Lj + (lv.toNat : Int) - (ln.toNat : Int))
      (Rj + (rv.toNat : Int) - (rn.toNat : Int)) with h | h | h <;>
    rcases lt_trichotomy Lj Rj with h2 | h2 | h2
  · have hmv := hm2 h
    have hlrv := hlr2 (fun hc => absurd hc.2 (by omega))
    have hrrv := hrr2 (fun hc => absurd hc.1 (by omega))
    subst hmv hlrv hrrv
    clear hm1 hm2 hm3 hpj1 hpj2 hlr1 hlr2 hrr1 hrr2
    cases lv <;> cases ln <;> cases rv <;> cases rn <;>
      simp only [Bool.toNat_true, Bool.toNat_false, Bool.and_true, Bool.true_and,
        Bool.and_false, Bool.false_and, Bool.or_false, Bool.false_or, Bool.or_true,
        Bool.true_or, Bool.not_true, Bool.not_false, Bool.and_self, Bool.or_self,
        Bool.true_eq_false, Bool.false_eq_true] at hdl hdr h ⊢ <;> omega
  · have hmv := hm2 h
    have hlrv := hlr2 (fun hc => absurd hc.2 (by omega))
    have hrrv := hrr2 (fun hc => absurd hc.1 (by omega))
    subst hmv hlrv hrrv
    clear hm1 hm2 hm3 hpj1 hpj2 hlr1 hlr2 hrr1 hrr2
    cases lv <;> cases ln <;> cases rv <;> cases rn <;>
      simp only [Bool.toNat_true, Bool.toNat_false, Bool.and_true, Bool.true_and,
        Bool.and_false, Bool.false_and, Bool.or_false, Bool.false_or, Bool.or_true,
        Bool.true_or, Bool.not_true, Bool.not_false, Bool.and_self, Bool.or_self,
        Bool.true_eq_false, Bool.false_eq_true] at hdl hdr h ⊢ <;> omega
  · have hmv := hm2 h
    have hlrv := hlr1 h h2
    have hrrv := hrr2 (fun hc => absurd hc.1 (by omega))
    subst hmv hlrv hrrv
    clear hm1 hm2 hm3 hpj1 hpj2 hlr1 hlr2 hrr1 hrr2
    cases lv <;> cases ln <;> cases rv <;> cases rn <;>
      simp only [Bool.toNat_true, Bool.toNat_false, Bool.and_true, Bool.true_and,
        Bool.and_false, Bool.false_and, Bool.or_false, Bool.false_or, Bool.or_true,
        Bool.true_or, Bool.not_true, Bool.not_false, Bool.and_self, Bool.or_self,
        Bool.true_eq_false, Bool.false_eq_true] at hdl hdr h ⊢ <;> omega
  · have hpv := hpj2 h2
    have hmv := hm3 h
    subst hpv
    have hlrv := hlr2 (fun hc => absurd hc.1 (by omega))
    have hrrv := hrr2 (fun hc => absurd hc.1 (by omega))
    subst hmv hlrv hrrv
    clear hm1 hm2 hm3 hpj1 hpj2 hlr1 hlr2 hrr1 hrr2
    cases lv <;> cases ln <;> cases rv <;> cases rn <;>
      simp only [Bool.toNat_true, Bool.toNat_false, Bool.and_true, Bool.true_and,
        Bool.and_false, Bool.false_and, Bool.or_false, Bool.false_or, Bool.or_true,
        Bool.true_or, Bool.not_true, Bool.not_false, Bool.and_self, Bool.or_self,
        Bool.true_eq_false, Bool.false_eq_true] at hdl hdr h ⊢ <;> omega
  · have hmv := hm3 h
    have hlrv := hlr2 (fun hc => absurd hc.1 (by omega))
    have hrrv := hrr2 (fun hc => absurd hc.1 (by omega))
    subst hlrv hrrv
    clear hm1 hm2 hm3 hpj1 hpj2 hlr1 hlr2 hrr1 hrr2
    cases pj <;> rw [hmv] <;>
      cases lv <;> cases ln <;> cases rv <;> cases rn <;>
      simp only [Bool.toNat_true, Bool.toNat_false, Bool.and_true, Bool.true_and,
        Bool.and_false, Bool.false_and, Bool.or_false, Bool.false_or, Bool.or_true,
        Bool.true_or, Bool.not_true, Bool.not_false, Bool.and_self, Bool.or_self,
        Bool.true_eq_false, Bool.false_eq_true] at hdl hdr h ⊢ <;> omega
  · have hpv := hpj1 h2
    have hmv := hm3 h
    subst hpv
    have hlrv := hlr2 (fun hc => absurd hc.1 (by omega))
    have hrrv := hrr2 (fun hc => absurd hc.1 (by omega))
    subst hmv hlrv hrrv
    clear hm1 hm2 hm3 hpj1 hpj2 hlr1 hlr2 hrr1 hrr2
    cases lv <;> cases ln <;> cases rv <;> cases rn <;>
      simp only [Bool.toNat_true, Bool.toNat_false, Bool.and_true, Bool.true_and,
        Bool.and_false, Bool.false_and, Bool.or_false, Bool.false_or, Bool.or_true,
        Bool.true_or, Bool.not_true, Bool.not_false, Bool.and_self, Bool.or_self,
        Bool.true_eq_false, Bool.false_eq_true] at hdl hdr h ⊢ <;> omega
  · have hmv := hm1 h
    have hlrv := hlr2 (fun hc => absurd hc.1 (by omega))
    have hrrv := hrr1 h h2
    subst hmv hlrv hrrv
    clear hm1 hm2 hm3 hpj1 hpj2 hlr1 hlr2 hrr1 hrr2
    cases lv <;> cases ln <;> cases rv <;> cases rn <;>
      simp only [Bool.toNat_true, Bool.toNat_false, Bool.and_true, Bool.true_and,
        Bool.and_false, Bool.false_and, Bool.or_false, Bool.false_or, Bool.or_true,
        Bool.true_or, Bool.not_true, Bool.not_false, Bool.and_self, Bool.or_self,
        Bool.true_eq_false, Bool.false_eq_true] at hdl hdr h ⊢ <;> omega
  · have hmv := hm1 h
    have hlrv := hlr2 (fun hc => absurd hc.1 (by omega))
    have hrrv := hrr2 (fun hc => absurd hc.2 (by omega))
    subst hmv hlrv hrrv
    clear hm1 hm2 hm3 hpj1 hpj2 hlr1 hlr2 hrr1 hrr2
    cases lv <;> cases ln <;> cases rv <;> cases rn <;>
      simp only [Bool.toNat_true, Bool.toNat_false, Bool.and_true, Bool.true_and,
        Bool.and_false, Bool.false_and, Bool.or_false, Bool.false_or, Bool.or_true,
        Bool.true_or, Bool.not_true, Bool.not_false, Bool.and_self, Bool.or_self,
        Bool.true_eq_false, Bool.false_eq_true] at hdl hdr h ⊢ <;> omega
  · have hmv := hm1 h
    have hlrv := hlr2 (fun hc => absurd hc.2 (by omega))
    have hrrv := hrr2 (fun hc => absurd hc.2 (by omega))
    subst hmv hlrv hrrv
    clear hm1 hm2 hm3 hpj1 hpj2 hlr1 hlr2 hrr1 hrr2
    cases lv <;> cases ln <;> cases rv <;> cases rn <;>
      simp only [Bool.toNat_true, Bool.toNat_false, Bool.and_true, Bool.true_and,
        Bool.and_false, Bool.false_and, Bool.or_false, Bool.false_or, Bool.or_true,
        Bool.true_or, Bool.not_true, Bool.not_false, Bool.and_self, Bool.or_self,
        Bool.true_eq_false, Bool.false_eq_true] at hdl hdr h ⊢ <;> omega

end GraphAligner

namespace GraphAligner

theorem signPersist_lt (L R : Nat → Int) (i : Nat) (h : L i < R i) :
    signPersist L R i = false := by
  cases i with
  | zero => rfl
  | succ k =>
    rw [signPersist_succ, if_neg (by omega), if_pos h]

theorem signPersist_gt (L R : Nat → Int) (k : Nat) (h : R (k + 1) < L (k + 1)) :
    signPersist L R (k + 1) = true := by
  rw [signPersist_succ, if_pos h]

/-- The borrow of the mask-smearing subtraction `(ls | rs) - (rs << 1)` is set
exactly at positions where the two columns are tied and the right column was
the most recent strictly smaller one. -/
theorem merge_borrow_inv (ls rs : Nat) (L R : Nat → Int)
    (hord : L 0 ≤ R 0)
    (hlbit : ∀ j, j < 64 → ls.testBit j = decide (L (j + 1) < R (j + 1)))
    (hrbit : ∀ j, j < 64 → rs.testBit j = decide (R (j + 1) < L (j + 1))) :
    ∀ i, i ≤ 64 → borrowB (ls ||| rs) (wshl rs 1) i =
      decide (L i = R i ∧ signPersist L R i = true) := by
  have hTbit : ∀ j, j < 64 → (wshl rs 1).testBit j = decide (R j < L j) := by
    intro j hj
    rw [wshl1_testBit hj]
    cases j with
    | zero =>
      have h0 : ¬ (R 0 < L 0) := by omega
      simp [h0]
    | succ k =>
      rw [if_neg (by omega), Nat.add_sub_cancel]
      exact hrbit k (by omega)
  intro i
  induction i with
  | zero =>
    intro _
    simp [borrowB, signPersist]
  | succ i ih =>
    intro hi1
    have hi : i < 64 := by omega
    have ihh := ih (by omega)
    rw [show borrowB (ls ||| rs) (wshl rs 1) (i + 1) =
      (((!((ls ||| rs).testBit i)) && ((wshl rs 1).testBit i ||
          borrowB (ls ||| rs) (wshl rs 1) i)) ||
        ((ls ||| rs).testBit i && (wshl rs 1).testBit i &&
          borrowB (ls ||| rs) (wshl rs 1) i)) from rfl,
      Nat.testBit_or, hlbit i hi, hrbit i hi, hTbit i hi, ihh, signPersist_succ]
    rcases lt_trichotomy (L (i + 1)) (R (i + 1)) with h1 | h1 | h1
    · have h1b : ¬ (R (i + 1) < L (i + 1)) := by omega
      have hne : ¬ (L (i + 1) = R (i + 1)) := by omega
      rcases lt_trichotomy (L i) (R i) with h2 | h2 | h2
      · have h2b : ¬ (R i < L i) := by omega
        simp [h1, h1b, hne, h2b]
      · have h2b : ¬ (R i < L i) := by omega
        simp [h1, h1b, hne, h2b]
      · have h2ne : ¬ (L i = R i) := by omega
        simp [h1, h1b, hne, h2ne]
    · have h1a : ¬ (L (i + 1) < R (i + 1)) := by omega
      have h1b : ¬ (R (i + 1) < L (i + 1)) := by omega
      rcases lt_trichotomy (L i) (R i) with h2 | h2 | h2
      · have h2b : ¬ (R i < L i) := by omega
        have hsp := signPersist_lt L R i h2
        simp [h1, h1a, h1b, h2b, hsp]
      · have h2b : ¬ (R i < L i) := by omega
        cases hsp : signPersist L R i with
        | false => simp [h1, h1a, h1b, h2b, h2, hsp]
        | true => simp [h1, h1a, h1b, h2b, h2, hsp]
      · cases i with
        | zero => omega
        | succ k =>
          have hsp := signPersist_gt L R k h2
          simp [h1, h1a, h1b, h2, hsp]
    · have h1a : ¬ (L (i + 1) < R (i + 1)) := by omega
      have hne : ¬ (L (i + 1) = R (i + 1)) := by omega
      rcases lt_trichotomy (L i) (R i) with h2 | h2 | h2
      · have h2b : ¬ (R i < L i) := by omega
        simp [h1, h1a, hne, h2b]
      · have h2b : ¬ (R i < L i) := by omega
        simp [h1, h1a, hne, h2b]
      · have h2ne : ¬ (L i = R i) := by omega
        simp [h1, h1a, hne, h2ne]

/-- Bit `j` of the merge mask is set exactly when the right column is the
preferred (smaller, with right-most-recent tie-breaking) column at row `j`. -/
theorem merge_mask_bit (ls rs : Nat) (L R : Nat → Int)
    (hord : L 0 ≤ R 0)
    (hlbit : ∀ j, j < 64 → ls.testBit j = decide (L (j + 1) < R (j + 1)))
    (hrbit : ∀ j, j < 64 → rs.testBit j = decide (R (j + 1) < L (j + 1)))
    (j : Nat) (hj : j < 64) :
    ((rs ||| (wsub (ls ||| rs) (wshl rs 1))) &&& wnot ls).testBit j =
      signPersist L R (j + 1) := by
  have hTlt : wshl rs 1 < wordMod := Nat.mod_lt _ (by norm_num [wordMod])
  have hTbit : (wshl rs 1).testBit j = decide (R j < L j) := by
    rw [wshl1_testBit hj]
    cases j with
    | zero =>
      have h0 : ¬ (R 0 < L 0) := by omega
      simp [h0]
    | succ k =>
      rw [if_neg (by omega), Nat.add_sub_cancel]
      exact hrbit k (by omega)
  rw [Nat.testBit_and, Nat.testBit_or, testBit_wnot_lt64 _ _ hj,
    sub_testBit _ _ hTlt j hj, Nat.testBit_or, hlbit j hj, hrbit j hj, hTbit,
    merge_borrow_inv ls rs L R hord hlbit hrbit j (by omega), signPersist_succ]
  rcases lt_trichotomy (L (j + 1)) (R (j + 1)) with h1 | h1 | h1
  · have h1b : ¬ (R (j + 1) < L (j + 1)) := by omega
    rcases lt_trichotomy (L j) (R j) with h2 | h2 | h2
    · have h2b : ¬ (R j < L j) := by omega
      simp [h1, h1b, h2b]
    · have h2b : ¬ (R j < L j) := by omega
      simp [h1, h1b, h2b]
    · have h2ne : ¬ (L j = R j) := by omega
      simp [h1, h1b, h2ne]
  · have h1a : ¬ (L (j + 1) < R (j + 1)) := by omega
    have h1b : ¬ (R (j + 1) < L (j + 1)) := by omega
    rcases lt_trichotomy (L j) (R j) with h2 | h2 | h2
    · have h2b : ¬ (R j < L j) := by omega
      have hsp := signPersist_lt L R j h2
      simp [h1a, h1b, h2b, hsp]
    · have h2b : ¬ (R j < L j) := by omega
      cases hsp : signPersist L R j with
      | false => simp [h1a, h1b, h2b, h2, hsp]
      | true => simp [h1a, h1b, h2b, h2, hsp]
    · cases j with
      | zero => omega
      | succ k =>
        have hsp := signPersist_gt L R k h2
        have h2ne : ¬ (L (k + 1) = R (k + 1)) := by omega
        simp [h1a, h1b, h2, hsp, h2ne]
  · have h1a : ¬ (L (j + 1) < R (j + 1)) := by omega
    rcases lt_trichotomy (L j) (R j) with h2 | h2 | h2
    · have h2b : ¬ (R j < L j) := by omega
      simp [h1, h1a, h2b]
    · have h2b : ¬ (R j < L j) := by omega
      simp [h1, h1a, h2b]
    · have h2ne : ¬ (L j = R j) := by omega
      simp [h1, h1a, h2ne]

end GraphAligner

namespace GraphAligner

/-- Score identity of the merge body for ordered inputs: with the comparison
masks `ls`/`rs` given bit-by-bit by the cell-by-cell column comparison, the
merged `VP`/`VN` words encode the pointwise-minimum column: its 64-row drop
equals `cnt VP 64 - cnt VN 64`. -/
theorem merge_core (left right : WordSlice) (ls rs : Nat)
    (hdl : (left.VP &&& left.VN) = 0) (hdr : (right.VP &&& right.VN) = 0)
    (hord : left.scoreBeforeStart ≤ right.scoreBeforeStart)
    (hlbit : ∀ j, j < 64 → ls.testBit j = decide
      (left.scoreBeforeStart + (cnt left.VP (j + 1) : Int) - cnt left.VN (j + 1) <
       right.scoreBeforeStart + (cnt right.VP (j + 1) : Int) - cnt right.VN (j + 1)))
    (hrbit : ∀ j, j < 64 → rs.testBit j = decide
      (right.scoreBeforeStart + (cnt right.VP (j + 1) : Int) - cnt right.VN (j + 1) <
       left.scoreBeforeStart + (cnt left.VP (j + 1) : Int) - cnt left.VN (j + 1))) :
    min (left.scoreBeforeStart + (cnt left.VP 64 : Int) - cnt left.VN 64)
        (right.scoreBeforeStart + (cnt right.VP 64 : Int) - cnt right.VN 64) =
      min left.scoreBeforeStart right.scoreBeforeStart +
      (cnt ((left.VP &&& wnot ((rs ||| (wsub (ls ||| rs) (wshl rs 1))) &&& wnot ls)) |||
        (right.VP &&& ((rs ||| (wsub (ls ||| rs) (wshl rs 1))) &&& wnot ls))) 64 : Int) -
      cnt (((left.VN &&& wnot (ls &&& wshl rs 1)) &&&
          wnot ((rs ||| (wsub (ls ||| rs) (wshl rs 1))) &&& wnot ls)) |||
        ((right.VN &&& wnot (if rs &&& 1 ≠ 0 ∧
            left.scoreBeforeStart < right.scoreBeforeStart
          then (rs &&& wshl ls 1) ||| 1 else (rs &&& wshl ls 1))) &&&
          ((rs ||| (wsub (ls ||| rs) (wshl rs 1))) &&& wnot ls))) 64 := by
  set L : Nat → Int := fun n =>
    left.scoreBeforeStart + (cnt left.VP n : Int) - cnt left.VN n with hLdef
  set R : Nat → Int := fun n =>
    right.scoreBeforeStart + (cnt right.VP n : Int) - cnt right.VN n with hRdef
  have hLapp : ∀ n, L n = left.scoreBeforeStart + (cnt left.VP n : Int) - cnt left.VN n :=
    fun n => rfl
  have hRapp : ∀ n, R n = right.scoreBeforeStart + (cnt right.VP n : Int) - cnt right.VN n :=
    fun n => rfl
  have hL0 : L 0 = left.scoreBeforeStart := by
    rw [hLapp, cnt_zero, cnt_zero]
    push_cast
    ring
  have hR0 : R 0 = right.scoreBeforeStart := by
    rw [hRapp, cnt_zero, cnt_zero]
    push_cast
    ring
  have hord2 : L 0 ≤ R 0 := by
    rw [hL0, hR0]
    exact hord
  have hlbit2 : ∀ j, j < 64 → ls.testBit j = decide (L (j + 1) < R (j + 1)) := by
    intro j hj
    rw [hLapp, hRapp]
    exact hlbit j hj
  have hrbit2 : ∀ j, j < 64 → rs.testBit j = decide (R (j + 1) < L (j + 1)) := by
    intro j hj
    rw [hLapp, hRapp]
    exact hrbit j hj
  set MASK := (rs ||| (wsub (ls ||| rs) (wshl rs 1))) &&& wnot ls with hMASKdef
  set LRED := ls &&& wshl rs 1 with hLREDdef
  set RRED := (if rs &&& 1 ≠ 0 ∧ left.scoreBeforeStart < right.scoreBeforeStart
    then (rs &&& wshl ls 1) ||| 1 else (rs &&& wshl ls 1)) with hRREDdef
  set VPm := (left.VP &&& wnot MASK) ||| (right.VP &&& MASK) with hVPmdef
  set VNm := ((left.VN &&& wnot LRED) &&& wnot MASK) |||
    ((right.VN &&& wnot RRED) &&& MASK) with hVNmdef
  have hmask : ∀ j, j < 64 → MASK.testBit j = signPersist L R (j + 1) := by
    intro j hj
    rw [hMASKdef]
    exact merge_mask_bit ls rs L R hord2 hlbit2 hrbit2 j hj
  have hTbit : ∀ j, j < 64 → (wshl rs 1).testBit j = decide (R j < L j) := by
    intro j hj
    rw [wshl1_testBit hj]
    cases j with
    | zero =>
      have h0 : ¬ (R 0 < L 0) := by omega
      simp [h0]
    | succ k =>
      rw [if_neg (by omega), Nat.add_sub_cancel]
      exact hrbit2 k (by omega)
  have hT2bit : ∀ j, j < 64 → 1 ≤ j → (wshl ls 1).testBit j = decide (L j < R j) := by
    intro j hj h1
    rw [wshl1_testBit hj]
    cases j with
    | zero => omega
    | succ k =>
      rw [if_neg (by omega), Nat.add_sub_cancel]
      exact hlbit2 k (by omega)
  have hlred : ∀ j, j < 64 → LRED.testBit j =
      (decide (L (j + 1) < R (j + 1)) && decide (R j < L j)) := by
    intro j hj
    rw [hLREDdef, Nat.testBit_and, hlbit2 j hj, hTbit j hj]
  have hrred : ∀ j, j < 64 → RRED.testBit j =
      (decide (R (j + 1) < L (j + 1)) && decide (L j < R j)) := by
    intro j hj
    rw [hRREDdef]
    rcases Nat.eq_zero_or_pos j with h0 | h1
    · subst h0
      have hand1 : rs &&& 1 = rs % 2 := Nat.and_one_is_mod rs
      have hbit0 : rs.testBit 0 = decide (R 1 < L 1) := hrbit2 0 (by omega)
      have hL0R0 : ¬ (R 0 < L 0) := by omega
      split_ifs with hc
      · have hlt := hc.2
        rw [← hL0, ← hR0] at hlt
        rw [Nat.testBit_or, testBit_one2]
        have hd1 : decide (L 0 < R 0) = true := by
          simp [hlt]
        have hd2 : decide (R 1 < L 1) = true := by
          rw [← hbit0]
          rw [hand1] at hc
          rcases Nat.mod_two_eq_zero_or_one rs with h | h
          · exact absurd h hc.1
          · rw [Nat.testBit_zero, h]
            rfl
        rw [hd1, hd2]
        simp
      · rw [Nat.testBit_and, wshl1_testBit (by omega), if_pos rfl, Bool.and_false]
        rcases Nat.mod_two_eq_zero_or_one rs with h | h
        · have hb0 : rs.testBit 0 = false := by
            rw [Nat.testBit_zero, h]
            rfl
          rw [hb0] at hbit0
          rw [← hbit0]
          simp
        · have hc2 : ¬ (left.scoreBeforeStart < right.scoreBeforeStart) := by
            intro hlt
            exact hc ⟨by rw [hand1, h]; omega, hlt⟩
          rw [← hL0, ← hR0] at hc2
          have hd1 : decide (L 0 < R 0) = false := by
            simp [hc2]
          rw [hd1, Bool.and_false]
    · have hfix : ∀ x : Nat, (x ||| 1).testBit j = x.testBit j :=
        fun x => lor_one_testBit_succ x j h1
      have hbase : (rs &&& wshl ls 1).testBit j =
          (decide (R (j + 1) < L (j + 1)) && decide (L j < R j)) := by
        rw [Nat.testBit_and, hrbit2 j hj, hT2bit j hj h1]
      split_ifs
      · rw [hfix, hbase]
      · rw [hbase]
  have hVPmbit : ∀ j, j < 64 → VPm.testBit j =
      ((left.VP.testBit j && !(MASK.testBit j)) ||
        (right.VP.testBit j && MASK.testBit j)) := by
    intro j hj
    rw [hVPmdef, Nat.testBit_or, Nat.testBit_and, Nat.testBit_and,
      testBit_wnot_lt64 _ _ hj]
  have hVNmbit : ∀ j, j < 64 → VNm.testBit j =
      (((left.VN.testBit j && !(LRED.testBit j)) && !(MASK.testBit j)) ||
        ((right.VN.testBit j && !(RRED.testBit j)) && MASK.testBit j)) := by
    intro j hj
    rw [hVNmdef, Nat.testBit_or, Nat.testBit_and, Nat.testBit_and, Nat.testBit_and,
      Nat.testBit_and, testBit_wnot_lt64 LRED _ hj, testBit_wnot_lt64 RRED _ hj,
      testBit_wnot_lt64 MASK _ hj]
  have hstep : ∀ j, j < 64 →
      ((VPm.testBit j).toNat : Int) - ((VNm.testBit j).toNat : Int) =
        min (L (j + 1)) (R (j + 1)) - min (L j) (R j) := by
    intro j hj
    have hL1 : L (j + 1) = L j + ((left.VP.testBit j).toNat : Int) -
        ((left.VN.testBit j).toNat : Int) := by
      rw [hLapp, hLapp, cnt_succ, cnt_succ, bit_toNat, bit_toNat]
      push_cast
      ring
    have hR1 : R (j + 1) = R j + ((right.VP.testBit j).toNat : Int) -
        ((right.VN.testBit j).toNat : Int) := by
      rw [hRapp, hRapp, cnt_succ, cnt_succ, bit_toNat, bit_toNat]
      push_cast
      ring
    rw [hVPmbit j hj, hVNmbit j hj]
    refine merge_row (left.VP.testBit j) (left.VN.testBit j) (right.VP.testBit j)
      (right.VN.testBit j) (MASK.testBit j) (LRED.testBit j) (RRED.testBit j)
      (signPersist L R j) (L j) (R j) (L (j + 1)) (R (j + 1))
      (disj_bit hdl j) (disj_bit hdr j) hL1 hR1 ?_ ?_ ?_ ?_ ?_ ?_ ?_ ?_ ?_
    · intro h
      rw [hmask j hj, signPersist_succ, if_pos h]
    · intro h
      rw [hmask j hj, signPersist_succ, if_neg (by omega), if_pos h]
    · intro h
      rw [hmask j hj, signPersist_succ, if_neg (by omega), if_neg (by omega)]
    · intro h
      cases j with
      | zero =>
        rw [hL0, hR0] at h
        omega
      | succ k => exact signPersist_gt L R k h
    · intro h
      exact signPersist_lt L R j h
    · intro h h2
      rw [hlred j hj]
      simp [h, h2]
    · intro hn
      rw [hlred j hj]
      by_cases ha : L (j + 1) < R (j + 1)
      · have hb : ¬ (R j < L j) := fun hb => hn ⟨ha, hb⟩
        simp [hb]
      · simp [ha]
    · intro h h2
      rw [hrred j hj]
      simp [h, h2]
    · intro hn
      rw [hrred j hj]
      by_cases ha : R (j + 1) < L (j + 1)
      · have hb : ¬ (L j < R j) := fun hb => hn ⟨ha, hb⟩
        simp [hb]
      · simp [ha]
  have htel : ∀ n, n ≤ 64 →
      (cnt VPm n : Int) - (cnt VNm n : Int) = min (L n) (R n) - min (L 0) (R 0) := by
    intro n
    induction n with
    | zero =>
      intro _
      simp [cnt_zero]
    | succ k ih =>
      intro hk
      have hk64 : k < 64 := by omega
      have ihh := ih (by omega)
      have e1 : cnt VPm (k + 1) = cnt VPm k + VPm / 2 ^ k % 2 := cnt_succ _ _
      have e2 : cnt VNm (k + 1) = cnt VNm k + VNm / 2 ^ k % 2 := cnt_succ _ _
      have b1 : VPm / 2 ^ k % 2 = (VPm.testBit k).toNat := bit_toNat _ _
      have b2 : VNm / 2 ^ k % 2 = (VNm.testBit k).toNat := bit_toNat _ _
      have hs := hstep k hk64
      omega
  have h64 := htel 64 (by norm_num)
  have hLk : L 64 = left.scoreBeforeStart + (cnt left.VP 64 : Int) - cnt left.VN 64 :=
    hLapp 64
  have hRk : R 64 = right.scoreBeforeStart + (cnt right.VP 64 : Int) - cnt right.VN 64 :=
    hRapp 64
  rw [← hLk, ← hRk]
  rw [hL0, hR0] at h64
  omega

end GraphAligner

namespace GraphAligner

theorem cellByCell_bit1 (lVP0 lVN0 rVP0 rVN0 : Nat) (sd : Int) (j : Nat) (hj : j < 64) :
    (differenceMasksCellByCell lVP0 lVN0 rVP0 rVN0 sd).1.testBit j =
      decide ((cnt lVP0 (j + 1) : Int) - cnt lVN0 (j + 1) <
        sd + (cnt rVP0 (j + 1) : Int) - cnt rVN0 (j + 1)) := by
  have h := (cellByCell_inv lVP0 lVN0 rVP0 rVN0 sd 64 (le_refl 64)).2.2.2.2.2.2.2.2.1
  have h2 : (differenceMasksCellByCell lVP0 lVN0 rVP0 rVN0 sd).1.testBit j =
      decide (j < 64 ∧ ((cnt lVP0 (j + 1) : Int) - cnt lVN0 (j + 1)) <
        (sd + (cnt rVP0 (j + 1) : Int) - cnt rVN0 (j + 1))) := h j hj
  rw [h2, decide_eq_decide]
  exact ⟨fun hx => hx.2, fun hx => ⟨hj, hx⟩⟩

theorem cellByCell_bit2 (lVP0 lVN0 rVP0 rVN0 : Nat) (sd : Int) (j : Nat) (hj : j < 64) :
    (differenceMasksCellByCell lVP0 lVN0 rVP0 rVN0 sd).2.testBit j =
      decide (sd + (cnt rVP0 (j + 1) : Int) - cnt rVN0 (j + 1) <
        (cnt lVP0 (j + 1) : Int) - cnt lVN0 (j + 1)) := by
  have h := (cellByCell_inv lVP0 lVN0 rVP0 rVN0 sd 64 (le_refl 64)).2.2.2.2.2.2.2.2.2
  have h2 : (differenceMasksCellByCell lVP0 lVN0 rVP0 rVN0 sd).2.testBit j =
      decide (j < 64 ∧ (sd + (cnt rVP0 (j + 1) : Int) - cnt rVN0 (j + 1)) <
        ((cnt lVP0 (j + 1) : Int) - cnt lVN0 (j + 1))) := h j hj
  rw [h2, decide_eq_decide]
  exact ⟨fun hx => hx.2, fun hx => ⟨hj, hx⟩⟩

/-- `mergeTwoSlices` output is well formed and satisfies the exact score
identity (stated with the bit counter `cnt`), provided both inputs do. -/
theorem mergeTwoSlices_score (l r : WordSlice)
    (hlVP : l.VP < wordMod) (hlVN : l.VN < wordMod)
    (hrVP : r.VP < wordMod) (hrVN : r.VN < wordMod)
    (hdl : (l.VP &&& l.VN) = 0) (hdr : (r.VP &&& r.VN) = 0)
    (hinvl : l.scoreEnd = l.scoreBeforeStart + (cnt l.VP 64 : Int) - cnt l.VN 64)
    (hinvr : r.scoreEnd = r.scoreBeforeStart + (cnt r.VP 64 : Int) - cnt r.VN 64) :
    (mergeTwoSlices l r).VP < wordMod ∧ (mergeTwoSlices l r).VN < wordMod ∧
    (mergeTwoSlices l r).scoreEnd = (mergeTwoSlices l r).scoreBeforeStart +
      (cnt (mergeTwoSlices l r).VP 64 : Int) - cnt (mergeTwoSlices l r).VN 64 := by
  rcases lt_or_ge r.scoreBeforeStart l.scoreBeforeStart with hlt | hle
  · have hc : (l.scoreBeforeStart > r.scoreBeforeStart) = True := by
      simp [hlt]
    simp only [mergeTwoSlices, hc, if_true]
    have hsd0 : 0 ≤ l.scoreBeforeStart - r.scoreBeforeStart := by omega
    have heq := differenceMasks_eq_cellByCell r.VP r.VN l.VP l.VN
      (l.scoreBeforeStart - r.scoreBeforeStart) hrVP hrVN hlVP hlVN hdr hdl hsd0
    rw [heq]
    set ls := (differenceMasksCellByCell r.VP r.VN l.VP l.VN
      (l.scoreBeforeStart - r.scoreBeforeStart)).1 with hlsdef
    set rs := (differenceMasksCellByCell r.VP r.VN l.VP l.VN
      (l.scoreBeforeStart - r.scoreBeforeStart)).2 with hrsdef
    have hlbit : ∀ j, j < 64 → ls.testBit j = decide
        (r.scoreBeforeStart + (cnt r.VP (j + 1) : Int) - cnt r.VN (j + 1) <
         l.scoreBeforeStart + (cnt l.VP (j + 1) : Int) - cnt l.VN (j + 1)) := by
      intro j hj
      rw [hlsdef, cellByCell_bit1 r.VP r.VN l.VP l.VN
        (l.scoreBeforeStart - r.scoreBeforeStart) j hj, decide_eq_decide]
      omega
    have hrbit : ∀ j, j < 64 → rs.testBit j = decide
        (l.scoreBeforeStart + (cnt l.VP (j + 1) : Int) - cnt l.VN (j + 1) <
         r.scoreBeforeStart + (cnt r.VP (j + 1) : Int) - cnt r.VN (j + 1)) := by
      intro j hj
      rw [hrsdef, cellByCell_bit2 r.VP r.VN l.VP l.VN
        (l.scoreBeforeStart - r.scoreBeforeStart) j hj, decide_eq_decide]
      omega
    refine ⟨lor_lt (land_lt_left hrVP) (land_lt_left hlVP),
      lor_lt (land_lt_left (land_lt_left hrVN)) (land_lt_left (land_lt_left hlVN)), ?_⟩
    rw [hinvr, hinvl]
    have hmc := merge_core r l ls rs hdr hdl (by omega) hlbit hrbit
    simp only [hc] at hmc
    exact hmc
  · have hc : (l.scoreBeforeStart > r.scoreBeforeStart) = False := by
      simp
      omega
    simp only [mergeTwoSlices, hc, if_false]
    have hsd0 : 0 ≤ r.scoreBeforeStart - l.scoreBeforeStart := by omega
    have heq := differenceMasks_eq_cellByCell l.VP l.VN r.VP r.VN
      (r.scoreBeforeStart - l.scoreBeforeStart) hlVP hlVN hrVP hrVN hdl hdr hsd0
    rw [heq]
    set ls := (differenceMasksCellByCell l.VP l.VN r.VP r.VN
      (r.scoreBeforeStart - l.scoreBeforeStart)).1 with hlsdef
    set rs := (differenceMasksCellByCell l.VP l.VN r.VP r.VN
      (r.scoreBeforeStart - l.scoreBeforeStart)).2 with hrsdef
    have hlbit : ∀ j, j < 64 → ls.testBit j = decide
        (l.scoreBeforeStart + (cnt l.VP (j + 1) : Int) - cnt l.VN (j + 1) <
         r.scoreBeforeStart + (cnt r.VP (j + 1) : Int) - cnt r.VN (j + 1)) := by
      intro j hj
      rw [hlsdef, cellByCell_bit1 l.VP l.VN r.VP r.VN
        (r.scoreBeforeStart - l.scoreBeforeStart) j hj, decide_eq_decide]
      omega
    have hrbit : ∀ j, j < 64 → rs.testBit j = decide
        (r.scoreBeforeStart + (cnt r.VP (j + 1) : Int) - cnt r.VN (j + 1) <
         l.scoreBeforeStart + (cnt l.VP (j + 1) : Int) - cnt l.VN (j + 1)) := by
      intro j hj
      rw [hrsdef, cellByCell_bit2 l.VP l.VN r.VP r.VN
        (r.scoreBeforeStart - l.scoreBeforeStart) j hj, decide_eq_decide]
      omega
    refine ⟨lor_lt (land_lt_left hlVP) (land_lt_left hrVP),
      lor_lt (land_lt_left (land_lt_left hlVN)) (land_lt_left (land_lt_left hrVN)), ?_⟩
    rw [hinvl, hinvr]
    exact merge_core l r ls rs hdl hdr (by omega) hlbit hrbit

end GraphAligner

namespace GraphAligner

/-- C2 (amended): the slices built by the source-slice constructors satisfy all
invariants of `assertSliceCorrectness`; `getNextSlice` preserves `VP & VN = 0`,
the exact score identity `scoreEnd = scoreBeforeStart + popcount VP - popcount
VN` and the 64-row score span, provided its input slice satisfies them and the
source's band assert `slice.scoreBeforeStart ≤ previous.scoreEnd` holds;
`mergeTwoSlices` preserves `VP & VN = 0`, satisfies the same exact score
identity and span bound, and takes the minimum of both boundary scores
(so its scores are non-negative whenever its inputs' are).  Non-negativity of
the scores, by contrast, is not preserved by `getNextSlice` (see
`C2_scoreBeforeStart_negative`). -/
theorem C2_sliceInvariants
    (Eqw : Nat) (slice previous l r : WordSlice) (pib pEq : Bool)
    (row : Nat) (prevScore : Int)
    (hEq : Eqw < wordMod) (hVP : slice.VP < wordMod) (hVN : slice.VN < wordMod)
    (hd : (slice.VP &&& slice.VN) = 0)
    (hinv : slice.scoreEnd = slice.scoreBeforeStart +
      ((popcount slice.VP : Nat) : Int) - ((popcount slice.VN : Nat) : Int))
    (hband : pib = true → slice.scoreBeforeStart ≤ previous.scoreEnd)
    (hps : 0 ≤ prevScore)
    (hlVP : l.VP < wordMod) (hlVN : l.VN < wordMod)
    (hrVP : r.VP < wordMod) (hrVN : r.VN < wordMod)
    (hdl : (l.VP &&& l.VN) = 0) (hdr : (r.VP &&& r.VN) = 0)
    (hinvl : l.scoreEnd = l.scoreBeforeStart +
      ((popcount l.VP : Nat) : Int) - ((popcount l.VN : Nat) : Int))
    (hinvr : r.scoreEnd = r.scoreBeforeStart +
      ((popcount r.VP : Nat) : Int) - ((popcount r.VN : Nat) : Int)) :
    (((getSourceSliceWithoutBefore row).VP &&& (getSourceSliceWithoutBefore row).VN) = 0 ∧
      (getSourceSliceWithoutBefore row).scoreEnd =
        (getSourceSliceWithoutBefore row).scoreBeforeStart +
        ((popcount (getSourceSliceWithoutBefore row).VP : Nat) : Int) -
        ((popcount (getSourceSliceWithoutBefore row).VN : Nat) : Int) ∧
      0 ≤ (getSourceSliceWithoutBefore row).scoreBeforeStart ∧
      0 ≤ (getSourceSliceWithoutBefore row).scoreEnd ∧
      (getSourceSliceWithoutBefore row).scoreEnd -
        (getSourceSliceWithoutBefore row).scoreBeforeStart ≤ 64 ∧
      (getSourceSliceWithoutBefore row).scoreBeforeStart -
        (getSourceSliceWithoutBefore row).scoreEnd ≤ 64) ∧
    (((getSourceSliceFromScore prevScore).VP &&& (getSourceSliceFromScore prevScore).VN) = 0 ∧
      (getSourceSliceFromScore prevScore).scoreEnd =
        (getSourceSliceFromScore prevScore).scoreBeforeStart +
        ((popcount (getSourceSliceFromScore prevScore).VP : Nat) : Int) -
        ((popcount (getSourceSliceFromScore prevScore).VN : Nat) : Int) ∧
      0 ≤ (getSourceSliceFromScore prevScore).scoreBeforeStart ∧
      0 ≤ (getSourceSliceFromScore prevScore).scoreEnd ∧
      (getSourceSliceFromScore prevScore).scoreEnd -
        (getSourceSliceFromScore prevScore).scoreBeforeStart ≤ 64 ∧
      (getSourceSliceFromScore prevScore).scoreBeforeStart -
        (getSourceSliceFromScore prevScore).scoreEnd ≤ 64) ∧
    (((getNextSlice Eqw slice pib pEq previous).VP &&&
        (getNextSlice Eqw slice pib pEq previous).VN) = 0 ∧
      (getNextSlice Eqw slice pib pEq previous).scoreEnd =
        (getNextSlice Eqw slice pib pEq previous).scoreBeforeStart +
        ((popcount (getNextSlice Eqw slice pib pEq previous).VP : Nat) : Int) -
        ((popcount (getNextSlice Eqw slice pib pEq previous).VN : Nat) : Int) ∧
      (getNextSlice Eqw slice pib pEq previous).scoreEnd -
        (getNextSlice Eqw slice pib pEq previous).scoreBeforeStart ≤ 64 ∧
      (getNextSlice Eqw slice pib pEq previous).scoreBeforeStart -
        (getNextSlice Eqw slice pib pEq previous).scoreEnd ≤ 64) ∧
    (((mergeTwoSlices l r).VP &&& (mergeTwoSlices l r).VN) = 0 ∧
      (mergeTwoSlices l r).scoreBeforeStart = min l.scoreBeforeStart r.scoreBeforeStart ∧
      (mergeTwoSlices l r).scoreEnd = min l.scoreEnd r.scoreEnd ∧
      (mergeTwoSlices l r).scoreEnd = (mergeTwoSlices l r).scoreBeforeStart +
        ((popcount (mergeTwoSlices l r).VP : Nat) : Int) -
        ((popcount (mergeTwoSlices l r).VN : Nat) : Int) ∧
      (mergeTwoSlices l r).scoreEnd - (mergeTwoSlices l r).scoreBeforeStart ≤ 64 ∧
      (mergeTwoSlices l r).scoreBeforeStart - (mergeTwoSlices l r).scoreEnd ≤ 64) := by
  have hpcA : popcount allOnes = 64 := by decide
  have hpcZ : popcount allZeros = 0 := by decide
  have hspec := getNextSlice_cnt_spec Eqw slice previous pib pEq hEq hVP hVN hd hband
  obtain ⟨hVPlt2, hVNlt2, hdisj2, hcons⟩ := hspec
  have hc1 : popcount (getNextSlice Eqw slice pib pEq previous).VP =
      cnt (getNextSlice Eqw slice pib pEq previous).VP 64 := popcount_eq_cnt _ hVPlt2
  have hc2 : popcount (getNextSlice Eqw slice pib pEq previous).VN =
      cnt (getNextSlice Eqw slice pib pEq previous).VN 64 := popcount_eq_cnt _ hVNlt2
  have hc3 : popcount slice.VP = cnt slice.VP 64 := popcount_eq_cnt _ hVP
  have hc4 : popcount slice.VN = cnt slice.VN 64 := popcount_eq_cnt _ hVN
  have hb1 : cnt (getNextSlice Eqw slice pib pEq previous).VP 64 ≤ 64 := cnt_le _ _
  have hb2 : cnt (getNextSlice Eqw slice pib pEq previous).VN 64 ≤ 64 := cnt_le _ _
  have hinvl2 : l.scoreEnd = l.scoreBeforeStart + (cnt l.VP 64 : Int) - cnt l.VN 64 := by
    rw [hinvl, popcount_eq_cnt _ hlVP, popcount_eq_cnt _ hlVN]
  have hinvr2 : r.scoreEnd = r.scoreBeforeStart + (cnt r.VP 64 : Int) - cnt r.VN 64 := by
    rw [hinvr, popcount_eq_cnt _ hrVP, popcount_eq_cnt _ hrVN]
  have hms := mergeTwoSlices_score l r hlVP hlVN hrVP hrVN hdl hdr hinvl2 hinvr2
  obtain ⟨hVPmlt, hVNmlt, hscoreM⟩ := hms
  have hm1 : popcount (mergeTwoSlices l r).VP = cnt (mergeTwoSlices l r).VP 64 :=
    popcount_eq_cnt _ hVPmlt
  have hm2 : popcount (mergeTwoSlices l r).VN = cnt (mergeTwoSlices l r).VN 64 :=
    popcount_eq_cnt _ hVNmlt
  have hmb1 : cnt (mergeTwoSlices l r).VP 64 ≤ 64 := cnt_le _ _
  have hmb2 : cnt (mergeTwoSlices l r).VN 64 ≤ 64 := cnt_le _ _
  obtain ⟨hdisjM, hsbsM, hseM⟩ := mergeTwoSlices_inv l r hlVP hrVP hdl hdr
  refine ⟨⟨?_, ?_, ?_, ?_, ?_, ?_⟩, ⟨?_, ?_, ?_, ?_, ?_, ?_⟩,
    ⟨hdisj2, ?_, ?_, ?_⟩, hdisjM, hsbsM, hseM, ?_, ?_, ?_⟩
  · simp only [getSourceSliceWithoutBefore]
    decide
  · simp only [getSourceSliceWithoutBefore]
    rw [hpcA, hpcZ]
    norm_num
  · simp only [getSourceSliceWithoutBefore]
    omega
  · simp only [getSourceSliceWithoutBefore]
    omega
  · simp only [getSourceSliceWithoutBefore]
    omega
  · simp only [getSourceSliceWithoutBefore]
    omega
  · simp only [getSourceSliceFromScore]
    decide
  · simp only [getSourceSliceFromScore]
    rw [hpcA, hpcZ]
    norm_num
  · simp only [getSourceSliceFromScore]
    omega
  · simp only [getSourceSliceFromScore]
    omega
  · simp only [getSourceSliceFromScore]
    omega
  · simp only [getSourceSliceFromScore]
    omega
  · omega
  · omega
  · omega
  · omega
  · omega
  · omega

/-- Witness for `C2_sliceInvariants`: the hypotheses are discharged at the
concrete inputs `Eq = 0`, `slice = previous = (AllOnes, AllZeros, 64, 0)`,
`l = r = (0, 0, 0, 0)`, `row = 0`, `previousScore = 0`, and the disjointness
of the produced slice's masks is read off the conclusion. -/
theorem C2_sliceInvariants_witness :
    ((getNextSlice 0 (WordSlice.mk allOnes allZeros 64 0) true true
        (WordSlice.mk allOnes allZeros 64 0)).VP &&&
      (getNextSlice 0 (WordSlice.mk allOnes allZeros 64 0) true true
        (WordSlice.mk allOnes allZeros 64 0)).VN) = 0 := by
  have h := C2_sliceInvariants 0 (WordSlice.mk allOnes allZeros 64 0)
    (WordSlice.mk allOnes allZeros 64 0) (WordSlice.mk 0 0 0 0) (WordSlice.mk 0 0 0 0)
    true true 0 0 (by decide) (by decide) (by decide) (by decide) (by decide)
    (fun _ => by decide) (by decide) (by decide) (by decide) (by decide) (by decide)
    (by decide) (by decide) (by decide) (by decide)
  exact h.2.2.1.1

end GraphAligner
